import Mathlib

/-!
# Plagiarism detector `document_reader.c`: tokens, k-gram hash table, similarity

A shallow embedding of the core of `document_reader.c`:
the normalizer and tokenizer (`to_lowercase`, `remove_punctuation_numbers`,
`is_stopword`, `preprocess_text`, `tokenize_text`), the chained hash table
(`create_hash_table`, `hash_function`, `hash_table_insert`, `hash_table_contains`),
the sliding-window generator `generate_kgrams`, the set metrics
(`hash_table_intersection_count`, `hash_table_union_count`,
`calculate_jaccard_similarity`, `calculate_cosine_similarity`), and the comparator
(`compare_documents` and the status bands of `print_comparison_results`).

Modelling conventions
* a C string (`char*`, NUL terminated) is a `String`; `strcmp(a, b) == 0` is `a = b`;
* a pointer that may be `NULL` is an `Option`; a linked chain of `HashNode`s is the
  list of its nodes, head first; the bucket array is the list of its chains;
* `int` counters that start at 0 or 1 and are only incremented are `Nat` (they stay far
  below `2^31` for the at most `MAX_TOKENS = 10000` tokens of a document); an `int`
  that can be negative (`k`, the union count) is an `Int`;
* `malloc`/`calloc`/`strdup` are assumed to succeed, and console output is not modelled;
* a `float` is a binary32 value `mant * 2 ^ exp` (`BinFloat`) and every `float` or
  `double` operation is rounded to nearest, ties to even; `compare_documents` computes
  and stores such values. The two similarity functions are given twice:
  `calculate_jaccard_similarity_float` and `calculate_cosine_similarity_float` are the
  `float` values the C functions return, and `calculate_jaccard_similarity` and
  `calculate_cosine_similarity` are the exact values of the same quotients (a rational,
  and a real since it contains square roots), used for statements in exact arithmetic.
-/

namespace Plagiarism

/-! ## Data model -/

/-- `#define MAX_TOKENS 10000`. -/
def MAX_TOKENS : Nat := 10000

/-- `#define HASH_TABLE_SIZE 10007`. -/
def HASH_TABLE_SIZE : Nat := 10007

/-- `struct HashNode` without its `next` pointer: a chain is a `List HashNode`. -/
structure HashNode where
  kgram : String
  count : Nat
deriving DecidableEq, Repr

/-- `struct HashTable`: the bucket array `table`, its length `size`, and the number
of distinct keys `count`. -/
structure HashTable where
  table : List (List HashNode)
  size : Nat
  count : Nat
deriving DecidableEq, Repr

/-- `struct TokenList`: the valid prefix `tokens[0 .. count-1]` of the token array. -/
structure TokenList where
  tokens : List String
deriving DecidableEq, Repr

/-- Field `count` of `TokenList`: the number of valid tokens. -/
def TokenList.count (t : TokenList) : Nat := t.tokens.length

/-- `struct KGramList`. -/
structure KGramList where
  kgrams : List String
  count : Nat
  k_value : Int
deriving DecidableEq, Repr

/-- `struct DocumentReader`; `stopwords` is the valid prefix of the stopword array. -/
structure DocumentReader where
  filename : Option String
  token_list : TokenList
  kgram_list : KGramList
  kgram_hash : Option HashTable
  stopwords : List String
deriving DecidableEq, Repr

/-- `create_document_reader`. -/
def create_document_reader : DocumentReader :=
  { filename := none
    token_list := { tokens := [] }
    kgram_list := { kgrams := [], count := 0, k_value := 0 }
    kgram_hash := none
    stopwords := [] }

/-! ## Hash table -/

/-- `create_hash_table`: `calloc` gives `size` empty chains. -/
def create_hash_table (size : Nat) : HashTable :=
  { table := List.replicate size [], size := size, count := 0 }

/-- `hash_function` (djb2): `hash = ((hash << 5) + hash) + c` on a 64-bit
`unsigned long`, then `hash % table_size`. A character enters by its code, which is
the value of the C `char` for ASCII text. -/
def hash_function (str : String) (table_size : Nat) : Nat :=
  (str.toList.foldl
    (fun hash c => ((hash * 2 ^ 5 % 2 ^ 64 + hash) % 2 ^ 64 + c.toNat) % 2 ^ 64) 5381)
    % table_size

/-- The search loop `while (current != NULL)` of `hash_table_insert`: the chain with
the count of the first node whose key is `kgram` incremented, or `none` when the loop
reaches the end of the chain without a match. -/
def chain_increment : List HashNode → String → Option (List HashNode)
  | [], _ => none
  | current :: next, kgram =>
    if current.kgram = kgram then
      some ({ current with count := current.count + 1 } :: next)
    else
      (chain_increment next kgram).map (fun rest => current :: rest)

/-- `hash_table_insert` on a non-NULL table: increment the matching node of the
bucket chain, or push a new node with count 1 at the head of the chain and bump the
distinct-key count. -/
def hash_table_insert (ht : HashTable) (kgram : String) : HashTable :=
  let index := hash_function kgram ht.size
  match chain_increment (ht.table.getD index []) kgram with
  | some chain => { ht with table := ht.table.set index chain }
  | none =>
    let newNode : HashNode := { kgram := kgram, count := 1 }
    { ht with
      table := ht.table.set index (newNode :: ht.table.getD index [])
      count := ht.count + 1 }

/-- The search loop of `hash_table_contains` over one chain. -/
def chain_contains : List HashNode → String → Bool
  | [], _ => false
  | current :: next, kgram =>
    if current.kgram = kgram then true else chain_contains next kgram

/-- `hash_table_contains` on a non-NULL table. -/
def hash_table_contains (ht : HashTable) (kgram : String) : Bool :=
  let index := hash_function kgram ht.size
  chain_contains (ht.table.getD index []) kgram

/-- All nodes of the table in bucket order, chain order within a bucket: the order
in which `export_kgrams` and `hash_table_intersection_count` visit them. -/
def hash_table_nodes (ht : HashTable) : List HashNode :=
  ht.table.flatten

/-- A sequence of `hash_table_insert` calls, in list order. -/
def insert_all (ht : HashTable) (kgrams : List String) : HashTable :=
  kgrams.foldl hash_table_insert ht

/-! ## K-gram generation -/

/-- The string built by the inner loops of `generate_kgrams` for window start `i`:
`strcat` of `tokens[i + j]` for `j = 0 .. k-1`, with `" "` appended while `j < k - 1`. -/
def build_kgram (tokens : List String) (i k : Nat) : String :=
  (List.range k).foldl
    (fun kgram j =>
      let kgram := kgram ++ tokens.getD (i + j) ""
      if j < k - 1 then kgram ++ " " else kgram)
    ""

/-- One iteration of the sliding-window loop of `generate_kgrams`: store the k-gram
at `kgrams[count]`, increment `count`, insert the k-gram into the hash table. -/
def kgram_step (tokens : List String) (k : Nat) (st : KGramList × HashTable) (i : Nat) :
    KGramList × HashTable :=
  let kgram := build_kgram tokens i k
  ({ st.1 with kgrams := st.1.kgrams ++ [kgram], count := st.1.count + 1 },
   hash_table_insert st.2 kgram)

/-- How a call of `generate_kgrams` ends: the `Invalid k value` error return, the
`num_kgrams <= 0` return, or the normal end after the sliding-window loop. -/
inductive KGramOutcome where
  | invalid_k
  | no_kgrams
  | generated
deriving DecidableEq, Repr

/-- `generate_kgrams`: the reader after the call and the way the call ended. The
branch `num_kgrams <= 0` (which frees the old arrays and only resets the count) is
kept as in the source; the freed pointers are modelled as an empty list and `none`. -/
def generate_kgrams (reader : DocumentReader) (k : Int) : DocumentReader × KGramOutcome :=
  if k ≤ 0 ∨ k > (reader.token_list.count : Int) then
    (reader, KGramOutcome.invalid_k)
  else
    let num_kgrams : Int := (reader.token_list.count : Int) - k + 1
    if num_kgrams ≤ 0 then
      ({ reader with
          kgram_list := { reader.kgram_list with kgrams := [], count := 0 }
          kgram_hash := none },
       KGramOutcome.no_kgrams)
    else
      let init : KGramList × HashTable :=
        ({ kgrams := [], count := 0, k_value := k }, create_hash_table HASH_TABLE_SIZE)
      let st := (List.range num_kgrams.toNat).foldl
        (kgram_step reader.token_list.tokens k.toNat) init
      ({ reader with kgram_list := st.1, kgram_hash := some st.2 },
       KGramOutcome.generated)

/-! ## Similarity engine -/

/-- `hash_table_intersection_count`: for every bucket of `set1` and every node of its
chain, count the node when `hash_table_contains(set2, node key)`. -/
def hash_table_intersection_count (set1 set2 : Option HashTable) : Nat :=
  match set1, set2 with
  | some s1, some s2 =>
    (List.range s1.size).foldl
      (fun intersection i =>
        (s1.table.getD i []).foldl
          (fun intersection current =>
            if hash_table_contains s2 current.kgram then intersection + 1
            else intersection)
          intersection)
      0
  | _, _ => 0

/-- `hash_table_union_count`: `set1->count + set2->count - intersection` in `int`. -/
def hash_table_union_count (set1 set2 : Option HashTable) : Int :=
  match set1, set2 with
  | some s1, some s2 =>
    let intersection := hash_table_intersection_count set1 set2
    (s1.count : Int) + (s2.count : Int) - (intersection : Int)
  | _, _ => 0

/-- The operands `(intersection, union_count)` of the division at the end of
`calculate_jaccard_similarity`, or `none` when one of the early `return 0.0`
statements is taken and no division is performed. -/
def jaccard_division (set1 set2 : Option HashTable) : Option (Nat × Int) :=
  match set1, set2 with
  | some s1, some s2 =>
    if s1.count = 0 ∨ s2.count = 0 then none
    else
      let intersection := hash_table_intersection_count set1 set2
      let union_count := hash_table_union_count set1 set2
      if union_count = 0 then none else some (intersection, union_count)
  | _, _ => none

/-- The exact value of the quotient `calculate_jaccard_similarity` computes:
`(float)intersection / union_count` without rounding, or `0.0` on an early return. The
`float` the function returns is `calculate_jaccard_similarity_float`. -/
def calculate_jaccard_similarity (set1 set2 : Option HashTable) : ℚ :=
  match jaccard_division set1 set2 with
  | some (intersection, union_count) => (intersection : ℚ) / (union_count : ℚ)
  | none => 0

/-- The operands `(intersection, set1->count, set2->count)` of the quotient
`intersection / (magnitude1 * magnitude2)` at the end of
`calculate_cosine_similarity`, where `magnitude = sqrt(count)`, or `none` when an
early `return 0.0` is taken. The guard `magnitude1 == 0 || magnitude2 == 0` is
stated on the counts: a square root is zero exactly when its argument is. -/
def cosine_division (set1 set2 : Option HashTable) : Option (Nat × Nat × Nat) :=
  match set1, set2 with
  | some s1, some s2 =>
    if s1.count = 0 ∨ s2.count = 0 then none
    else
      let intersection := hash_table_intersection_count set1 set2
      if s1.count = 0 ∨ s2.count = 0 then none
      else some (intersection, s1.count, s2.count)
  | _, _ => none

/-- The exact value of the quotient `calculate_cosine_similarity` computes:
`intersection / (sqrt(set1->count) * sqrt(set2->count))` without rounding, or `0.0` on
an early return. The `float` the function returns is
`calculate_cosine_similarity_float`. -/
noncomputable def calculate_cosine_similarity (set1 set2 : Option HashTable) : ℝ :=
  match cosine_division set1 set2 with
  | some (intersection, count1, count2) =>
    (intersection : ℝ) / (Real.sqrt (count1 : ℝ) * Real.sqrt (count2 : ℝ))
  | none => 0

/-! ## Binary floating point

The C `float` and `double` values of `calculate_cosine_similarity` under IEEE 754
arithmetic (binary32 and binary64, round to nearest with ties to even, every
operation evaluated in the type of its operands). Only non-negative values occur, and
they stay far inside the exponent range, so a value is a pair `mant * 2 ^ exp`. -/

/-- A non-negative binary floating-point value `mant * 2 ^ exp`. -/
structure BinFloat where
  mant : Nat
  exp : Int
deriving DecidableEq, Repr

/-- The rational number a `BinFloat` stands for. -/
def BinFloat.toRat (x : BinFloat) : ℚ := (x.mant : ℚ) * (2 : ℚ) ^ x.exp

/-- Auxiliary recursion of `floor_log2`, by halving. -/
def log2_fuel : Nat → Nat → Nat
  | 0, _ => 0
  | fuel + 1, n => if n < 2 then 0 else log2_fuel fuel (n / 2) + 1

/-- The integer part of the binary logarithm of `n` (`0` for `n = 0`), computed by
structural recursion; it agrees with `Nat.log2`. -/
def floor_log2 (n : Nat) : Nat := log2_fuel n n

/-- The integer nearest to `a / b`, ties to the even one (`b > 0`). -/
def round_half_even (a b : Nat) : Nat :=
  let q := a / b
  let r := a % b
  if 2 * r < b then q
  else if b < 2 * r then q + 1
  else if q % 2 = 0 then q else q + 1

/-- The binary float with `p` significant bits nearest to the rational `a / b`
(`b > 0`), ties to even: with `e` the integer part of the binary logarithm of `a / b`,
the quotient is scaled by `2 ^ (p - 1 - e)` into `[2^(p-1), 2^p)` and rounded to an
integer. -/
def round_to_precision (p : Nat) (a b : Nat) : BinFloat :=
  if a = 0 then { mant := 0, exp := 0 }
  else
    let e0 : Int := (floor_log2 a : Int) - (floor_log2 b : Int)
    let e : Int := if b * 2 ^ e0.toNat ≤ a * 2 ^ (-e0).toNat then e0 else e0 - 1
    let s : Int := (p : Int) - 1 - e
    { mant := round_half_even (a * 2 ^ s.toNat) (b * 2 ^ (-s).toNat), exp := -s }

/-- Bit-by-bit integer square root: the bits `b - 1, ..., 0` are added to `r` from the
top while the square stays at most `N`. -/
def isqrt_bits (N : Nat) : Nat → Nat → Nat
  | 0, r => r
  | b + 1, r => isqrt_bits N b (if (r + 2 ^ b) * (r + 2 ^ b) ≤ N then r + 2 ^ b else r)

/-- The largest `r` with `r * r ≤ N`. -/
def isqrt (N : Nat) : Nat := isqrt_bits N (floor_log2 N / 2 + 1) 0

/-- The binary float with `p` significant bits nearest to the square root of the
integer `n` (for `n < 4 ^ p`): `n` is scaled by `4 ^ s` into `[4^(p-1), 4^p)`, and the
integer square root `r` of that is rounded up when the root exceeds `r + 1/2`. A tie
cannot occur, `(2 r + 1)^2` being odd. -/
def sqrt_to_precision (p : Nat) (n : Nat) : BinFloat :=
  if n = 0 then { mant := 0, exp := 0 }
  else
    let s : Nat := p - 1 - floor_log2 n / 2
    let N := n * 4 ^ s
    let r := isqrt N
    { mant := if (2 * r + 1) * (2 * r + 1) < 4 * N then r + 1 else r, exp := -(s : Int) }

/-- `sqrt(x)` of `math.h` on an `int` argument: the conversion to `double` is exact
and the binary64 square root is correctly rounded. -/
def c_sqrt (x : Nat) : BinFloat := sqrt_to_precision 53 x

/-- Conversion of a `double` to `float` (the initialisation `float magnitude = sqrt(..)`). -/
def float_of_double (x : BinFloat) : BinFloat :=
  round_to_precision 24 (x.mant * 2 ^ x.exp.toNat) (2 ^ (-x.exp).toNat)

/-- Conversion of an `int` to `float`. -/
def float_of_int (n : Nat) : BinFloat := round_to_precision 24 n 1

/-- The binary32 product `x * y`. -/
def float_mul (x y : BinFloat) : BinFloat :=
  round_to_precision 24 (x.mant * y.mant * 2 ^ (x.exp + y.exp).toNat)
    (2 ^ (-(x.exp + y.exp)).toNat)

/-- The binary32 quotient `x / y` (`y` not zero). -/
def float_div (x y : BinFloat) : BinFloat :=
  round_to_precision 24 (x.mant * 2 ^ x.exp.toNat * 2 ^ (-y.exp).toNat)
    (y.mant * 2 ^ y.exp.toNat * 2 ^ (-x.exp).toNat)

/-- The `float` value `0.0`. -/
def float_zero : BinFloat := { mant := 0, exp := 0 }

/-- The binary32 sum `x + y`. -/
def float_add (x y : BinFloat) : BinFloat :=
  let e := min x.exp y.exp
  round_to_precision 24
    ((x.mant * 2 ^ (x.exp - e).toNat + y.mant * 2 ^ (y.exp - e).toNat) * 2 ^ e.toNat)
    (2 ^ (-e).toNat)

/-- The float expression at the end of `calculate_cosine_similarity`:
`magnitude1 = sqrt(count1)`, `magnitude2 = sqrt(count2)` stored as `float`, then
`intersection / (magnitude1 * magnitude2)`. -/
def cosine_quotient_binary32 (intersection count1 count2 : Nat) : BinFloat :=
  let magnitude1 := float_of_double (c_sqrt count1)
  let magnitude2 := float_of_double (c_sqrt count2)
  float_div (float_of_int intersection) (float_mul magnitude1 magnitude2)

/-- `calculate_cosine_similarity` with its binary32 rounding: the value of the `float`
the C function returns. -/
def calculate_cosine_similarity_binary32 (set1 set2 : Option HashTable) : ℚ :=
  match cosine_division set1 set2 with
  | some (intersection, count1, count2) =>
    (cosine_quotient_binary32 intersection count1 count2).toRat
  | none => 0

/-! ## Normalizer and tokenizer -/

/-- `#define MAX_REFERENCE_PAPERS 10`. -/
def MAX_REFERENCE_PAPERS : Nat := 10

/-- The apostrophe character (code 39). -/
def apostrophe : Char := Char.ofNat 39

/-- `tolower` of `ctype.h` in the "C" locale (the program never calls `setlocale`):
the letters `A`..`Z` (codes 65..90) move to `a`..`z`, every other character stays. -/
def c_tolower (c : Char) : Char :=
  if 65 ≤ c.toNat ∧ c.toNat ≤ 90 then Char.ofNat (c.toNat + 32) else c

/-- `isalpha` of `ctype.h` in the "C" locale: `A`..`Z` or `a`..`z`. -/
def c_isalpha (c : Char) : Bool :=
  decide ((65 ≤ c.toNat ∧ c.toNat ≤ 90) ∨ (97 ≤ c.toNat ∧ c.toNat ≤ 122))

/-- `to_lowercase`: `str[i] = tolower(str[i])` at every index of the string. -/
def to_lowercase (str : String) : String :=
  String.mk (str.data.map c_tolower)

/-- `remove_punctuation_numbers`: the in-place compaction loop. `st.1` is the character
buffer, `st.2` is `write_index`; a kept character is stored at `write_index`, and the
final `str[write_index] = 0` cuts the string there. -/
def remove_punctuation_numbers (str : String) : String :=
  let st := (List.range str.data.length).foldl
    (fun (st : List Char × Nat) read_index =>
      let c := st.1.getD read_index (Char.ofNat 0)
      if c_isalpha c = true ∨ c = apostrophe then (st.1.set st.2 c, st.2 + 1) else st)
    (str.data, 0)
  String.mk (st.1.take st.2)

/-- The loop of `is_stopword` over the stopword array. -/
def stopword_loop : List String → String → Bool
  | [], _ => false
  | stopword :: rest, word => if stopword = word then true else stopword_loop rest word

/-- `is_stopword`. -/
def is_stopword (reader : DocumentReader) (word : String) : Bool :=
  stopword_loop reader.stopwords word

/-- `preprocess_text`: every token is lowercased and stripped; an empty token or a
stopword is dropped (freed), any other token is stored at `write_index` (`st.2`) of the
token array (`st.1`); the token count becomes `write_index`. -/
def preprocess_text (reader : DocumentReader) : DocumentReader :=
  let st := (List.range reader.token_list.count).foldl
    (fun (st : List String × Nat) i =>
      let token := remove_punctuation_numbers (to_lowercase (st.1.getD i ""))
      if token.length = 0 then st
      else if is_stopword reader token = true then st
      else (st.1.set st.2 token, st.2 + 1))
    (reader.token_list.tokens, 0)
  { reader with token_list := { tokens := st.1.take st.2 } }

/-- Membership in the delimiter string `" \t\n\r"` of `tokenize_text` (codes 32, 9,
10, 13). -/
def is_delimiter (c : Char) : Bool :=
  decide (c.toNat = 32 ∨ c.toNat = 9 ∨ c.toNat = 10 ∨ c.toNat = 13)

/-- One call of `strtok` with the delimiters of `tokenize_text`, on the characters
from the saved position to the end of the string: leading delimiters are skipped; if
nothing is left the result is `NULL`; otherwise the token runs up to the next
delimiter, which is overwritten by 0, and the saved position moves behind it. -/
def strtok (saved : List Char) : Option (List Char × List Char) :=
  match saved.dropWhile is_delimiter with
  | [] => none
  | c :: rest =>
    some ((c :: rest).takeWhile (fun x => !is_delimiter x),
          ((c :: rest).dropWhile (fun x => !is_delimiter x)).drop 1)

/-- The loop `while (token != NULL && count < MAX_TOKENS)` of `tokenize_text`; each
pass consumes at least one character, so `fuel` above the text length is never used up. -/
def tokenize_loop : Nat → List Char → List String → List String
  | 0, _, tokens => tokens
  | fuel + 1, saved, tokens =>
    match strtok saved with
    | none => tokens
    | some (token, saved) =>
      if tokens.length < MAX_TOKENS then
        tokenize_loop fuel saved (tokens ++ [String.mk token])
      else tokens

/-- `tokenize_text`: the old tokens are freed and the count reset to 0, then the
text is cut by `strtok`. The k-gram list and the hash table are not touched. -/
def tokenize_text (reader : DocumentReader) (text : String) : DocumentReader :=
  { reader with
    token_list := { tokens := tokenize_loop (text.data.length + 1) text.data [] } }

/-! ## Binary32 evaluation of the scores

The expressions of `calculate_jaccard_similarity` and `compare_documents` under IEEE 754
arithmetic: the scores are `float`, the constants `0.6`, `0.4`, `0.7`, `0.4`, `0.1` are
`double`, so the weighted sum and the comparisons are carried out in `double` and the
sum is rounded to `float` when it is stored. -/

/-- The `double` nearest to the decimal constant `a / b`. -/
def double_const (a b : Nat) : BinFloat := round_to_precision 53 a b

/-- The binary64 product `x * y`. -/
def double_mul (x y : BinFloat) : BinFloat :=
  round_to_precision 53 (x.mant * y.mant * 2 ^ (x.exp + y.exp).toNat)
    (2 ^ (-(x.exp + y.exp)).toNat)

/-- The binary64 sum `x + y`. -/
def double_add (x y : BinFloat) : BinFloat :=
  let e := min x.exp y.exp
  round_to_precision 53
    ((x.mant * 2 ^ (x.exp - e).toNat + y.mant * 2 ^ (y.exp - e).toNat) * 2 ^ e.toNat)
    (2 ^ (-e).toNat)

/-- The float expression `(float)intersection / union_count` at the end of
`calculate_jaccard_similarity`. -/
def jaccard_quotient_binary32 (intersection union_count : Nat) : BinFloat :=
  float_div (float_of_int intersection) (float_of_int union_count)

/-- The `float` that `calculate_jaccard_similarity` returns: `0.0` on an early return,
else the binary32 quotient of the two counts. The union count is positive whenever the
division is reached on tables built by inserts, the only tables the program has; its
sign is not represented. -/
def calculate_jaccard_similarity_float (set1 set2 : Option HashTable) : BinFloat :=
  match jaccard_division set1 set2 with
  | some (intersection, union_count) =>
    jaccard_quotient_binary32 intersection union_count.toNat
  | none => float_zero

/-- The `float` that `calculate_cosine_similarity` returns: `0.0` on an early return,
else `intersection / (magnitude1 * magnitude2)` in binary32. -/
def calculate_cosine_similarity_float (set1 set2 : Option HashTable) : BinFloat :=
  match cosine_division set1 set2 with
  | some (intersection, count1, count2) =>
    cosine_quotient_binary32 intersection count1 count2
  | none => float_zero

/-- `similarity_scores[i] = (jaccard_sim * 0.6) + (cosine_sim * 0.4)` with its rounding. -/
def combined_similarity_binary32 (jaccard_sim cosine_sim : BinFloat) : BinFloat :=
  float_of_double
    (double_add (double_mul jaccard_sim (double_const 6 10))
      (double_mul cosine_sim (double_const 4 10)))

/-! ## Comparator -/

/-- `struct PlagiarismChecker`. The documents are held by value: the C struct holds
pointers, and `compare_documents` changes the documents behind them; here the changed
documents are stored back into the checker. -/
structure PlagiarismChecker where
  target_doc : Option DocumentReader
  reference_docs : List (Option DocumentReader)
  reference_count : Nat
  similarity_scores : List BinFloat
  overall_similarity : BinFloat

/-- `create_plagiarism_checker`. -/
def create_plagiarism_checker : PlagiarismChecker :=
  { target_doc := none
    reference_docs := List.replicate MAX_REFERENCE_PAPERS none
    reference_count := 0
    similarity_scores := List.replicate MAX_REFERENCE_PAPERS float_zero
    overall_similarity := float_zero }

/-- `add_target_document`: a `NULL` target is ignored. -/
def add_target_document (checker : PlagiarismChecker) (target : Option DocumentReader) :
    PlagiarismChecker :=
  match target with
  | none => checker
  | some doc => { checker with target_doc := some doc }

/-- `add_reference_document`: a `NULL` reference is ignored, and so is any reference
beyond `MAX_REFERENCE_PAPERS`. -/
def add_reference_document (checker : PlagiarismChecker)
    (reference : Option DocumentReader) : PlagiarismChecker :=
  match reference with
  | none => checker
  | some doc =>
    if checker.reference_count < MAX_REFERENCE_PAPERS then
      { checker with
        reference_docs := checker.reference_docs.set checker.reference_count (some doc)
        reference_count := checker.reference_count + 1 }
    else checker

/-- The weighted average `(jaccard_sim * 0.6) + (cosine_sim * 0.4)` of
`compare_documents` in exact arithmetic, the value `combined_similarity_binary32`
approximates. -/
noncomputable def combined_similarity (jaccard_sim cosine_sim : ℝ) : ℝ :=
  jaccard_sim * (6 / 10) + cosine_sim * (4 / 10)

/-- The "ensure k-grams are generated" step of `compare_documents` for one document:
`generate_kgrams` is called when the document has no hash table or its `k_value`
differs; the call returns nothing, so its outcome is not looked at. -/
def ensure_kgrams (doc : DocumentReader) (k_value : Int) : DocumentReader :=
  if doc.kgram_hash = none ∨ doc.kgram_list.k_value ≠ k_value then
    (generate_kgrams doc k_value).1
  else doc

/-- One pass of the loop of `compare_documents` over the references; the state is the
reference array, the score array and `total_similarity`. The two similarity values, the
stored score and the running total are `float`: the weighted sum is evaluated in
`double` and rounded when it is stored, and `total_similarity += similarity_scores[i]`
is a binary32 addition. -/
def compare_step (target : DocumentReader) (k_value : Int)
    (st : List (Option DocumentReader) × List BinFloat × BinFloat) (i : Nat) :
    List (Option DocumentReader) × List BinFloat × BinFloat :=
  match st.1.getD i none with
  | none => st
  | some reference =>
    let reference := ensure_kgrams reference k_value
    let jaccard_sim :=
      calculate_jaccard_similarity_float target.kgram_hash reference.kgram_hash
    let cosine_sim :=
      calculate_cosine_similarity_float target.kgram_hash reference.kgram_hash
    let score := combined_similarity_binary32 jaccard_sim cosine_sim
    (st.1.set i (some reference), st.2.1.set i score, float_add st.2.2 score)

/-- How a call of `compare_documents` ends. -/
inductive CompareOutcome where
  | no_target
  | no_references
  | compared
deriving DecidableEq, Repr

/-- `compare_documents` on a non-NULL checker. The final statement
`overall_similarity = total_similarity / reference_count` divides a `float` by an `int`:
the count is converted to `float` and the quotient is rounded to binary32. -/
def compare_documents (checker : PlagiarismChecker) (k_value : Int) :
    PlagiarismChecker × CompareOutcome :=
  match checker.target_doc with
  | none => (checker, CompareOutcome.no_target)
  | some target =>
    if checker.reference_count = 0 then (checker, CompareOutcome.no_references)
    else
      let target := ensure_kgrams target k_value
      let st := (List.range checker.reference_count).foldl (compare_step target k_value)
        (checker.reference_docs, checker.similarity_scores, float_zero)
      ({ checker with
          target_doc := some target
          reference_docs := st.1
          similarity_scores := st.2.1
          overall_similarity := float_div st.2.2 (float_of_int checker.reference_count) },
       CompareOutcome.compared)

/-- The four status lines of `print_comparison_results`. -/
inductive Band where
  | minimal
  | low
  | moderate
  | high
deriving DecidableEq, Repr

/-- Position of a band in the order Minimal < Low < Moderate < High. -/
def Band.rank : Band → Nat
  | Band.minimal => 0
  | Band.low => 1
  | Band.moderate => 2
  | Band.high => 3

/-- The `if` chain of `print_comparison_results` on one `similarity_scores[i]`:
`>= 0.7` high plagiarism risk, `>= 0.4` moderate, `>= 0.1` low, else minimal. The
thresholds are taken exactly. -/
def pair_status {α : Type} [LinearOrderedField α] (score : α) : Band :=
  if score ≥ 7 / 10 then Band.high
  else if score ≥ 4 / 10 then Band.moderate
  else if score ≥ 1 / 10 then Band.low
  else Band.minimal

/-- The "final verdict" `if` chain of `print_comparison_results` on
`overall_similarity`: `>= 0.6` high plagiarism detected, `>= 0.3` moderate similarity,
`>= 0.1` low similarity, else minimal similarity. The thresholds are taken exactly. -/
def overall_verdict {α : Type} [LinearOrderedField α] (overall_similarity : α) : Band :=
  if overall_similarity ≥ 6 / 10 then Band.high
  else if overall_similarity ≥ 3 / 10 then Band.moderate
  else if overall_similarity ≥ 1 / 10 then Band.low
  else Band.minimal

/-- The `if` chain of `print_comparison_results` on a stored `float` score, compared
with the `double` constants. -/
def pair_status_binary32 (score : BinFloat) : Band :=
  if score.toRat ≥ (double_const 7 10).toRat then Band.high
  else if score.toRat ≥ (double_const 4 10).toRat then Band.moderate
  else if score.toRat ≥ (double_const 1 10).toRat then Band.low
  else Band.minimal

/-! ## Observations used to state the properties -/

/-- Occurrence count stored in a list of nodes for the key `s`: the sum of the
`count` fields of the nodes whose `kgram` is `s` (0 when there is none). -/
def occurrences (nodes : List HashNode) (s : String) : Nat :=
  ((nodes.filter (fun n => n.kgram = s)).map HashNode.count).sum

/-- Sum of the occurrence counts of all entries of the table. -/
def total_occurrences (ht : HashTable) : Nat :=
  ((hash_table_nodes ht).map HashNode.count).sum

/-- The keys of the table, in visiting order. -/
def hash_table_keys (ht : HashTable) : List String :=
  (hash_table_nodes ht).map HashNode.kgram

/-- Well-formedness of the chained table: the bucket array has `size > 0` chains,
every node lies in the bucket of its hash, no key occurs in two nodes, every node
count is at least 1, and `count` is the number of nodes. -/
structure WellFormed (ht : HashTable) : Prop where
  size_pos : 0 < ht.size
  length_eq : ht.table.length = ht.size
  placement : ∀ i, ∀ n ∈ ht.table.getD i [], hash_function n.kgram ht.size = i
  nodup_keys : (hash_table_keys ht).Nodup
  count_pos : ∀ n ∈ hash_table_nodes ht, 1 ≤ n.count
  count_eq : ht.count = (hash_table_nodes ht).length

/-- The table `ht` holds exactly the multiset of strings `xs`. -/
structure Holds (ht : HashTable) (xs : List String) : Prop where
  wf : WellFormed ht
  occ : ∀ s, occurrences (hash_table_nodes ht) s = xs.count s

/-- The window of `k` tokens starting at position `i`, joined by single spaces. -/
def window (T : List String) (i k : Nat) : String :=
  " ".intercalate ((T.drop i).take k)

/-- All sliding windows of `k` tokens of `T`, in order (positions `0 .. len(T) - k`). -/
def windows (T : List String) (k : Nat) : List String :=
  (List.range (T.length - k + 1)).map (fun i => window T i k)

/-- Number of window positions `i` in `[0, len(T) - k]` at which the `k` tokens
`T[i], ..., T[i+k-1]` joined by single spaces equal `s`. -/
def window_positions (T : List String) (k : Nat) (s : String) : Nat :=
  ((List.range (T.length - k + 1)).filter (fun i => window T i k = s)).length

/-- A shingle set as the similarity functions receive it: absent (`NULL`), or a
table obtained from a freshly created table (of any positive bucket count) by a
sequence of `hash_table_insert` calls. -/
def Built (A : Option HashTable) : Prop :=
  ∀ a, A = some a → ∃ size xs, 0 < size ∧ a = insert_all (create_hash_table size) xs

/-- An empty shingle set in the sense of the guards of the similarity functions:
`set == NULL || set->count == 0`. -/
def set_empty : Option HashTable → Bool
  | none => true
  | some a => decide (a.count = 0)

/-- A reader with four tokens that already holds a k-gram list and a shingle set from
an earlier pass with another `k`; used to instantiate the theorems. -/
def sample_reader : DocumentReader :=
  { filename := some "target_paper.txt"
    token_list := { tokens := ["a", "b", "a", "b"] }
    kgram_list := { kgrams := ["a", "b", "a", "b"], count := 4, k_value := 1 }
    kgram_hash := some (insert_all (create_hash_table HASH_TABLE_SIZE) ["a", "b", "a", "b"])
    stopwords := ["the"] }

/-- The characters `normalize` keeps: alphabetic letters and the apostrophe. -/
def is_letter_or_apostrophe (c : Char) : Bool :=
  c_isalpha c || decide (c = apostrophe)

/-- A lowercase ASCII letter (`a`..`z`) or the apostrophe. -/
def is_lowercase_or_apostrophe (c : Char) : Prop :=
  (97 ≤ c.toNat ∧ c.toNat ≤ 122) ∨ c = apostrophe

/-- Normalisation in the words of the specification: lowercase the token, then delete
every character that is neither an alphabetic letter nor an apostrophe, keeping the
rest in order. -/
def normalize_spec (token : String) : String :=
  String.mk ((token.data.map c_tolower).filter is_letter_or_apostrophe)

/-- Preprocessing in the words of the specification: normalise every token, remove the
tokens that became empty, remove the tokens equal to a stopword entry; the survivors
keep their relative order. -/
def preprocess_spec (tokens stopwords : List String) : List String :=
  ((tokens.map normalize_spec).filter (fun t => decide (t ≠ ""))).filter
    (fun t => decide (t ∉ stopwords))

/-- The non-empty fields of a character list split at every delimiter. -/
def fields (l : List Char) : List (List Char) :=
  (l.splitOnP is_delimiter).filter (fun run => decide (run ≠ []))

/-- The maximal runs of non-delimiter characters of a text, in order: the non-empty
fields obtained by splitting at every space, tab, newline and carriage return. -/
def maximal_runs (text : String) : List String :=
  (fields text.data).map String.mk

/-- The requested `k` is invalid for a document: `k <= 0` or `k` above its token
count, the condition of the error return of `generate_kgrams`. -/
def invalid_k (doc : DocumentReader) (k : Int) : Prop :=
  k ≤ 0 ∨ k > (doc.token_list.count : Int)

/-- The combined score, in exact arithmetic, of the target (after its ensure step)
against one reference: the reference goes through its own ensure step, then
`0.6 * jaccard + 0.4 * cosine` is taken on the two shingle sets. -/
noncomputable def pair_score (target : DocumentReader) (k_value : Int)
    (reference : DocumentReader) : ℝ :=
  combined_similarity
    ((calculate_jaccard_similarity target.kgram_hash
      (ensure_kgrams reference k_value).kgram_hash : ℚ) : ℝ)
    (calculate_cosine_similarity target.kgram_hash
      (ensure_kgrams reference k_value).kgram_hash)

/-- The `float` score `compare_documents` stores for the target (after its ensure step)
against one reference: the reference goes through its own ensure step, then the two
`float` similarity values are combined in `double` and rounded to `float`. -/
def pair_score_binary32 (target : DocumentReader) (k_value : Int)
    (reference : DocumentReader) : BinFloat :=
  combined_similarity_binary32
    (calculate_jaccard_similarity_float target.kgram_hash
      (ensure_kgrams reference k_value).kgram_hash)
    (calculate_cosine_similarity_float target.kgram_hash
      (ensure_kgrams reference k_value).kgram_hash)

/-- The `float` sum of a list of `float` values: they are added one by one to `0.0`,
in list order, every addition rounded to binary32. -/
def float_sum (xs : List BinFloat) : BinFloat :=
  xs.foldl float_add float_zero

/-- The combined score `0.6 * jaccard + 0.4 * cosine`, in exact arithmetic, of the
shingle sets two documents hold (0 when a document is missing). -/
noncomputable def exact_score (target reference : Option DocumentReader) : ℝ :=
  match target, reference with
  | some t, some r =>
    combined_similarity
      ((calculate_jaccard_similarity t.kgram_hash r.kgram_hash : ℚ) : ℝ)
      (calculate_cosine_similarity t.kgram_hash r.kgram_hash)
  | _, _ => 0

/-- The arithmetic mean, in exact arithmetic, of the combined scores of the target of a
checker against its first `reference_count` references. -/
noncomputable def exact_mean (c : PlagiarismChecker) : ℝ :=
  ((List.range c.reference_count).map
    (fun i => exact_score c.target_doc (c.reference_docs.getD i none))).sum /
    (c.reference_count : ℝ)

/-- A checker as `create_plagiarism_checker`, `add_target_document` and
`add_reference_document` leave it: the first `reference_count` entries of the
reference array are not `NULL`, and `reference_count` does not exceed the arrays. -/
structure CheckerOk (c : PlagiarismChecker) : Prop where
  count_le_docs : c.reference_count ≤ c.reference_docs.length
  count_le_scores : c.reference_count ≤ c.similarity_scores.length
  non_null : ∀ i, i < c.reference_count → ∃ d, c.reference_docs.getD i none = some d

/-- A checker with `sample_reader` as target and as its only reference; both hold the
shingle set of an earlier pass with `k = 1`. -/
def sample_checker : PlagiarismChecker :=
  add_reference_document
    (add_target_document create_plagiarism_checker (some sample_reader))
    (some sample_reader)

/-- A reader holding the eight tokens of the "quick brown fox" scenario. -/
def fox_reader : DocumentReader :=
  { create_document_reader with
    token_list :=
      { tokens := ["the", "quick", "brown", "fox", "the", "quick", "brown", "fox"] } }

/-- The target shingle set of the two-set scenario, each key inserted once. -/
def scenario_target : HashTable :=
  insert_all (create_hash_table HASH_TABLE_SIZE) ["a b c", "b c d"]

/-- The reference shingle set of the two-set scenario, each key inserted once. -/
def scenario_reference : HashTable :=
  insert_all (create_hash_table HASH_TABLE_SIZE) ["a b c", "x y z"]

/-- A reader with three raw tokens and the stopword `the`, before preprocessing. -/
def raw_reader : DocumentReader :=
  { create_document_reader with
    token_list := { tokens := ["The", "Quick,", "42"] }
    stopwords := ["the"] }

/-- Thirty-three words that the two documents of the rounding scenario share. -/
def common_tokens : List String :=
  ["aa", "ab", "ac", "ad", "ae", "af", "ag", "ah", "ai", "aj", "ak", "al", "am", "an",
   "ao", "ap", "aq", "ar", "as", "at", "au", "av", "aw", "ax", "ay", "az", "ba", "bb",
   "bc", "bd", "be", "bf", "bg"]

/-- Thirty-three words that only the target of the rounding scenario has. -/
def target_only_tokens : List String :=
  ["bh", "bi", "bj", "bk", "bl", "bm", "bn", "bo", "bp", "bq", "br", "bs", "bt", "bu",
   "bv", "bw", "bx", "by", "bz", "ca", "cb", "cc", "cd", "ce", "cf", "cg", "ch", "ci",
   "cj", "ck", "cl", "cm", "cn"]

/-- Thirty-three words that only the reference of the rounding scenario has. -/
def reference_only_tokens : List String :=
  ["co", "cp", "cq", "cr", "cs", "ct", "cu", "cv", "cw", "cx", "cy", "cz", "da", "db",
   "dc", "dd", "de", "df", "dg", "dh", "di", "dj", "dk", "dl", "dm", "dn", "do", "dp",
   "dq", "dr", "ds", "dt", "du"]

/-- The target of the rounding scenario: 66 distinct tokens, no k-grams generated yet. -/
def rounding_target : DocumentReader :=
  { create_document_reader with
    filename := some "target_paper.txt"
    token_list := { tokens := common_tokens ++ target_only_tokens } }

/-- The reference of the rounding scenario: 66 distinct tokens, 33 of them shared with
`rounding_target`, no k-grams generated yet. -/
def rounding_reference : DocumentReader :=
  { create_document_reader with
    filename := some "reference_paper.txt"
    token_list := { tokens := common_tokens ++ reference_only_tokens } }

/-- A checker with `rounding_target` as target and `rounding_reference` as its only
reference. -/
def rounding_checker : PlagiarismChecker :=
  add_reference_document
    (add_target_document create_plagiarism_checker (some rounding_target))
    (some rounding_reference)

/-- A reader with the four tokens `the quick brown dog`, no k-grams generated yet. -/
def dog_reader : DocumentReader :=
  { create_document_reader with
    token_list := { tokens := ["the", "quick", "brown", "dog"] } }

/-- A reader with the four tokens `a quick brown cat`, no k-grams generated yet. -/
def cat_reader : DocumentReader :=
  { create_document_reader with
    token_list := { tokens := ["a", "quick", "brown", "cat"] } }

/-- A checker with `fox_reader` as target and two references that differ from it and
from each other, `dog_reader` and `cat_reader`: with `k = 2` the first shares two of its
three k-grams with the target and the second one. -/
def two_reference_checker : PlagiarismChecker :=
  add_reference_document
    (add_reference_document
      (add_target_document create_plagiarism_checker (some fox_reader))
      (some dog_reader))
    (some cat_reader)

/-- A reader with three tokens that still holds the k-gram list and the shingle set of
an earlier pass with `k = 1`. -/
def stale_reader : DocumentReader :=
  { filename := some "reference_paper.txt"
    token_list := { tokens := ["a", "c", "d"] }
    kgram_list := { kgrams := ["a", "c", "d"], count := 3, k_value := 1 }
    kgram_hash := some (insert_all (create_hash_table HASH_TABLE_SIZE) ["a", "c", "d"])
    stopwords := ["the"] }

/-- A checker with `sample_reader` as target and the references `stale_reader`, which
holds a shingle set from `k = 1`, and `raw_reader`, which holds none. -/
def stale_checker : PlagiarismChecker :=
  add_reference_document
    (add_reference_document
      (add_target_document create_plagiarism_checker (some sample_reader))
      (some stale_reader))
    (some raw_reader)

/-- The token contains no space character (code 32), the separator `generate_kgrams`
puts between the tokens of a k-gram. -/
def space_free (token : String) : Prop :=
  ∀ c ∈ token.data, c ≠ Char.ofNat 32

/-- The document as `create_document_reader` followed by tokenisation would hold it:
the same tokens, no k-gram list and no shingle set. -/
def without_kgrams (doc : DocumentReader) : DocumentReader :=
  { doc with
    kgram_list := { kgrams := [], count := 0, k_value := 0 }
    kgram_hash := none }

/-! ## Chains -/

theorem chain_increment_none_iff (c : List HashNode) (s : String) :
    chain_increment c s = none ↔ s ∉ c.map HashNode.kgram := by
  induction c with
  | nil => simp [chain_increment]
  | cons n rest ih =>
    by_cases h : n.kgram = s
    · simp [chain_increment, h]
    · simp only [chain_increment, h, if_false, Option.map_eq_none', ih, List.map_cons,
        List.mem_cons, not_or]
      constructor
      · intro h2; exact ⟨fun e => h e.symm, h2⟩
      · intro h2; exact h2.2

theorem chain_increment_keys (c c2 : List HashNode) (s : String)
    (h : chain_increment c s = some c2) :
    c2.map HashNode.kgram = c.map HashNode.kgram := by
  induction c generalizing c2 with
  | nil => simp [chain_increment] at h
  | cons n rest ih =>
    by_cases hk : n.kgram = s
    · simp [chain_increment, hk] at h
      subst h
      simp [hk]
    · simp only [chain_increment, hk, if_false, Option.map_eq_some'] at h
      obtain ⟨r, hr, rfl⟩ := h
      simp [ih r hr]

theorem chain_increment_length (c c2 : List HashNode) (s : String)
    (h : chain_increment c s = some c2) : c2.length = c.length := by
  have := congrArg List.length (chain_increment_keys c c2 s h)
  simpa using this

theorem chain_increment_occurrences (c c2 : List HashNode) (s : String)
    (h : chain_increment c s = some c2) (t : String) :
    occurrences c2 t = occurrences c t + (if s = t then 1 else 0) := by
  induction c generalizing c2 with
  | nil => simp [chain_increment] at h
  | cons n rest ih =>
    by_cases hk : n.kgram = s
    · simp [chain_increment, hk] at h
      subst h
      by_cases ht : s = t
      · simp [occurrences, List.filter_cons, hk, ht]; omega
      · simp [occurrences, List.filter_cons, hk, ht]
    · simp only [chain_increment, hk, if_false, Option.map_eq_some'] at h
      obtain ⟨r, hr, rfl⟩ := h
      have := ih r hr
      unfold occurrences at this ⊢
      by_cases hn : n.kgram = t
      · simp [List.filter_cons, hn, this]; omega
      · simp [List.filter_cons, hn, this]

theorem chain_increment_total (c c2 : List HashNode) (s : String)
    (h : chain_increment c s = some c2) :
    (c2.map HashNode.count).sum = (c.map HashNode.count).sum + 1 := by
  induction c generalizing c2 with
  | nil => simp [chain_increment] at h
  | cons n rest ih =>
    by_cases hk : n.kgram = s
    · simp [chain_increment, hk] at h
      subst h
      simp; omega
    · simp only [chain_increment, hk, if_false, Option.map_eq_some'] at h
      obtain ⟨r, hr, rfl⟩ := h
      simp [ih r hr]; omega

theorem chain_increment_count_pos (c c2 : List HashNode) (s : String)
    (h : chain_increment c s = some c2) (hp : ∀ n ∈ c, 1 ≤ n.count) :
    ∀ n ∈ c2, 1 ≤ n.count := by
  induction c generalizing c2 with
  | nil => simp [chain_increment] at h
  | cons n rest ih =>
    by_cases hk : n.kgram = s
    · simp [chain_increment, hk] at h
      subst h
      intro m hm
      simp only [List.mem_cons] at hm
      rcases hm with rfl | hm
      · simp
      · exact hp m (List.mem_cons_of_mem _ hm)
    · simp only [chain_increment, hk, if_false, Option.map_eq_some'] at h
      obtain ⟨r, hr, rfl⟩ := h
      intro m hm
      simp only [List.mem_cons] at hm
      rcases hm with rfl | hm
      · exact hp _ (List.mem_cons_self _ _)
      · exact ih r hr (fun x hx => hp x (List.mem_cons_of_mem _ hx)) m hm

theorem chain_contains_iff (c : List HashNode) (s : String) :
    chain_contains c s = true ↔ s ∈ c.map HashNode.kgram := by
  induction c with
  | nil => simp [chain_contains]
  | cons n rest ih =>
    by_cases h : n.kgram = s
    · simp [chain_contains, h]
    · simp only [chain_contains, h, if_false, ih, List.map_cons, List.mem_cons]
      constructor
      · intro h2; exact Or.inr h2
      · rintro (h2 | h2)
        · exact absurd h2.symm h
        · exact h2

/-! ## Bucket arrays -/

theorem getD_set_bucket (L : List (List HashNode)) (idx i : Nat) (c : List HashNode)
    (h : idx < L.length) :
    (L.set idx c).getD i [] = if i = idx then c else L.getD i [] := by
  by_cases hi : i = idx
  · subst hi
    simp [List.getD_eq_getElem?_getD, List.getElem?_set, h]
  · have hne : ¬ idx = i := fun e => hi e.symm
    simp [List.getD_eq_getElem?_getD, List.getElem?_set, hi, hne]

theorem flatten_split (L : List (List HashNode)) (idx : Nat) (h : idx < L.length) :
    L.flatten = (L.take idx).flatten ++ (L.getD idx [] ++ (L.drop (idx + 1)).flatten) := by
  have h1 : L = L.take idx ++ L.getD idx [] :: L.drop (idx + 1) := by
    rw [List.getD_eq_getElem _ _ h]
    simp
  conv_lhs => rw [h1]
  simp

theorem flatten_set (L : List (List HashNode)) (idx : Nat) (c : List HashNode)
    (h : idx < L.length) :
    (L.set idx c).flatten = (L.take idx).flatten ++ (c ++ (L.drop (idx + 1)).flatten) := by
  rw [List.set_eq_take_append_cons_drop, if_pos h]
  simp

theorem mem_flatten_iff_getD (L : List (List HashNode)) (n : HashNode) :
    n ∈ L.flatten ↔ ∃ i, n ∈ L.getD i [] := by
  constructor
  · intro hn
    obtain ⟨l, hl, hnl⟩ := List.mem_flatten.mp hn
    obtain ⟨i, hi, rfl⟩ := List.getElem_of_mem hl
    exact ⟨i, by rw [List.getD_eq_getElem _ _ hi]; exact hnl⟩
  · rintro ⟨i, hi⟩
    by_cases h : i < L.length
    · rw [List.getD_eq_getElem _ _ h] at hi
      exact List.mem_flatten.mpr ⟨L[i], List.getElem_mem h, hi⟩
    · rw [List.getD_eq_default _ _ (Nat.le_of_not_lt h)] at hi
      simp at hi

theorem occurrences_append (a b : List HashNode) (t : String) :
    occurrences (a ++ b) t = occurrences a t + occurrences b t := by
  simp [occurrences]

theorem occurrences_cons (n : HashNode) (a : List HashNode) (t : String) :
    occurrences (n :: a) t = (if n.kgram = t then n.count else 0) + occurrences a t := by
  by_cases h : n.kgram = t <;> simp [occurrences, List.filter_cons, h]

/-! ## Insertion keeps the table well formed -/

theorem hash_function_lt (s : String) (size : Nat) (h : 0 < size) :
    hash_function s size < size :=
  Nat.mod_lt _ h

theorem insert_found (ht : HashTable) (s : String) (c2 : List HashNode)
    (h : chain_increment (ht.table.getD (hash_function s ht.size) []) s = some c2) :
    hash_table_insert ht s =
      { ht with table := ht.table.set (hash_function s ht.size) c2 } := by
  simp only [hash_table_insert, h]

theorem insert_new (ht : HashTable) (s : String)
    (h : chain_increment (ht.table.getD (hash_function s ht.size) []) s = none) :
    hash_table_insert ht s =
      { ht with
        table := ht.table.set (hash_function s ht.size)
          ({ kgram := s, count := 1 } :: ht.table.getD (hash_function s ht.size) [])
        count := ht.count + 1 } := by
  simp only [hash_table_insert, h]

theorem wellFormed_create (size : Nat) (h : 0 < size) :
    WellFormed (create_hash_table size) where
  size_pos := h
  length_eq := by simp [create_hash_table]
  placement := by
    intro i n hn
    have : (List.replicate size ([] : List HashNode)).getD i [] = [] := by
      by_cases hi : i < size
      · rw [List.getD_eq_getElem _ _ (by simpa using hi)]; simp
      · rw [List.getD_eq_default _ _ (by simpa using Nat.le_of_not_lt hi)]
    simp [create_hash_table, this] at hn
  nodup_keys := by simp [hash_table_keys, hash_table_nodes, create_hash_table]
  count_pos := by simp [hash_table_nodes, create_hash_table]
  count_eq := by simp [hash_table_nodes, create_hash_table]

theorem mem_keys_bucket (ht : HashTable) (wf : WellFormed ht) (s : String)
    (h : s ∈ hash_table_keys ht) :
    s ∈ (ht.table.getD (hash_function s ht.size) []).map HashNode.kgram := by
  obtain ⟨n, hn, rfl⟩ := List.mem_map.mp h
  obtain ⟨i, hi⟩ := (mem_flatten_iff_getD _ _).mp hn
  have := wf.placement i n hi
  rw [this]
  exact List.mem_map.mpr ⟨n, hi, rfl⟩

theorem contains_iff_mem_keys (ht : HashTable) (wf : WellFormed ht) (s : String) :
    hash_table_contains ht s = true ↔ s ∈ hash_table_keys ht := by
  unfold hash_table_contains
  rw [chain_contains_iff]
  constructor
  · intro h
    obtain ⟨n, hn, rfl⟩ := List.mem_map.mp h
    exact List.mem_map.mpr ⟨n, (mem_flatten_iff_getD _ _).mpr ⟨_, hn⟩, rfl⟩
  · exact mem_keys_bucket ht wf s

theorem insert_wellFormed (ht : HashTable) (wf : WellFormed ht) (s : String) :
    WellFormed (hash_table_insert ht s) := by
  have hidx : hash_function s ht.size < ht.table.length := by
    rw [wf.length_eq]; exact hash_function_lt s ht.size wf.size_pos
  have hsplit := flatten_split ht.table _ hidx
  cases hci : chain_increment (ht.table.getD (hash_function s ht.size) []) s with
  | some c2 =>
    rw [insert_found ht s c2 hci]
    have hkeys := chain_increment_keys _ _ _ hci
    have hset := flatten_set ht.table _ c2 hidx
    refine ⟨wf.size_pos, by simpa using wf.length_eq, ?_, ?_, ?_, ?_⟩
    · intro i n hn
      simp only [getD_set_bucket _ _ _ _ hidx] at hn
      by_cases hi : i = hash_function s ht.size
      · rw [if_pos hi] at hn
        have : n.kgram ∈ c2.map HashNode.kgram := List.mem_map.mpr ⟨n, hn, rfl⟩
        rw [hkeys] at this
        obtain ⟨m, hm, hmk⟩ := List.mem_map.mp this
        have := wf.placement _ m hm
        simp only [] at this ⊢
        rw [← hmk, this, hi]
      · rw [if_neg hi] at hn
        exact wf.placement i n hn
    · have := wf.nodup_keys
      simp only [hash_table_keys, hash_table_nodes] at this ⊢
      rw [hset]
      rw [hsplit] at this
      simpa [hkeys] using this
    · intro n hn
      simp only [hash_table_nodes] at hn
      rw [hset] at hn
      have hp := wf.count_pos
      simp only [hash_table_nodes] at hp
      rw [hsplit] at hp
      simp only [List.mem_append] at hn hp
      rcases hn with hn | hn | hn
      · exact hp n (Or.inl hn)
      · exact chain_increment_count_pos _ _ _ hci
          (fun m hm => hp m (Or.inr (Or.inl hm))) n hn
      · exact hp n (Or.inr (Or.inr hn))
    · have := wf.count_eq
      simp only [hash_table_nodes] at this ⊢
      rw [hset]
      rw [hsplit] at this
      simpa [chain_increment_length _ _ _ hci] using this
  | none =>
    rw [insert_new ht s hci]
    have hnot := (chain_increment_none_iff _ _).mp hci
    have hfresh : s ∉ hash_table_keys ht := fun h => hnot (mem_keys_bucket ht wf s h)
    have hset := flatten_set ht.table _
      ({ kgram := s, count := 1 } :: ht.table.getD (hash_function s ht.size) []) hidx
    refine ⟨wf.size_pos, by simpa using wf.length_eq, ?_, ?_, ?_, ?_⟩
    · intro i n hn
      simp only [getD_set_bucket _ _ _ _ hidx] at hn
      by_cases hi : i = hash_function s ht.size
      · rw [if_pos hi] at hn
        rcases List.mem_cons.mp hn with rfl | hn
        · simp [hi]
        · rw [hi]; exact wf.placement _ n hn
      · rw [if_neg hi] at hn
        exact wf.placement i n hn
    · have := wf.nodup_keys
      simp only [hash_table_keys, hash_table_nodes] at this hfresh ⊢
      rw [hset]
      rw [hsplit] at this hfresh
      simp only [List.map_append, List.map_cons, List.mem_append, not_or] at this hfresh ⊢
      have hperm : (List.map HashNode.kgram (List.take (hash_function s ht.size) ht.table).flatten ++
          (s :: List.map HashNode.kgram (ht.table.getD (hash_function s ht.size) []) ++
            List.map HashNode.kgram (List.drop (hash_function s ht.size + 1) ht.table).flatten)).Perm
          (s :: (List.map HashNode.kgram (List.take (hash_function s ht.size) ht.table).flatten ++
          (List.map HashNode.kgram (ht.table.getD (hash_function s ht.size) []) ++
            List.map HashNode.kgram (List.drop (hash_function s ht.size + 1) ht.table).flatten))) := by
        simp [List.perm_middle]
      rw [hperm.nodup_iff, List.nodup_cons]
      refine ⟨?_, this⟩
      simp only [List.mem_append, not_or]
      exact hfresh
    · intro n hn
      simp only [hash_table_nodes] at hn
      rw [hset] at hn
      have hp := wf.count_pos
      simp only [hash_table_nodes] at hp
      rw [hsplit] at hp
      simp only [List.mem_append, List.mem_cons] at hn hp
      rcases hn with hn | (rfl | hn) | hn
      · exact hp n (Or.inl hn)
      · simp
      · exact hp n (Or.inr (Or.inl hn))
      · exact hp n (Or.inr (Or.inr hn))
    · have := wf.count_eq
      simp only [hash_table_nodes] at this ⊢
      rw [hset]
      rw [hsplit] at this
      simp only [List.length_append, List.length_cons] at this ⊢
      omega

/-! ## Insertion as a multiset update -/

theorem insert_occurrences (ht : HashTable) (wf : WellFormed ht) (s t : String) :
    occurrences (hash_table_nodes (hash_table_insert ht s)) t =
      occurrences (hash_table_nodes ht) t + (if s = t then 1 else 0) := by
  have hidx : hash_function s ht.size < ht.table.length := by
    rw [wf.length_eq]; exact hash_function_lt s ht.size wf.size_pos
  have hsplit := flatten_split ht.table _ hidx
  cases hci : chain_increment (ht.table.getD (hash_function s ht.size) []) s with
  | some c2 =>
    rw [insert_found ht s c2 hci]
    simp only [hash_table_nodes]
    rw [flatten_set _ _ _ hidx, hsplit]
    simp only [occurrences_append, chain_increment_occurrences _ _ _ hci t]
    omega
  | none =>
    rw [insert_new ht s hci]
    simp only [hash_table_nodes]
    rw [flatten_set _ _ _ hidx, hsplit]
    simp only [occurrences_append, occurrences_cons]
    omega

theorem insert_total (ht : HashTable) (wf : WellFormed ht) (s : String) :
    total_occurrences (hash_table_insert ht s) = total_occurrences ht + 1 := by
  have hidx : hash_function s ht.size < ht.table.length := by
    rw [wf.length_eq]; exact hash_function_lt s ht.size wf.size_pos
  have hsplit := flatten_split ht.table _ hidx
  cases hci : chain_increment (ht.table.getD (hash_function s ht.size) []) s with
  | some c2 =>
    rw [insert_found ht s c2 hci]
    simp only [total_occurrences, hash_table_nodes]
    rw [flatten_set _ _ _ hidx, hsplit]
    simp only [List.map_append, List.sum_append, chain_increment_total _ _ _ hci]
    omega
  | none =>
    rw [insert_new ht s hci]
    simp only [total_occurrences, hash_table_nodes]
    rw [flatten_set _ _ _ hidx, hsplit]
    simp only [List.map_append, List.sum_append, List.map_cons, List.sum_cons]
    omega

theorem holds_create (size : Nat) (h : 0 < size) : Holds (create_hash_table size) [] where
  wf := wellFormed_create size h
  occ := by simp [occurrences, hash_table_nodes, create_hash_table]

theorem holds_insert (ht : HashTable) (xs : List String) (h : Holds ht xs) (s : String) :
    Holds (hash_table_insert ht s) (xs ++ [s]) where
  wf := insert_wellFormed ht h.wf s
  occ := by
    intro t
    rw [insert_occurrences ht h.wf, h.occ t, List.count_append]
    by_cases hst : s = t
    · simp [hst]
    · simp [hst, List.count_cons]

theorem holds_insert_all (ht : HashTable) (pre xs : List String) (h : Holds ht pre) :
    Holds (insert_all ht xs) (pre ++ xs) := by
  induction xs generalizing ht pre with
  | nil => simpa [insert_all] using h
  | cons x rest ih =>
    have := ih (hash_table_insert ht x) (pre ++ [x]) (holds_insert ht pre h x)
    simpa [insert_all] using this

theorem holds_build (size : Nat) (h : 0 < size) (xs : List String) :
    Holds (insert_all (create_hash_table size) xs) xs := by
  simpa using holds_insert_all _ [] xs (holds_create size h)

theorem total_insert_all (ht : HashTable) (wf : WellFormed ht) (xs : List String) :
    total_occurrences (insert_all ht xs) = total_occurrences ht + xs.length := by
  induction xs generalizing ht with
  | nil => simp [insert_all]
  | cons x rest ih =>
    have := ih (hash_table_insert ht x) (insert_wellFormed ht wf x)
    simp only [insert_all, List.foldl_cons, List.length_cons] at this ⊢
    rw [this, insert_total ht wf]
    omega

/-! ## What a well-formed table that holds `xs` looks like -/

theorem filter_key_length_le_one (nodes : List HashNode) (s : String)
    (h : (nodes.map HashNode.kgram).Nodup) :
    (nodes.filter (fun n => n.kgram = s)).length ≤ 1 := by
  induction nodes with
  | nil => simp
  | cons n rest ih =>
    simp only [List.map_cons, List.nodup_cons] at h
    by_cases hn : n.kgram = s
    · have : rest.filter (fun m => decide (m.kgram = s)) = [] := by
        rw [List.filter_eq_nil_iff]
        intro m hm hk
        have hk2 : m.kgram = s := by simpa using hk
        exact h.1 (List.mem_map.mpr ⟨m, hm, by rw [hk2, hn]⟩)
      simp [List.filter_cons, hn, this]
    · simpa [List.filter_cons, hn] using ih h.2

theorem holds_mem_keys_iff (ht : HashTable) (xs : List String) (h : Holds ht xs)
    (s : String) : s ∈ hash_table_keys ht ↔ s ∈ xs := by
  have hocc := h.occ s
  constructor
  · intro hs
    obtain ⟨n, hn, rfl⟩ := List.mem_map.mp hs
    have hpos := h.wf.count_pos n hn
    by_contra hx
    rw [List.count_eq_zero_of_not_mem hx] at hocc
    have hmem : n ∈ (hash_table_nodes ht).filter (fun m => m.kgram = n.kgram) := by
      simp [hn]
    have : n.count ≤ occurrences (hash_table_nodes ht) n.kgram := by
      unfold occurrences
      exact List.single_le_sum (by simp) _ (List.mem_map.mpr ⟨n, hmem, rfl⟩)
    omega
  · intro hs
    have hc : 0 < xs.count s := List.count_pos_iff.mpr hs
    rw [← hocc] at hc
    by_contra hk
    have : (hash_table_nodes ht).filter (fun m => m.kgram = s) = [] := by
      rw [List.filter_eq_nil_iff]
      intro m hm hms
      have hms2 : m.kgram = s := by simpa using hms
      exact hk (List.mem_map.mpr ⟨m, hm, hms2⟩)
    simp [occurrences, this] at hc

theorem holds_filter_key (ht : HashTable) (xs : List String) (h : Holds ht xs)
    (s : String) :
    (hash_table_nodes ht).filter (fun n => n.kgram = s) =
      if xs.count s = 0 then [] else [{ kgram := s, count := xs.count s }] := by
  have hocc := h.occ s
  have hlen := filter_key_length_le_one (hash_table_nodes ht) s h.wf.nodup_keys
  by_cases hc : xs.count s = 0
  · rw [if_pos hc]
    rw [List.filter_eq_nil_iff]
    intro m hm hms
    have hms2 : m.kgram = s := by simpa using hms
    have : s ∈ xs := (holds_mem_keys_iff ht xs h s).mp (List.mem_map.mpr ⟨m, hm, hms2⟩)
    exact absurd (List.count_pos_iff.mpr this) (by omega)
  · rw [if_neg hc]
    unfold occurrences at hocc
    match hf : (hash_table_nodes ht).filter (fun n => n.kgram = s) with
    | [] => rw [hf] at hocc; simp at hocc; omega
    | [m] =>
      rw [hf] at hocc
      have hm : m ∈ (hash_table_nodes ht).filter (fun n => n.kgram = s) := by
        rw [hf]; simp
      have hk : m.kgram = s := by simpa using (List.mem_filter.mp hm).2
      simp at hocc
      cases m
      simp_all
    | a :: b :: rest => rw [hf] at hlen; simp at hlen

theorem holds_count (ht : HashTable) (xs : List String) (h : Holds ht xs) :
    ht.count = xs.toFinset.card := by
  rw [h.wf.count_eq]
  have h1 : (hash_table_keys ht).toFinset = xs.toFinset := by
    ext s
    simp [holds_mem_keys_iff ht xs h s]
  rw [← h1, List.toFinset_card_of_nodup h.wf.nodup_keys]
  simp [hash_table_keys]

/-! ## The sliding-window loop -/

theorem intercalate_go_snoc (acc s a : String) (xs : List String) :
    String.intercalate.go acc s (xs ++ [a]) = String.intercalate.go acc s xs ++ s ++ a := by
  induction xs generalizing acc with
  | nil => simp [String.intercalate.go]
  | cons x rest ih => simp [String.intercalate.go, ih]

theorem intercalate_snoc (s a : String) (xs : List String) :
    s.intercalate (xs ++ [a]) = if xs = [] then a else s.intercalate xs ++ s ++ a := by
  cases xs with
  | nil => simp [String.intercalate, String.intercalate.go]
  | cons x rest => simp [String.intercalate, intercalate_go_snoc]

theorem build_kgram_steps (T : List String) (i k m : Nat) (hm : m ≤ k)
    (hik : i + k ≤ T.length) :
    (List.range m).foldl
      (fun kgram j =>
        let kgram := kgram ++ T.getD (i + j) ""
        if j < k - 1 then kgram ++ " " else kgram) "" =
      " ".intercalate ((T.drop i).take m) ++ (if 0 < m ∧ m < k then " " else "") := by
  induction m with
  | zero => simp [String.intercalate]
  | succ m ih =>
    have hlt : i + m < T.length := by omega
    have hget : (T.drop i)[m]? = some (T.getD (i + m) "") := by
      rw [List.getElem?_drop, List.getD_eq_getElem?_getD, List.getElem?_eq_getElem hlt]
      simp
    rw [List.range_succ, List.foldl_append, ih (by omega), List.take_succ, hget]
    simp only [List.foldl_cons, List.foldl_nil, Option.toList_some, intercalate_snoc]
    have hmk : m < k := by omega
    by_cases h0 : m = 0
    · subst h0
      by_cases hk : 0 < k - 1
      · have : 0 + 1 < k := by omega
        simp [hk, this, String.intercalate]
      · have : ¬ (0 + 1 < k) := by omega
        simp [hk, this, String.intercalate]
    · have hne : List.take m (List.drop i T) ≠ [] := by
        intro h
        rcases List.take_eq_nil_iff.mp h with h | h
        · exact h0 h
        · have := congrArg List.length h
          simp at this
          omega
      have hpos : 0 < m := Nat.pos_of_ne_zero h0
      by_cases hk : m < k - 1
      · have : m + 1 < k := by omega
        simp [hk, this, hne, hpos, hmk, String.append_assoc]
      · have : ¬ (m + 1 < k) := by omega
        simp [hk, this, hne, hpos, hmk, String.append_assoc]

theorem build_kgram_eq_window (T : List String) (i k : Nat) (hik : i + k ≤ T.length) :
    build_kgram T i k = window T i k := by
  unfold build_kgram window
  rw [build_kgram_steps T i k k (le_refl k) hik]
  simp

theorem kgram_loop (tokens : List String) (k : Nat) (positions : List Nat)
    (st : KGramList × HashTable) :
    positions.foldl (kgram_step tokens k) st =
      ({ st.1 with
          kgrams := st.1.kgrams ++ positions.map (fun i => build_kgram tokens i k)
          count := st.1.count + positions.length },
       insert_all st.2 (positions.map (fun i => build_kgram tokens i k))) := by
  induction positions generalizing st with
  | nil => simp [insert_all]
  | cons i rest ih =>
    rw [List.foldl_cons, ih]
    simp [kgram_step, insert_all, Nat.add_assoc, Nat.add_comm 1]

theorem map_build_kgram_eq_windows (T : List String) (k : Nat) (hk : k ≤ T.length) :
    (List.range (T.length - k + 1)).map (fun i => build_kgram T i k) = windows T k := by
  unfold windows
  apply List.map_congr_left
  intro i hi
  have := List.mem_range.mp hi
  exact build_kgram_eq_window T i k (by omega)

theorem generate_kgrams_valid (reader : DocumentReader) (k : Int) (h1 : 1 ≤ k)
    (h2 : k ≤ (reader.token_list.count : Int)) :
    generate_kgrams reader k =
      ({ reader with
          kgram_list :=
            { kgrams := windows reader.token_list.tokens k.toNat
              count := reader.token_list.count - k.toNat + 1
              k_value := k }
          kgram_hash :=
            some (insert_all (create_hash_table HASH_TABLE_SIZE)
              (windows reader.token_list.tokens k.toNat)) },
       KGramOutcome.generated) := by
  simp only [TokenList.count] at h2 ⊢
  have hk : k.toNat ≤ reader.token_list.tokens.length := by omega
  have hn : ((reader.token_list.tokens.length : Int) - k + 1).toNat =
      reader.token_list.tokens.length - k.toNat + 1 := by omega
  have hg1 : ¬ (k ≤ 0 ∨ k > (reader.token_list.tokens.length : Int)) := by omega
  have hg2 : ¬ ((reader.token_list.tokens.length : Int) - k + 1 ≤ 0) := by omega
  simp only [generate_kgrams, TokenList.count, if_neg hg1, if_neg hg2, hn, kgram_loop,
    map_build_kgram_eq_windows _ _ hk, List.length_range, List.nil_append, Nat.zero_add]

theorem count_windows (T : List String) (k : Nat) (s : String) :
    (windows T k).count s = window_positions T k s := by
  unfold windows window_positions
  rw [List.count_eq_countP, List.countP_map, List.countP_eq_length_filter]
  congr 1

theorem length_windows (T : List String) (k : Nat) :
    (windows T k).length = T.length - k + 1 := by
  simp [windows]

/-! ## The intersection loop -/

theorem chain_fold_count (p : HashNode → Bool) (c : List HashNode) (acc : Nat) :
    c.foldl (fun intersection current => if p current then intersection + 1 else intersection)
      acc = acc + c.countP p := by
  induction c generalizing acc with
  | nil => simp
  | cons n rest ih =>
    rw [List.foldl_cons, ih]
    by_cases h : p n
    · simp [h]; omega
    · simp [h]

theorem bucket_fold_count (p : HashNode → Bool) (L : List (List HashNode)) (acc : Nat) :
    (List.range L.length).foldl
      (fun intersection i =>
        (L.getD i []).foldl
          (fun intersection current => if p current then intersection + 1 else intersection)
          intersection)
      acc = acc + L.flatten.countP p := by
  induction L generalizing acc with
  | nil => simp
  | cons c rest ih =>
    rw [List.length_cons, List.range_succ_eq_map, List.foldl_cons, List.foldl_map]
    simp only [List.getD_cons_zero, List.getD_cons_succ, Nat.succ_eq_add_one]
    rw [ih, chain_fold_count]
    simp [Nat.add_assoc]

theorem intersection_count_eq_countP (A B : HashTable) (h : A.table.length = A.size) :
    hash_table_intersection_count (some A) (some B) =
      (hash_table_nodes A).countP (fun n => hash_table_contains B n.kgram) := by
  simp only [hash_table_intersection_count, hash_table_nodes]
  rw [← h, bucket_fold_count (fun n => hash_table_contains B n.kgram)]
  simp

theorem countP_mem_nodup (l m : List String) (h : l.Nodup) :
    l.countP (fun s => decide (s ∈ m)) = (l.toFinset ∩ m.toFinset).card := by
  rw [List.countP_eq_length_filter, ← List.toFinset_card_of_nodup (h.filter _)]
  congr 1
  ext s
  simp

theorem intersection_count_eq_card (A B : HashTable) (wA : WellFormed A) (wB : WellFormed B) :
    hash_table_intersection_count (some A) (some B) =
      ((hash_table_keys A).toFinset ∩ (hash_table_keys B).toFinset).card := by
  rw [intersection_count_eq_countP A B wA.length_eq,
    ← countP_mem_nodup _ _ wA.nodup_keys]
  have hB := contains_iff_mem_keys B wB
  simp only [hash_table_keys] at hB ⊢
  rw [List.countP_map]
  apply List.countP_congr
  intro n _
  simp only [Function.comp, decide_eq_true_eq]
  exact hB n.kgram

theorem count_eq_card_keys (A : HashTable) (wA : WellFormed A) :
    A.count = (hash_table_keys A).toFinset.card := by
  rw [wA.count_eq, List.toFinset_card_of_nodup wA.nodup_keys]
  simp [hash_table_keys]

theorem built_wellFormed (A : Option HashTable) (h : Built A) (a : HashTable)
    (ha : A = some a) : WellFormed a := by
  obtain ⟨size, xs, hs, rfl⟩ := h a ha
  exact (holds_build size hs xs).wf

theorem intersection_le_count (A B : HashTable) (wA : WellFormed A) (wB : WellFormed B) :
    hash_table_intersection_count (some A) (some B) ≤ A.count ∧
    hash_table_intersection_count (some A) (some B) ≤ B.count := by
  rw [intersection_count_eq_card A B wA wB, count_eq_card_keys A wA, count_eq_card_keys B wB]
  exact ⟨Finset.card_le_card Finset.inter_subset_left,
    Finset.card_le_card Finset.inter_subset_right⟩

theorem intersection_self (A : HashTable) (wA : WellFormed A) :
    hash_table_intersection_count (some A) (some A) = A.count := by
  rw [intersection_count_eq_card A A wA wA, count_eq_card_keys A wA, Finset.inter_self]

theorem jaccard_division_bounds (A B : HashTable) (wA : WellFormed A) (wB : WellFormed B)
    (i : Nat) (u : Int) (h : jaccard_division (some A) (some B) = some (i, u)) :
    (i : Int) ≤ u ∧ 0 < u := by
  have hle := intersection_le_count A B wA wB
  simp only [jaccard_division, hash_table_union_count] at h
  split_ifs at h with h0 hu
  simp only [Option.some.injEq, Prod.mk.injEq] at h
  obtain ⟨rfl, rfl⟩ := h
  omega

theorem cosine_division_bounds (A B : HashTable) (wA : WellFormed A) (wB : WellFormed B)
    (i c1 c2 : Nat) (h : cosine_division (some A) (some B) = some (i, c1, c2)) :
    i ≤ c1 ∧ i ≤ c2 ∧ 0 < c1 ∧ 0 < c2 := by
  have hle := intersection_le_count A B wA wB
  simp only [cosine_division] at h
  split_ifs at h with h0
  simp only [Option.some.injEq, Prod.mk.injEq] at h
  obtain ⟨rfl, rfl, rfl⟩ := h
  omega

theorem cosine_quotient_bounds (i c1 c2 : Nat) (h1 : i ≤ c1) (h2 : i ≤ c2) :
    0 ≤ (i : ℝ) / (Real.sqrt (c1 : ℝ) * Real.sqrt (c2 : ℝ)) ∧
    (i : ℝ) / (Real.sqrt (c1 : ℝ) * Real.sqrt (c2 : ℝ)) ≤ 1 := by
  have hi : (0 : ℝ) ≤ (i : ℝ) := Nat.cast_nonneg i
  have hden : 0 ≤ Real.sqrt (c1 : ℝ) * Real.sqrt (c2 : ℝ) :=
    mul_nonneg (Real.sqrt_nonneg _) (Real.sqrt_nonneg _)
  refine ⟨div_nonneg hi hden, ?_⟩
  apply div_le_one_of_le₀ _ hden
  have e : (i : ℝ) = Real.sqrt (i : ℝ) * Real.sqrt (i : ℝ) := (Real.mul_self_sqrt hi).symm
  rw [e]
  exact mul_le_mul (Real.sqrt_le_sqrt (by exact_mod_cast h1))
    (Real.sqrt_le_sqrt (by exact_mod_cast h2)) (Real.sqrt_nonneg _) (Real.sqrt_nonneg _)

theorem holds_contains_eq_false_iff (ht : HashTable) (xs : List String) (h : Holds ht xs)
    (s : String) : hash_table_contains ht s = false ↔ xs.count s = 0 := by
  rw [List.count_eq_zero, ← holds_mem_keys_iff ht xs h s, ← contains_iff_mem_keys ht h.wf s]
  simp

theorem built_none : Built none := by
  intro a ha
  cases ha

theorem built_insert_all (size : Nat) (h : 0 < size) (xs : List String) :
    Built (some (insert_all (create_hash_table size) xs)) := by
  intro a ha
  exact ⟨size, xs, h, (Option.some.inj ha).symm⟩

/-! ## Binary floating point -/

theorem log2_fuel_eq (fuel n : Nat) (h : n ≤ fuel) : log2_fuel fuel n = Nat.log2 n := by
  induction fuel generalizing n with
  | zero =>
    have : n = 0 := by omega
    subst this
    simp [log2_fuel, Nat.log2]
  | succ f ih =>
    rw [log2_fuel, Nat.log2]
    by_cases h2 : n < 2
    · have : ¬ n ≥ 2 := by omega
      simp [h2, this]
    · have : n ≥ 2 := by omega
      simp only [h2, this, if_true, if_false]
      rw [ih]
      omega

theorem floor_log2_eq (n : Nat) : floor_log2 n = Nat.log2 n :=
  log2_fuel_eq n n (le_refl n)

theorem toRat_nonneg (x : BinFloat) : 0 ≤ x.toRat := by
  unfold BinFloat.toRat
  positivity

/-! ### Rounding keeps the order

The conversion of an `int` to `float` is monotone, and the binary32 quotient of two
floats `x ≤ y` is at most 1. -/

theorem floor_log2_le (n : Nat) (h : 0 < n) : 2 ^ floor_log2 n ≤ n := by
  rw [floor_log2_eq]
  exact Nat.log2_self_le (by omega)

theorem lt_floor_log2 (n : Nat) : n < 2 ^ (floor_log2 n + 1) := by
  rw [floor_log2_eq]
  exact Nat.lt_log2_self

theorem floor_log2_mono (a b : Nat) (h : a ≤ b) : floor_log2 a ≤ floor_log2 b := by
  rcases Nat.eq_zero_or_pos a with rfl | ha
  · simp [floor_log2, log2_fuel]
  · have h1 := floor_log2_le a ha
    have h2 := lt_floor_log2 b
    have h3 : 2 ^ floor_log2 a < 2 ^ (floor_log2 b + 1) := by omega
    have := (Nat.pow_lt_pow_iff_right (by decide : 1 < 2)).mp h3
    omega

theorem round_half_even_ge (a b : Nat) : a / b ≤ round_half_even a b := by
  unfold round_half_even
  simp only []
  split_ifs <;> omega

theorem round_half_even_le_succ (a b : Nat) : round_half_even a b ≤ a / b + 1 := by
  unfold round_half_even
  simp only []
  split_ifs <;> omega

theorem round_half_even_le (a b N : Nat) (hb : 0 < b) (h : a ≤ N * b) :
    round_half_even a b ≤ N := by
  have hq : a / b ≤ N := by
    calc a / b ≤ N * b / b := Nat.div_le_div_right h
      _ = N := Nat.mul_div_cancel _ hb
  rcases Nat.lt_or_ge (a / b) N with hlt | hge
  · have := round_half_even_le_succ a b
    omega
  · have hqe : a / b = N := by omega
    have hr : a % b = 0 := by
      have := Nat.div_add_mod a b
      rw [hqe] at this
      have h2 : b * N = N * b := Nat.mul_comm _ _
      omega
    unfold round_half_even
    simp only [hr, hqe]
    rw [if_pos (by omega)]

theorem round_half_even_mono (a c b : Nat) (h : a ≤ c) :
    round_half_even a b ≤ round_half_even c b := by
  have hq : a / b ≤ c / b := Nat.div_le_div_right h
  rcases Nat.lt_or_ge (a / b) (c / b) with hlt | hge
  · have := round_half_even_le_succ a b
    have := round_half_even_ge c b
    omega
  · have hqe : a / b = c / b := by omega
    have hr : a % b ≤ c % b := by
      have h1 := Nat.div_add_mod a b
      have h2 := Nat.div_add_mod c b
      rw [hqe] at h1
      omega
    unfold round_half_even
    simp only [hqe]
    split_ifs <;> omega


theorem scaled_le_one (a b : Nat) (s : Int) (hs : 0 ≤ s) (hb : 0 < b) (hab : a ≤ b) :
    (({ mant := round_half_even (a * 2 ^ s.toNat) (b * 2 ^ (-s).toNat), exp := -s } :
      BinFloat)).toRat ≤ 1 := by
  obtain ⟨n, rfl⟩ := Int.eq_ofNat_of_zero_le hs
  have h1 : (-(n : Int)).toNat = 0 := by omega
  have hm : round_half_even (a * 2 ^ n) b ≤ 2 ^ n :=
    round_half_even_le _ _ _ hb (by rw [Nat.mul_comm]; exact Nat.mul_le_mul_left _ hab)
  simp only [BinFloat.toRat, Int.toNat_ofNat, h1, pow_zero, mul_one]
  have hq : ((round_half_even (a * 2 ^ n) b : Nat) : ℚ) ≤ (2 : ℚ) ^ n := by exact_mod_cast hm
  rw [zpow_neg, zpow_natCast]
  have hpos : (0 : ℚ) < (2 : ℚ) ^ n := by positivity
  rw [← div_eq_mul_inv]
  exact (div_le_one hpos).mpr hq

theorem round_to_precision_le_one (p a b : Nat) (hp : 0 < p) (hb : 0 < b) (hab : a ≤ b) :
    (round_to_precision p a b).toRat ≤ 1 := by
  unfold round_to_precision
  split
  · simp [BinFloat.toRat]
  · have hl := floor_log2_mono a b hab
    simp only []
    split_ifs with hc
    · exact scaled_le_one a b _ (by omega) hb hab
    · exact scaled_le_one a b _ (by omega) hb hab


theorem round_half_even_one (x : Nat) : round_half_even x 1 = x := by
  unfold round_half_even
  simp [Nat.mod_one]

theorem floor_log2_one : floor_log2 1 = 0 := by decide

theorem float_of_int_value (n : Nat) (hn : 0 < n) :
    (float_of_int n).toRat =
      (((if floor_log2 n < 24 then n
        else round_half_even n (2 ^ (floor_log2 n - 23)) * 2 ^ (floor_log2 n - 23) : Nat)) : ℚ) := by
  have hle := floor_log2_le n hn
  have hn0 : n ≠ 0 := by omega
  unfold float_of_int round_to_precision
  rw [if_neg hn0]
  simp only [floor_log2_one]
  have e1 : ((floor_log2 n : Int) - ((0 : Nat) : Int)).toNat = floor_log2 n := by omega
  have e2 : (-((floor_log2 n : Int) - ((0 : Nat) : Int))).toNat = 0 := by omega
  rw [e1, e2, if_pos (by simpa using hle)]
  by_cases hL : floor_log2 n < 24
  · rw [if_pos hL]
    have s1 : (((24 : Nat) : Int) - 1 - ((floor_log2 n : Int) - ((0 : Nat) : Int))).toNat =
        23 - floor_log2 n := by omega
    have s2 : (-(((24 : Nat) : Int) - 1 - ((floor_log2 n : Int) - ((0 : Nat) : Int)))).toNat = 0 := by
      omega
    have s3 : -(((24 : Nat) : Int) - 1 - ((floor_log2 n : Int) - ((0 : Nat) : Int))) =
        -((23 - floor_log2 n : Nat) : Int) := by omega
    rw [s1, s2, s3]
    simp only [pow_zero, mul_one, round_half_even_one, BinFloat.toRat]
    rw [zpow_neg, zpow_natCast]
    push_cast
    have hpos : (0 : ℚ) < (2 : ℚ) ^ (23 - floor_log2 n) := by positivity
    field_simp
  · rw [if_neg hL]
    have s1 : (((24 : Nat) : Int) - 1 - ((floor_log2 n : Int) - ((0 : Nat) : Int))).toNat = 0 := by
      omega
    have s2 : (-(((24 : Nat) : Int) - 1 - ((floor_log2 n : Int) - ((0 : Nat) : Int)))).toNat =
        floor_log2 n - 23 := by omega
    have s3 : -(((24 : Nat) : Int) - 1 - ((floor_log2 n : Int) - ((0 : Nat) : Int))) =
        ((floor_log2 n - 23 : Nat) : Int) := by omega
    rw [s1, s2, s3]
    simp only [pow_zero, mul_one, one_mul, BinFloat.toRat]
    rw [zpow_natCast]
    push_cast
    rfl


theorem float_of_int_zero : float_of_int 0 = { mant := 0, exp := 0 } := by
  simp [float_of_int, round_to_precision]

theorem float_of_int_bounds (n : Nat) (hn : 0 < n) :
    2 ^ floor_log2 n ≤
      (if floor_log2 n < 24 then n
        else round_half_even n (2 ^ (floor_log2 n - 23)) * 2 ^ (floor_log2 n - 23)) ∧
    (if floor_log2 n < 24 then n
        else round_half_even n (2 ^ (floor_log2 n - 23)) * 2 ^ (floor_log2 n - 23)) ≤
      2 ^ (floor_log2 n + 1) := by
  have h1 := floor_log2_le n hn
  have h2 := lt_floor_log2 n
  by_cases hL : floor_log2 n < 24
  · rw [if_pos hL]
    omega
  · rw [if_neg hL]
    have hsplit : floor_log2 n = 23 + (floor_log2 n - 23) := by omega
    have hpos : 0 < 2 ^ (floor_log2 n - 23) := Nat.pow_pos (by decide)
    have hp1 : 2 ^ floor_log2 n = 2 ^ 23 * 2 ^ (floor_log2 n - 23) := by
      rw [← Nat.pow_add]; congr 1
    have hp2 : 2 ^ (floor_log2 n + 1) = 2 ^ 24 * 2 ^ (floor_log2 n - 23) := by
      rw [← Nat.pow_add]; congr 1; omega
    constructor
    · rw [hp1]
      apply Nat.mul_le_mul_right
      calc 2 ^ 23 = 2 ^ 23 * 2 ^ (floor_log2 n - 23) / 2 ^ (floor_log2 n - 23) :=
            (Nat.mul_div_cancel _ hpos).symm
        _ ≤ n / 2 ^ (floor_log2 n - 23) := Nat.div_le_div_right (by rw [← hp1]; exact h1)
        _ ≤ _ := round_half_even_ge _ _
    · rw [hp2]
      apply Nat.mul_le_mul_right
      exact round_half_even_le _ _ _ hpos (by rw [← hp2]; omega)

theorem float_of_int_mono (i u : Nat) (h : i ≤ u) :
    (float_of_int i).toRat ≤ (float_of_int u).toRat := by
  rcases Nat.eq_zero_or_pos i with rfl | hi
  · rw [float_of_int_zero]
    simp only [BinFloat.toRat, Nat.cast_zero, zero_mul]
    exact toRat_nonneg _
  · have hu : 0 < u := by omega
    rw [float_of_int_value i hi, float_of_int_value u hu]
    have hl := floor_log2_mono i u h
    have bi := float_of_int_bounds i hi
    have bu := float_of_int_bounds u hu
    norm_cast
    rcases Nat.lt_or_ge (floor_log2 i) (floor_log2 u) with hlt | hge
    · have : 2 ^ (floor_log2 i + 1) ≤ 2 ^ floor_log2 u :=
        Nat.pow_le_pow_right (by decide) hlt
      omega
    · have he : floor_log2 i = floor_log2 u := by omega
      rw [he]
      split_ifs
      · exact h
      · exact Nat.mul_le_mul_right _ (round_half_even_mono _ _ _ h)

theorem float_of_int_pos (n : Nat) (hn : 0 < n) : 0 < (float_of_int n).toRat := by
  rw [float_of_int_value n hn]
  have b := (float_of_int_bounds n hn).1
  have : 0 < 2 ^ floor_log2 n := Nat.pow_pos (by decide)
  exact_mod_cast (by omega : 0 < (if floor_log2 n < 24 then n
        else round_half_even n (2 ^ (floor_log2 n - 23)) * 2 ^ (floor_log2 n - 23)))

theorem two_pow_toNat (e : Int) :
    (2 : ℚ) ^ e.toNat = (2 : ℚ) ^ e * (2 : ℚ) ^ (-e).toNat := by
  rcases le_total 0 e with h | h
  · obtain ⟨n, rfl⟩ := Int.eq_ofNat_of_zero_le h
    have : (-(n : Int)).toNat = 0 := by omega
    simp [this]
  · obtain ⟨n, hn⟩ := Int.eq_ofNat_of_zero_le (by omega : 0 ≤ -e)
    have he : e = -(n : Int) := by omega
    subst he
    have h1 : (-(n : Int)).toNat = 0 := by omega
    have h2 : (- -(n : Int)).toNat = n := by omega
    rw [h1, h2, zpow_neg, zpow_natCast]
    have : (0 : ℚ) < (2 : ℚ) ^ n := by positivity
    field_simp

theorem float_div_le_one (x y : BinFloat) (hxy : x.toRat ≤ y.toRat) (hy : 0 < y.toRat) :
    (float_div x y).toRat ≤ 1 := by
  unfold float_div
  have hK : (0 : ℚ) < (2 : ℚ) ^ (-x.exp).toNat * (2 : ℚ) ^ (-y.exp).toNat := by positivity
  have hN : ((x.mant * 2 ^ x.exp.toNat * 2 ^ (-y.exp).toNat : Nat) : ℚ) =
      x.toRat * ((2 : ℚ) ^ (-x.exp).toNat * (2 : ℚ) ^ (-y.exp).toNat) := by
    push_cast
    rw [two_pow_toNat x.exp]
    unfold BinFloat.toRat
    ring
  have hD : ((y.mant * 2 ^ y.exp.toNat * 2 ^ (-x.exp).toNat : Nat) : ℚ) =
      y.toRat * ((2 : ℚ) ^ (-x.exp).toNat * (2 : ℚ) ^ (-y.exp).toNat) := by
    push_cast
    rw [two_pow_toNat y.exp]
    unfold BinFloat.toRat
    ring
  apply round_to_precision_le_one 24 _ _ (by decide)
  · have : (0 : ℚ) < ((y.mant * 2 ^ y.exp.toNat * 2 ^ (-x.exp).toNat : Nat) : ℚ) := by
      rw [hD]; positivity
    exact_mod_cast this
  · have : ((x.mant * 2 ^ x.exp.toNat * 2 ^ (-y.exp).toNat : Nat) : ℚ) ≤
        ((y.mant * 2 ^ y.exp.toNat * 2 ^ (-x.exp).toNat : Nat) : ℚ) := by
      rw [hN, hD]
      exact mul_le_mul_of_nonneg_right hxy hK.le
    exact_mod_cast this

theorem jaccard_quotient_le_one (i u : Nat) (hu : 0 < u) (h : i ≤ u) :
    (jaccard_quotient_binary32 i u).toRat ≤ 1 :=
  float_div_le_one _ _ (float_of_int_mono i u h) (float_of_int_pos u hu)

/-! ### Rounding errors

Every rounding keeps the exact result within the relative error `2 ^ (-p)` of the
precision; composed along the expressions of the similarity functions and of the
comparator this bounds the distance between the stored floats and the exact values. -/

theorem round_half_even_error (a b : Nat) (hb : 0 < b) :
    |((round_half_even a b : Nat) : ℚ) - (a : ℚ) / b| ≤ 1 / 2 := by
  have hbq : (0 : ℚ) < (b : ℚ) := by exact_mod_cast hb
  have hdm : b * (a / b) + a % b = a := Nat.div_add_mod a b
  have hrlt : a % b < b := Nat.mod_lt a hb
  have hq : (a : ℚ) = (b : ℚ) * ((a / b : Nat) : ℚ) + ((a % b : Nat) : ℚ) := by
    exact_mod_cast hdm.symm
  have hr0 : (0 : ℚ) ≤ ((a % b : Nat) : ℚ) := Nat.cast_nonneg _
  have hrb : ((a % b : Nat) : ℚ) < (b : ℚ) := by exact_mod_cast hrlt
  have hx : (a : ℚ) / b = ((a / b : Nat) : ℚ) + ((a % b : Nat) : ℚ) / b := by
    rw [hq]; field_simp; ring
  rw [hx, abs_le]
  unfold round_half_even
  simp only []
  split_ifs with h1 h2 h3
  · have : 2 * ((a % b : Nat) : ℚ) < (b : ℚ) := by exact_mod_cast h1
    have h5 : ((a % b : Nat) : ℚ) / b < 1 / 2 := by
      rw [div_lt_iff₀ hbq]; linarith
    have h6 : 0 ≤ ((a % b : Nat) : ℚ) / b := div_nonneg hr0 hbq.le
    constructor <;> linarith
  · have : (b : ℚ) < 2 * ((a % b : Nat) : ℚ) := by exact_mod_cast h2
    have h5 : 1 / 2 < ((a % b : Nat) : ℚ) / b := by
      rw [lt_div_iff₀ hbq]; linarith
    have h6 : ((a % b : Nat) : ℚ) / b < 1 := by
      rw [div_lt_iff₀ hbq]; linarith
    push_cast
    constructor <;> linarith
  · have e : 2 * (a % b) = b := by omega
    have : 2 * ((a % b : Nat) : ℚ) = (b : ℚ) := by exact_mod_cast e
    have h5 : ((a % b : Nat) : ℚ) / b = 1 / 2 := by
      rw [div_eq_iff hbq.ne']; linarith
    constructor <;> linarith
  · have e : 2 * (a % b) = b := by omega
    have : 2 * ((a % b : Nat) : ℚ) = (b : ℚ) := by exact_mod_cast e
    have h5 : ((a % b : Nat) : ℚ) / b = 1 / 2 := by
      rw [div_eq_iff hbq.ne']; linarith
    push_cast
    constructor <;> linarith


theorem scaled_error (a b : Nat) (hb : 0 < b) (s : Int) :
    |(({ mant := round_half_even (a * 2 ^ s.toNat) (b * 2 ^ (-s).toNat), exp := -s } :
      BinFloat)).toRat - (a : ℚ) / b| ≤ (2 : ℚ) ^ (-s) / 2 := by
  have hB : 0 < b * 2 ^ (-s).toNat := Nat.mul_pos hb (Nat.pow_pos (by decide))
  have herr := round_half_even_error (a * 2 ^ s.toNat) (b * 2 ^ (-s).toNat) hB
  have hbq : (0 : ℚ) < (b : ℚ) := by exact_mod_cast hb
  have h2 : (0 : ℚ) < (2 : ℚ) ^ (-s).toNat := by positivity
  have hs : (0 : ℚ) < (2 : ℚ) ^ s := by positivity
  have hns : (0 : ℚ) < (2 : ℚ) ^ (-s) := by positivity
  have hprod : (2 : ℚ) ^ s * (2 : ℚ) ^ (-s) = 1 := by
    rw [← zpow_add₀ (by norm_num : (2 : ℚ) ≠ 0)]; simp
  have hscale : ((a * 2 ^ s.toNat : Nat) : ℚ) / ((b * 2 ^ (-s).toNat : Nat) : ℚ) =
      (a : ℚ) / b * (2 : ℚ) ^ s := by
    push_cast
    rw [two_pow_toNat s]
    field_simp
    ring
  rw [hscale] at herr
  simp only [BinFloat.toRat]
  have hfact : ((round_half_even (a * 2 ^ s.toNat) (b * 2 ^ (-s).toNat) : Nat) : ℚ) *
      (2 : ℚ) ^ (-s) - (a : ℚ) / b =
      (((round_half_even (a * 2 ^ s.toNat) (b * 2 ^ (-s).toNat) : Nat) : ℚ) -
        (a : ℚ) / b * (2 : ℚ) ^ s) * (2 : ℚ) ^ (-s) := by
    have : (a : ℚ) / b * (2 : ℚ) ^ s * (2 : ℚ) ^ (-s) = (a : ℚ) / b := by
      rw [mul_assoc, hprod, mul_one]
    linarith [this]
  rw [hfact, abs_mul, abs_of_pos hns]
  calc |((round_half_even (a * 2 ^ s.toNat) (b * 2 ^ (-s).toNat) : Nat) : ℚ) -
        (a : ℚ) / b * (2 : ℚ) ^ s| * (2 : ℚ) ^ (-s)
      ≤ 1 / 2 * (2 : ℚ) ^ (-s) := mul_le_mul_of_nonneg_right herr hns.le
    _ = (2 : ℚ) ^ (-s) / 2 := by ring

theorem exponent_le (a b : Nat) (ha : 0 < a) (hb : 0 < b) :
    (2 : ℚ) ^ (if b * 2 ^ ((floor_log2 a : Int) - (floor_log2 b : Int)).toNat ≤
        a * 2 ^ (-((floor_log2 a : Int) - (floor_log2 b : Int))).toNat
      then (floor_log2 a : Int) - (floor_log2 b : Int)
      else (floor_log2 a : Int) - (floor_log2 b : Int) - 1) ≤ (a : ℚ) / b := by
  have hbq : (0 : ℚ) < (b : ℚ) := by exact_mod_cast hb
  split_ifs with hc
  · have hcq : (b : ℚ) * (2 : ℚ) ^ ((floor_log2 a : Int) - (floor_log2 b : Int)).toNat ≤
        (a : ℚ) * (2 : ℚ) ^ (-((floor_log2 a : Int) - (floor_log2 b : Int))).toNat := by
      exact_mod_cast hc
    rw [two_pow_toNat] at hcq
    have h2 : (0 : ℚ) < (2 : ℚ) ^ (-((floor_log2 a : Int) - (floor_log2 b : Int))).toNat := by
      positivity
    rw [le_div_iff₀ hbq]
    have := le_of_mul_le_mul_right (by linarith : (2 : ℚ) ^ ((floor_log2 a : Int) -
      (floor_log2 b : Int)) * (b : ℚ) *
        (2 : ℚ) ^ (-((floor_log2 a : Int) - (floor_log2 b : Int))).toNat ≤
      (a : ℚ) * (2 : ℚ) ^ (-((floor_log2 a : Int) - (floor_log2 b : Int))).toNat) h2
    exact this
  · have h1 : ((2 ^ floor_log2 a : Nat) : ℚ) ≤ (a : ℚ) := by
      exact_mod_cast floor_log2_le a ha
    have h2 : (b : ℚ) ≤ ((2 ^ (floor_log2 b + 1) : Nat) : ℚ) := by
      exact_mod_cast (lt_floor_log2 b).le
    push_cast at h1 h2
    rw [le_div_iff₀ hbq]
    have e : (floor_log2 a : Int) - (floor_log2 b : Int) - 1 =
        (floor_log2 a : Int) - ((floor_log2 b + 1 : Nat) : Int) := by push_cast; ring
    rw [e, zpow_sub₀ (by norm_num : (2 : ℚ) ≠ 0), zpow_natCast, zpow_natCast]
    have hp : (0 : ℚ) < (2 : ℚ) ^ (floor_log2 b + 1) := by positivity
    rw [div_mul_eq_mul_div, div_le_iff₀ hp]
    have h3 : (0 : ℚ) ≤ (2 : ℚ) ^ floor_log2 a := by positivity
    calc (2 : ℚ) ^ floor_log2 a * (b : ℚ) ≤ (2 : ℚ) ^ floor_log2 a * (2 : ℚ) ^ (floor_log2 b + 1) :=
          mul_le_mul_of_nonneg_left h2 h3
      _ ≤ (a : ℚ) * (2 : ℚ) ^ (floor_log2 b + 1) := mul_le_mul_of_nonneg_right h1 hp.le

theorem round_to_precision_error (p a b : Nat) (ha : 0 < a) (hb : 0 < b) :
    |(round_to_precision p a b).toRat - (a : ℚ) / b| ≤ (a : ℚ) / b / 2 ^ p := by
  have ha0 : a ≠ 0 := by omega
  have hexp := exponent_le a b ha hb
  unfold round_to_precision
  rw [if_neg ha0]
  simp only []
  generalize (if b * 2 ^ ((floor_log2 a : Int) - (floor_log2 b : Int)).toNat ≤
        a * 2 ^ (-((floor_log2 a : Int) - (floor_log2 b : Int))).toNat
      then (floor_log2 a : Int) - (floor_log2 b : Int)
      else (floor_log2 a : Int) - (floor_log2 b : Int) - 1) = e at hexp ⊢
  refine le_trans (scaled_error a b hb _) ?_
  have h2p : (0 : ℚ) < (2 : ℚ) ^ p := by positivity
  have e1 : (2 : ℚ) ^ (-((p : Int) - 1 - e)) / 2 = (2 : ℚ) ^ e / 2 ^ p := by
    have : -((p : Int) - 1 - e) = e - (p : Int) + 1 := by ring
    rw [this, zpow_add₀ (by norm_num : (2 : ℚ) ≠ 0),
      zpow_sub₀ (by norm_num : (2 : ℚ) ≠ 0), zpow_natCast]
    simp
  rw [e1]
  exact div_le_div_of_nonneg_right hexp h2p.le

theorem isqrt_bits_spec (N : Nat) (b r : Nat) (h1 : r * r ≤ N)
    (h2 : N < (r + 2 ^ b) * (r + 2 ^ b)) :
    isqrt_bits N b r * isqrt_bits N b r ≤ N ∧
    N < (isqrt_bits N b r + 1) * (isqrt_bits N b r + 1) := by
  induction b generalizing r with
  | zero => simpa [isqrt_bits] using ⟨h1, h2⟩
  | succ b ih =>
    rw [isqrt_bits]
    split_ifs with hc
    · apply ih _ hc
      have : r + 2 ^ b + 2 ^ b = r + 2 ^ (b + 1) := by rw [pow_succ]; omega
      rw [this]
      exact h2
    · exact ih r h1 (by omega)

theorem isqrt_spec (N : Nat) :
    isqrt N * isqrt N ≤ N ∧ N < (isqrt N + 1) * (isqrt N + 1) := by
  unfold isqrt
  apply isqrt_bits_spec
  · simp
  · have h := lt_floor_log2 N
    have h2 : floor_log2 N + 1 ≤ 2 * (floor_log2 N / 2 + 1) := by omega
    have h3 : 2 ^ (floor_log2 N + 1) ≤ 2 ^ (2 * (floor_log2 N / 2 + 1)) :=
      Nat.pow_le_pow_right (by decide) h2
    have h4 : (0 + 2 ^ (floor_log2 N / 2 + 1)) * (0 + 2 ^ (floor_log2 N / 2 + 1)) =
        2 ^ (2 * (floor_log2 N / 2 + 1)) := by
      rw [Nat.zero_add, ← Nat.pow_add]; congr 1; omega
    omega

theorem sqrt_round_error (N : Nat) :
    |(((if (2 * isqrt N + 1) * (2 * isqrt N + 1) < 4 * N then isqrt N + 1 else isqrt N :
      Nat)) : ℝ) - Real.sqrt N| ≤ 1 / 2 := by
  obtain ⟨h1, h2⟩ := isqrt_spec N
  generalize isqrt N = r at h1 h2 ⊢
  have hN : (0 : ℝ) ≤ (N : ℝ) := Nat.cast_nonneg _
  have hR0 : 0 ≤ Real.sqrt N := Real.sqrt_nonneg _
  have hR : Real.sqrt N * Real.sqrt N = N := Real.mul_self_sqrt hN
  have hr0 : (0 : ℝ) ≤ (r : ℝ) := Nat.cast_nonneg _
  have c1 : (r : ℝ) * r ≤ N := by exact_mod_cast h1
  have c2 : (N : ℝ) < ((r : ℝ) + 1) * ((r : ℝ) + 1) := by exact_mod_cast h2
  have lo : (r : ℝ) ≤ Real.sqrt N := by
    by_contra hcon
    push_neg at hcon
    nlinarith
  have hi : Real.sqrt N < (r : ℝ) + 1 := by
    by_contra hcon
    push_neg at hcon
    nlinarith
  rw [abs_le]
  split_ifs with hc
  · have c3 : (2 * (r : ℝ) + 1) * (2 * (r : ℝ) + 1) < 4 * N := by exact_mod_cast hc
    have : 2 * (r : ℝ) + 1 < 2 * Real.sqrt N := by
      by_contra hcon
      push_neg at hcon
      nlinarith
    push_cast
    constructor <;> linarith
  · have c3 : 4 * (N : ℝ) ≤ (2 * (r : ℝ) + 1) * (2 * (r : ℝ) + 1) := by
      push_neg at hc
      exact_mod_cast hc
    have : 2 * Real.sqrt N ≤ 2 * (r : ℝ) + 1 := by
      by_contra hcon
      push_neg at hcon
      nlinarith
    constructor <;> linarith

theorem two_pow_half_log_le_sqrt (n : Nat) (hn : 0 < n) :
    (2 : ℝ) ^ (floor_log2 n / 2) ≤ Real.sqrt n := by
  apply Real.le_sqrt_of_sq_le
  have h1 := floor_log2_le n hn
  have h2 : 2 ^ (2 * (floor_log2 n / 2)) ≤ 2 ^ floor_log2 n :=
    Nat.pow_le_pow_right (by decide) (by omega)
  have h3 : ((2 ^ (2 * (floor_log2 n / 2)) : Nat) : ℝ) ≤ (n : ℝ) := by
    exact_mod_cast le_trans h2 h1
  push_cast at h3
  rw [← pow_mul, mul_comm]
  exact h3

theorem sqrt_to_precision_error (p n : Nat) :
    |(((sqrt_to_precision p n).toRat : ℚ) : ℝ) - Real.sqrt n| ≤ Real.sqrt n / 2 ^ p := by
  unfold sqrt_to_precision
  split
  · rename_i h0
    subst h0
    simp [BinFloat.toRat]
  · rename_i h0
    have hn : 0 < n := by omega
    simp only []
    have herr := sqrt_round_error (n * 4 ^ (p - 1 - floor_log2 n / 2))
    have hlog := two_pow_half_log_le_sqrt n hn
    generalize hs : p - 1 - floor_log2 n / 2 = s at herr ⊢
    have hps : p ≤ s + floor_log2 n / 2 + 1 := by omega
    generalize floor_log2 n / 2 = h at hlog hps
    generalize (if (2 * isqrt (n * 4 ^ s) + 1) * (2 * isqrt (n * 4 ^ s) + 1) < 4 * (n * 4 ^ s)
      then isqrt (n * 4 ^ s) + 1 else isqrt (n * 4 ^ s)) = m at herr ⊢
    have hsq : Real.sqrt ((n * 4 ^ s : Nat) : ℝ) = Real.sqrt n * 2 ^ s := by
      push_cast
      rw [Real.sqrt_mul (Nat.cast_nonneg n)]
      congr 1
      have : (4 : ℝ) ^ s = (2 ^ s) ^ 2 := by
        rw [← pow_mul, mul_comm, pow_mul]; norm_num
      rw [this, Real.sqrt_sq (by positivity)]
    rw [hsq] at herr
    have h2s : (0 : ℝ) < (2 : ℝ) ^ s := by positivity
    have h2p : (0 : ℝ) < (2 : ℝ) ^ p := by positivity
    have hval : (((({ mant := m, exp := -(s : Int) } : BinFloat).toRat : ℚ)) : ℝ) =
        (m : ℝ) / 2 ^ s := by
      simp only [BinFloat.toRat]
      push_cast
      rw [zpow_neg, zpow_natCast, div_eq_mul_inv]
    rw [hval]
    have hfact : (m : ℝ) / 2 ^ s - Real.sqrt n = ((m : ℝ) - Real.sqrt n * 2 ^ s) / 2 ^ s := by
      field_simp
      ring
    rw [hfact, abs_div, abs_of_pos h2s, div_le_div_iff₀ h2s h2p]
    have hpow : (2 : ℝ) ^ p ≤ 2 ^ (s + h + 1) :=
      pow_le_pow_right₀ (by norm_num) hps
    have hsn : (0 : ℝ) ≤ Real.sqrt n := Real.sqrt_nonneg _
    calc |(m : ℝ) - Real.sqrt n * 2 ^ s| * 2 ^ p ≤ 1 / 2 * 2 ^ (s + h + 1) :=
          mul_le_mul herr hpow h2p.le (by norm_num)
      _ = 2 ^ h * 2 ^ s := by rw [pow_succ, pow_add]; ring
      _ ≤ Real.sqrt n * 2 ^ s := mul_le_mul_of_nonneg_right hlog h2s.le

theorem round_to_precision_bounds (p a b : Nat) (hb : 0 < b) :
    (a : ℚ) / b * (1 - 1 / 2 ^ p) ≤ (round_to_precision p a b).toRat ∧
    (round_to_precision p a b).toRat ≤ (a : ℚ) / b * (1 + 1 / 2 ^ p) := by
  rcases Nat.eq_zero_or_pos a with rfl | ha
  · simp [round_to_precision, BinFloat.toRat]
  · have h := round_to_precision_error p a b ha hb
    rw [abs_le] at h
    have e : (a : ℚ) / b / 2 ^ p = (a : ℚ) / b * (1 / 2 ^ p) := by ring
    rw [e] at h
    constructor <;> linarith [h.1, h.2]

theorem toRat_ratio (x : BinFloat) :
    ((x.mant * 2 ^ x.exp.toNat : Nat) : ℚ) / ((2 ^ (-x.exp).toNat : Nat) : ℚ) = x.toRat := by
  push_cast
  rw [two_pow_toNat x.exp]
  unfold BinFloat.toRat
  have : (0 : ℚ) < (2 : ℚ) ^ (-x.exp).toNat := by positivity
  field_simp
  ring

theorem float_of_double_bounds (x : BinFloat) :
    x.toRat * (1 - 1 / 2 ^ 24) ≤ (float_of_double x).toRat ∧
    (float_of_double x).toRat ≤ x.toRat * (1 + 1 / 2 ^ 24) := by
  have h := round_to_precision_bounds 24 (x.mant * 2 ^ x.exp.toNat) (2 ^ (-x.exp).toNat)
    (Nat.pow_pos (by decide))
  rw [toRat_ratio] at h
  exact h

theorem float_of_int_bounds_rat (n : Nat) :
    (n : ℚ) * (1 - 1 / 2 ^ 24) ≤ (float_of_int n).toRat ∧
    (float_of_int n).toRat ≤ (n : ℚ) * (1 + 1 / 2 ^ 24) := by
  have h := round_to_precision_bounds 24 n 1 (by decide)
  simpa using h

theorem mul_ratio (x y : BinFloat) :
    ((x.mant * y.mant * 2 ^ (x.exp + y.exp).toNat : Nat) : ℚ) /
      ((2 ^ (-(x.exp + y.exp)).toNat : Nat) : ℚ) = x.toRat * y.toRat := by
  push_cast
  rw [two_pow_toNat (x.exp + y.exp)]
  unfold BinFloat.toRat
  have : (0 : ℚ) < (2 : ℚ) ^ (-(x.exp + y.exp)).toNat := by positivity
  rw [zpow_add₀ (by norm_num : (2 : ℚ) ≠ 0)]
  field_simp
  ring

theorem float_mul_bounds (x y : BinFloat) :
    x.toRat * y.toRat * (1 - 1 / 2 ^ 24) ≤ (float_mul x y).toRat ∧
    (float_mul x y).toRat ≤ x.toRat * y.toRat * (1 + 1 / 2 ^ 24) := by
  have h := round_to_precision_bounds 24 (x.mant * y.mant * 2 ^ (x.exp + y.exp).toNat)
    (2 ^ (-(x.exp + y.exp)).toNat) (Nat.pow_pos (by decide))
  rw [mul_ratio] at h
  exact h

theorem double_mul_bounds (x y : BinFloat) :
    x.toRat * y.toRat * (1 - 1 / 2 ^ 53) ≤ (double_mul x y).toRat ∧
    (double_mul x y).toRat ≤ x.toRat * y.toRat * (1 + 1 / 2 ^ 53) := by
  have h := round_to_precision_bounds 53 (x.mant * y.mant * 2 ^ (x.exp + y.exp).toNat)
    (2 ^ (-(x.exp + y.exp)).toNat) (Nat.pow_pos (by decide))
  rw [mul_ratio] at h
  exact h

theorem div_ratio (x y : BinFloat) (hy : 0 < y.mant) :
    ((x.mant * 2 ^ x.exp.toNat * 2 ^ (-y.exp).toNat : Nat) : ℚ) /
      ((y.mant * 2 ^ y.exp.toNat * 2 ^ (-x.exp).toNat : Nat) : ℚ) = x.toRat / y.toRat := by
  push_cast
  rw [two_pow_toNat x.exp, two_pow_toNat y.exp]
  unfold BinFloat.toRat
  have h1 : (0 : ℚ) < (2 : ℚ) ^ (-x.exp).toNat := by positivity
  have h2 : (0 : ℚ) < (2 : ℚ) ^ (-y.exp).toNat := by positivity
  have h3 : (0 : ℚ) < (2 : ℚ) ^ x.exp := by positivity
  have h4 : (0 : ℚ) < (2 : ℚ) ^ y.exp := by positivity
  have h5 : (0 : ℚ) < (y.mant : ℚ) := by exact_mod_cast hy
  field_simp
  ring

theorem float_div_bounds (x y : BinFloat) (hy : 0 < y.mant) :
    x.toRat / y.toRat * (1 - 1 / 2 ^ 24) ≤ (float_div x y).toRat ∧
    (float_div x y).toRat ≤ x.toRat / y.toRat * (1 + 1 / 2 ^ 24) := by
  have h := round_to_precision_bounds 24 (x.mant * 2 ^ x.exp.toNat * 2 ^ (-y.exp).toNat)
    (y.mant * 2 ^ y.exp.toNat * 2 ^ (-x.exp).toNat)
    (Nat.mul_pos (Nat.mul_pos hy (Nat.pow_pos (by decide))) (Nat.pow_pos (by decide)))
  rw [div_ratio x y hy] at h
  exact h

theorem add_ratio (x y : BinFloat) :
    (((x.mant * 2 ^ (x.exp - min x.exp y.exp).toNat +
        y.mant * 2 ^ (y.exp - min x.exp y.exp).toNat) * 2 ^ (min x.exp y.exp).toNat : Nat) : ℚ) /
      ((2 ^ (-(min x.exp y.exp)).toNat : Nat) : ℚ) = x.toRat + y.toRat := by
  have hx : 0 ≤ x.exp - min x.exp y.exp := by
    have := min_le_left x.exp y.exp; omega
  have hy : 0 ≤ y.exp - min x.exp y.exp := by
    have := min_le_right x.exp y.exp; omega
  generalize min x.exp y.exp = e at hx hy
  push_cast
  rw [two_pow_toNat e]
  have e1 : (2 : ℚ) ^ (x.exp - e).toNat = (2 : ℚ) ^ (x.exp - e) := by
    rw [← zpow_natCast, Int.toNat_of_nonneg hx]
  have e2 : (2 : ℚ) ^ (y.exp - e).toNat = (2 : ℚ) ^ (y.exp - e) := by
    rw [← zpow_natCast, Int.toNat_of_nonneg hy]
  rw [e1, e2, zpow_sub₀ (by norm_num : (2 : ℚ) ≠ 0), zpow_sub₀ (by norm_num : (2 : ℚ) ≠ 0)]
  unfold BinFloat.toRat
  have h1 : (0 : ℚ) < (2 : ℚ) ^ (-e).toNat := by positivity
  have h2 : (0 : ℚ) < (2 : ℚ) ^ e := by positivity
  field_simp

theorem double_add_bounds (x y : BinFloat) :
    (x.toRat + y.toRat) * (1 - 1 / 2 ^ 53) ≤ (double_add x y).toRat ∧
    (double_add x y).toRat ≤ (x.toRat + y.toRat) * (1 + 1 / 2 ^ 53) := by
  have h := round_to_precision_bounds 53
    ((x.mant * 2 ^ (x.exp - min x.exp y.exp).toNat +
        y.mant * 2 ^ (y.exp - min x.exp y.exp).toNat) * 2 ^ (min x.exp y.exp).toNat)
    (2 ^ (-(min x.exp y.exp)).toNat) (Nat.pow_pos (by decide))
  rw [add_ratio] at h
  exact h

theorem float_add_bounds (x y : BinFloat) :
    (x.toRat + y.toRat) * (1 - 1 / 2 ^ 24) ≤ (float_add x y).toRat ∧
    (float_add x y).toRat ≤ (x.toRat + y.toRat) * (1 + 1 / 2 ^ 24) := by
  have h := round_to_precision_bounds 24
    ((x.mant * 2 ^ (x.exp - min x.exp y.exp).toNat +
        y.mant * 2 ^ (y.exp - min x.exp y.exp).toNat) * 2 ^ (min x.exp y.exp).toNat)
    (2 ^ (-(min x.exp y.exp)).toNat) (Nat.pow_pos (by decide))
  rw [add_ratio] at h
  exact h

theorem double_const_bounds (a b : Nat) (hb : 0 < b) :
    (a : ℚ) / b * (1 - 1 / 2 ^ 53) ≤ (double_const a b).toRat ∧
    (double_const a b).toRat ≤ (a : ℚ) / b * (1 + 1 / 2 ^ 53) :=
  round_to_precision_bounds 53 a b hb

theorem bounds_mul {α : Type} [LinearOrderedField α] {x1 x2 y1 y2 l1 h1 l2 h2 : α}
    (hx1 : 0 ≤ x1) (hx2 : 0 ≤ x2) (hl1 : 0 ≤ l1) (hl2 : 0 ≤ l2)
    (b1 : x1 * l1 ≤ y1 ∧ y1 ≤ x1 * h1) (b2 : x2 * l2 ≤ y2 ∧ y2 ≤ x2 * h2) :
    x1 * x2 * (l1 * l2) ≤ y1 * y2 ∧ y1 * y2 ≤ x1 * x2 * (h1 * h2) := by
  have p1 : 0 ≤ x1 * l1 := mul_nonneg hx1 hl1
  have p2 : 0 ≤ x2 * l2 := mul_nonneg hx2 hl2
  have q1 : 0 ≤ y1 := le_trans p1 b1.1
  have q2 : 0 ≤ y2 := le_trans p2 b2.1
  constructor
  · calc x1 * x2 * (l1 * l2) = (x1 * l1) * (x2 * l2) := by ring
      _ ≤ y1 * y2 := mul_le_mul b1.1 b2.1 p2 q1
  · calc y1 * y2 ≤ (x1 * h1) * (x2 * h2) := mul_le_mul b1.2 b2.2 q2 (le_trans q1 b1.2)
      _ = x1 * x2 * (h1 * h2) := by ring

theorem bounds_div {α : Type} [LinearOrderedField α] {x1 x2 y1 y2 l1 h1 l2 h2 : α}
    (hx1 : 0 ≤ x1) (hx2 : 0 < x2) (hl1 : 0 ≤ l1) (hl2 : 0 < l2)
    (b1 : x1 * l1 ≤ y1 ∧ y1 ≤ x1 * h1) (b2 : x2 * l2 ≤ y2 ∧ y2 ≤ x2 * h2) :
    x1 / x2 * (l1 / h2) ≤ y1 / y2 ∧ y1 / y2 ≤ x1 / x2 * (h1 / l2) := by
  have p1 : 0 ≤ x1 * l1 := mul_nonneg hx1 hl1
  have p2 : 0 < x2 * l2 := mul_pos hx2 hl2
  have q1 : 0 ≤ y1 := le_trans p1 b1.1
  have q2 : 0 < y2 := lt_of_lt_of_le p2 b2.1
  have q3 : 0 < x2 * h2 := lt_of_lt_of_le q2 b2.2
  constructor
  · calc x1 / x2 * (l1 / h2) = (x1 * l1) / (x2 * h2) := by
          rw [div_mul_div_comm]
      _ ≤ y1 / y2 := div_le_div₀ q1 b1.1 q2 b2.2
  · calc y1 / y2 ≤ (x1 * h1) / (x2 * l2) := div_le_div₀ (le_trans q1 b1.2) b1.2 p2 b2.1
      _ = x1 / x2 * (h1 / l2) := by rw [div_mul_div_comm]

theorem bounds_round {α : Type} [LinearOrderedField α] {x y z l h u : α}
    (hx : 0 ≤ x) (hl : 0 ≤ l) (hu : 0 ≤ u) (hu1 : u ≤ 1)
    (b : x * l ≤ y ∧ y ≤ x * h) (r : y * (1 - u) ≤ z ∧ z ≤ y * (1 + u)) :
    x * (l * (1 - u)) ≤ z ∧ z ≤ x * (h * (1 + u)) := by
  have p : 0 ≤ x * l := mul_nonneg hx hl
  have q : 0 ≤ y := le_trans p b.1
  constructor
  · calc x * (l * (1 - u)) = (x * l) * (1 - u) := by ring
      _ ≤ y * (1 - u) := mul_le_mul_of_nonneg_right b.1 (by linarith)
      _ ≤ z := r.1
  · calc z ≤ y * (1 + u) := r.2
      _ ≤ (x * h) * (1 + u) := mul_le_mul_of_nonneg_right b.2 (by linarith)
      _ = x * (h * (1 + u)) := by ring

theorem bounds_add {α : Type} [LinearOrderedField α] {x1 x2 y1 y2 l h : α}
    (b1 : x1 * l ≤ y1 ∧ y1 ≤ x1 * h) (b2 : x2 * l ≤ y2 ∧ y2 ≤ x2 * h) :
    (x1 + x2) * l ≤ y1 + y2 ∧ y1 + y2 ≤ (x1 + x2) * h := by
  constructor
  · linarith [b1.1, b2.1, add_mul x1 x2 l]
  · linarith [b1.2, b2.2, add_mul x1 x2 h]

theorem bounds_weaken {α : Type} [LinearOrderedField α] {x y l h l2 h2 : α}
    (hx : 0 ≤ x) (hl : l2 ≤ l) (hh : h ≤ h2) (b : x * l ≤ y ∧ y ≤ x * h) :
    x * l2 ≤ y ∧ y ≤ x * h2 :=
  ⟨le_trans (mul_le_mul_of_nonneg_left hl hx) b.1,
    le_trans b.2 (mul_le_mul_of_nonneg_left hh hx)⟩

theorem toRat_pos_mant (x : BinFloat) (h : 0 < x.toRat) : 0 < x.mant := by
  rcases Nat.eq_zero_or_pos x.mant with h0 | h0
  · simp [BinFloat.toRat, h0] at h
  · exact h0

theorem jaccard_quotient_bounds (i u : Nat) (hu : 0 < u) :
    (i : ℚ) / u * ((1 - 1 / 2 ^ 24) / (1 + 1 / 2 ^ 24) * (1 - 1 / 2 ^ 24)) ≤
      (jaccard_quotient_binary32 i u).toRat ∧
    (jaccard_quotient_binary32 i u).toRat ≤
      (i : ℚ) / u * ((1 + 1 / 2 ^ 24) / (1 - 1 / 2 ^ 24) * (1 + 1 / 2 ^ 24)) := by
  unfold jaccard_quotient_binary32
  have hi := float_of_int_bounds_rat i
  have hU := float_of_int_bounds_rat u
  have hup : (0 : ℚ) < (u : ℚ) := by exact_mod_cast hu
  have hm : 0 < (float_of_int u).mant := toRat_pos_mant _ (float_of_int_pos u hu)
  have hq := bounds_div (Nat.cast_nonneg i) hup (by norm_num) (by norm_num) hi hU
  exact bounds_round (div_nonneg (Nat.cast_nonneg i) hup.le) (by norm_num) (by norm_num)
    (by norm_num) hq (float_div_bounds _ _ hm)

theorem cast_round_bounds (p : Nat) {x y : ℚ}
    (b : x * (1 - 1 / 2 ^ p) ≤ y ∧ y ≤ x * (1 + 1 / 2 ^ p)) :
    (x : ℝ) * (1 - 1 / 2 ^ p) ≤ (y : ℝ) ∧ (y : ℝ) ≤ (x : ℝ) * (1 + 1 / 2 ^ p) := by
  have h1 : ((x * (1 - 1 / 2 ^ p) : ℚ) : ℝ) ≤ (y : ℝ) := Rat.cast_le.mpr b.1
  have h2 : (y : ℝ) ≤ ((x * (1 + 1 / 2 ^ p) : ℚ) : ℝ) := Rat.cast_le.mpr b.2
  push_cast at h1 h2
  exact ⟨h1, h2⟩

theorem c_sqrt_bounds (n : Nat) :
    Real.sqrt n * (1 - 1 / 2 ^ 53) ≤ (((c_sqrt n).toRat : ℚ) : ℝ) ∧
    (((c_sqrt n).toRat : ℚ) : ℝ) ≤ Real.sqrt n * (1 + 1 / 2 ^ 53) := by
  have h := sqrt_to_precision_error 53 n
  rw [abs_le] at h
  unfold c_sqrt
  have e : Real.sqrt n / 2 ^ 53 = Real.sqrt n * (1 / 2 ^ 53) := by ring
  rw [e] at h
  constructor <;> linarith [h.1, h.2]

theorem magnitude_bounds (n : Nat) :
    Real.sqrt n * ((1 - 1 / 2 ^ 53) * (1 - 1 / 2 ^ 24)) ≤
      (((float_of_double (c_sqrt n)).toRat : ℚ) : ℝ) ∧
    (((float_of_double (c_sqrt n)).toRat : ℚ) : ℝ) ≤
      Real.sqrt n * ((1 + 1 / 2 ^ 53) * (1 + 1 / 2 ^ 24)) := by
  have h1 := c_sqrt_bounds n
  have h2 : (((c_sqrt n).toRat : ℚ) : ℝ) * (1 - 1 / 2 ^ 24) ≤
        (((float_of_double (c_sqrt n)).toRat : ℚ) : ℝ) ∧
      (((float_of_double (c_sqrt n)).toRat : ℚ) : ℝ) ≤
        (((c_sqrt n).toRat : ℚ) : ℝ) * (1 + 1 / 2 ^ 24) := by
    exact cast_round_bounds 24 (float_of_double_bounds (c_sqrt n))
  exact bounds_round (Real.sqrt_nonneg _) (by norm_num) (by norm_num) (by norm_num) h1 h2

theorem cosine_quotient_float_bounds (i c1 c2 : Nat) (h1 : 0 < c1) (h2 : 0 < c2) :
    (i : ℝ) / (Real.sqrt c1 * Real.sqrt c2) * (1 - 6 / 2 ^ 24) ≤
      (((cosine_quotient_binary32 i c1 c2).toRat : ℚ) : ℝ) ∧
    (((cosine_quotient_binary32 i c1 c2).toRat : ℚ) : ℝ) ≤
      (i : ℝ) / (Real.sqrt c1 * Real.sqrt c2) * (1 + 6 / 2 ^ 24) := by
  unfold cosine_quotient_binary32
  simp only []
  have s1 : 0 < Real.sqrt c1 := Real.sqrt_pos.mpr (by exact_mod_cast h1)
  have s2 : 0 < Real.sqrt c2 := Real.sqrt_pos.mpr (by exact_mod_cast h2)
  have m1 := magnitude_bounds c1
  have m2 := magnitude_bounds c2
  have hm := bounds_mul s1.le s2.le (by norm_num) (by norm_num) m1 m2
  have hP0 : (((float_of_double (c_sqrt c1)).toRat * (float_of_double (c_sqrt c2)).toRat : ℚ) : ℝ)
        * (1 - 1 / 2 ^ 24) ≤
      (((float_mul (float_of_double (c_sqrt c1)) (float_of_double (c_sqrt c2))).toRat : ℚ) : ℝ) ∧
      (((float_mul (float_of_double (c_sqrt c1)) (float_of_double (c_sqrt c2))).toRat : ℚ) : ℝ) ≤
      (((float_of_double (c_sqrt c1)).toRat * (float_of_double (c_sqrt c2)).toRat : ℚ) : ℝ)
        * (1 + 1 / 2 ^ 24) := by
    exact cast_round_bounds 24
      (float_mul_bounds (float_of_double (c_sqrt c1)) (float_of_double (c_sqrt c2)))
  rw [Rat.cast_mul] at hP0
  have hP := bounds_round (mul_nonneg s1.le s2.le) (by norm_num) (by norm_num) (by norm_num)
    hm hP0
  have hPpos : (0 : ℝ) <
      (((float_mul (float_of_double (c_sqrt c1)) (float_of_double (c_sqrt c2))).toRat : ℚ) : ℝ) :=
    lt_of_lt_of_le (mul_pos (mul_pos s1 s2) (by norm_num)) hP.1
  have hmant : 0 <
      (float_mul (float_of_double (c_sqrt c1)) (float_of_double (c_sqrt c2))).mant :=
    toRat_pos_mant _ (by exact_mod_cast hPpos)
  have hI : (i : ℝ) * (1 - 1 / 2 ^ 24) ≤ (((float_of_int i).toRat : ℚ) : ℝ) ∧
      (((float_of_int i).toRat : ℚ) : ℝ) ≤ (i : ℝ) * (1 + 1 / 2 ^ 24) := by
    have := cast_round_bounds 24 (float_of_int_bounds_rat i)
    rw [Rat.cast_natCast] at this
    exact this
  have hq := bounds_div (Nat.cast_nonneg i) (mul_pos s1 s2) (by norm_num) (by norm_num) hI hP
  have hQ0 : (((float_of_int i).toRat /
        (float_mul (float_of_double (c_sqrt c1)) (float_of_double (c_sqrt c2))).toRat : ℚ) : ℝ)
        * (1 - 1 / 2 ^ 24) ≤
      (((float_div (float_of_int i)
        (float_mul (float_of_double (c_sqrt c1)) (float_of_double (c_sqrt c2)))).toRat : ℚ) : ℝ) ∧
      (((float_div (float_of_int i)
        (float_mul (float_of_double (c_sqrt c1)) (float_of_double (c_sqrt c2)))).toRat : ℚ) : ℝ) ≤
      (((float_of_int i).toRat /
        (float_mul (float_of_double (c_sqrt c1)) (float_of_double (c_sqrt c2))).toRat : ℚ) : ℝ)
        * (1 + 1 / 2 ^ 24) := by
    exact cast_round_bounds 24 (float_div_bounds (float_of_int i)
      (float_mul (float_of_double (c_sqrt c1)) (float_of_double (c_sqrt c2))) hmant)
  rw [Rat.cast_div] at hQ0
  have hx : (0 : ℝ) ≤ (i : ℝ) / (Real.sqrt c1 * Real.sqrt c2) :=
    div_nonneg (Nat.cast_nonneg i) (mul_pos s1 s2).le
  have hQ := bounds_round hx (by norm_num) (by norm_num) (by norm_num) hq hQ0
  exact bounds_weaken hx (by norm_num) (by norm_num) hQ

/-! ### The two-key set -/

set_option maxRecDepth 1000000 in
theorem magnitude_of_two : float_of_double (c_sqrt 2) = { mant := 11863283, exp := -23 } := by
  decide

set_option maxRecDepth 1000000 in
theorem magnitude_product_of_two :
    float_mul { mant := 11863283, exp := -23 } { mant := 11863283, exp := -23 } =
      { mant := 16777215, exp := -23 } := by
  decide

set_option maxRecDepth 1000000 in
theorem cosine_quotient_of_two :
    float_div (float_of_int 2) { mant := 16777215, exp := -23 } =
      { mant := 8388609, exp := -23 } := by
  decide

set_option maxRecDepth 1000000 in
theorem c_sqrt_two : c_sqrt 2 = { mant := 6369051672525773, exp := -52 } := by
  decide

/-- The four roundings behind `cosine_quotient_binary32 2 2 2`, checked without the
rounding functions: `6369051672525773 / 2^52` is within half a unit of `sqrt 2`
(binary64); `11863283 / 2^23` is within half a unit of that (binary32);
`16777215 / 2^23` is within half a unit of `(11863283 / 2^23)^2`; and
`8388609 / 2^23` is within half a unit of `2 / (16777215 / 2^23)`. No tie occurs. -/
theorem two_key_roundings_nearest :
    ((2 * 6369051672525773 - 1) ^ 2 < 4 * (2 * 2 ^ 104) ∧
      4 * (2 * 2 ^ 104) < (2 * 6369051672525773 + 1) ^ 2) ∧
    (2 * (6369051672525773 - 11863283 * 2 ^ 29) < 2 ^ 29 ∧
      11863283 * 2 ^ 29 ≤ 6369051672525773) ∧
    (2 * (11863283 * 11863283 - 16777215 * 2 ^ 23) < 2 ^ 23 ∧
      11863283 * 11863283 ≥ 16777215 * 2 ^ 23) ∧
    (2 * (8388609 * 16777215 - 2 ^ 47) < 16777215 ∧ 8388609 * 16777215 ≥ 2 ^ 47) := by
  norm_num

theorem cosine_quotient_binary32_two :
    cosine_quotient_binary32 2 2 2 = { mant := 8388609, exp := -23 } := by
  simp only [cosine_quotient_binary32, magnitude_of_two, magnitude_product_of_two,
    cosine_quotient_of_two]

theorem two_key_set_division :
    cosine_division
        (some (insert_all (create_hash_table HASH_TABLE_SIZE) ["a", "b"]))
        (some (insert_all (create_hash_table HASH_TABLE_SIZE) ["a", "b"])) =
      some (2, 2, 2) := by
  have H := holds_build HASH_TABLE_SIZE (by decide) ["a", "b"]
  have hcount := holds_count _ _ H
  have hcard : (["a", "b"] : List String).toFinset.card = 2 := by decide
  rw [hcard] at hcount
  have hself := intersection_self _ H.wf
  simp only [cosine_division, hself, hcount]
  simp

/-! ## Shingle sets built by `generate_kgrams` -/

/-- C1: for a reader with tokens `T` and `1 ≤ k ≤ len(T)`, whatever k-gram list and
shingle set it held before, after `generate_kgrams` the hash table has, for every
string `s`, exactly one node with key `s` whose count is the number of window
positions producing `s`, or no node with key `s` when that number is zero (and then
`hash_table_contains` is false). -/
theorem generate_kgrams_shingle_counts (reader : DocumentReader) (k : Int) (h1 : 1 ≤ k)
    (h2 : k ≤ (reader.token_list.count : Int)) :
    ∃ ht, (generate_kgrams reader k).1.kgram_hash = some ht ∧
      ∀ s : String,
        ((hash_table_nodes ht).filter (fun n => n.kgram = s) =
          if window_positions reader.token_list.tokens k.toNat s = 0 then []
          else [{ kgram := s
                  count := window_positions reader.token_list.tokens k.toNat s }]) ∧
        (hash_table_contains ht s = false ↔
          window_positions reader.token_list.tokens k.toNat s = 0) := by
  rw [generate_kgrams_valid reader k h1 h2]
  refine ⟨_, rfl, fun s => ?_⟩
  have H := holds_build HASH_TABLE_SIZE (by decide) (windows reader.token_list.tokens k.toNat)
  rw [← count_windows]
  exact ⟨holds_filter_key _ _ H s, holds_contains_eq_false_iff _ _ H s⟩

theorem generate_kgrams_shingle_counts_witness :
    (1 : Int) ≤ 2 ∧ (2 : Int) ≤ (sample_reader.token_list.count : Int) ∧
    ∃ ht, (generate_kgrams sample_reader 2).1.kgram_hash = some ht ∧
      ∀ s : String,
        ((hash_table_nodes ht).filter (fun n => n.kgram = s) =
          if window_positions sample_reader.token_list.tokens (2 : Int).toNat s = 0 then []
          else [{ kgram := s
                  count := window_positions sample_reader.token_list.tokens
                    (2 : Int).toNat s }]) ∧
        (hash_table_contains ht s = false ↔
          window_positions sample_reader.token_list.tokens (2 : Int).toNat s = 0) :=
  ⟨by decide, by decide,
    generate_kgrams_shingle_counts sample_reader 2 (by decide) (by decide)⟩

/-- C2: for `1 ≤ k ≤ len(T)`, after `generate_kgrams` the occurrence counts of all
hash table entries sum to `len(T) - k + 1`, and `kgram_list.count` is the same number. -/
theorem generate_kgrams_total_occurrences (reader : DocumentReader) (k : Int) (h1 : 1 ≤ k)
    (h2 : k ≤ (reader.token_list.count : Int)) :
    ∃ ht, (generate_kgrams reader k).1.kgram_hash = some ht ∧
      (total_occurrences ht : Int) = (reader.token_list.count : Int) - k + 1 ∧
      ((generate_kgrams reader k).1.kgram_list.count : Int) =
        (reader.token_list.count : Int) - k + 1 := by
  rw [generate_kgrams_valid reader k h1 h2]
  refine ⟨_, rfl, ?_, ?_⟩
  · rw [insert_all, ← insert_all,
      total_insert_all _ (wellFormed_create HASH_TABLE_SIZE (by decide)), length_windows]
    simp only [TokenList.count] at h2 ⊢
    simp only [total_occurrences, hash_table_nodes, create_hash_table, List.flatten_replicate_nil,
      List.map_nil, List.sum_nil]
    omega
  · simp only [TokenList.count] at h2 ⊢
    omega

theorem generate_kgrams_total_occurrences_witness :
    (1 : Int) ≤ 2 ∧ (2 : Int) ≤ (sample_reader.token_list.count : Int) ∧
    ∃ ht, (generate_kgrams sample_reader 2).1.kgram_hash = some ht ∧
      (total_occurrences ht : Int) = (sample_reader.token_list.count : Int) - 2 + 1 ∧
      ((generate_kgrams sample_reader 2).1.kgram_list.count : Int) =
        (sample_reader.token_list.count : Int) - 2 + 1 :=
  ⟨by decide, by decide,
    generate_kgrams_total_occurrences sample_reader 2 (by decide) (by decide)⟩

/-- C3: after inserting any sequence of strings into a freshly created table, the
`count` field is the number of distinct strings of the sequence. -/
theorem insert_all_count_distinct (size : Nat) (hsize : 0 < size) (xs : List String) :
    (insert_all (create_hash_table size) xs).count = xs.toFinset.card :=
  holds_count _ xs (holds_build size hsize xs)

theorem insert_all_count_distinct_witness :
    0 < 7 ∧
    (insert_all (create_hash_table 7) ["a b", "b a", "a b"]).count =
      (["a b", "b a", "a b"] : List String).toFinset.card :=
  ⟨by decide, insert_all_count_distinct 7 (by decide) ["a b", "b a", "a b"]⟩

/-- C4: `generate_kgrams` ends on its `Invalid k value` path exactly when `k ≤ 0` or
`k` exceeds the token count (so for every `k ≥ 1` when there are no tokens), and on
that path the reader, with its k-gram list, `k_value` and hash table, is unchanged. -/
theorem generate_kgrams_invalid_k (reader : DocumentReader) (k : Int) :
    ((generate_kgrams reader k).2 = KGramOutcome.invalid_k ↔
      (k ≤ 0 ∨ k > (reader.token_list.count : Int))) ∧
    ((generate_kgrams reader k).2 = KGramOutcome.invalid_k →
      (generate_kgrams reader k).1 = reader) ∧
    (reader.token_list.count = 0 → 1 ≤ k →
      (generate_kgrams reader k).2 = KGramOutcome.invalid_k) := by
  have key : (generate_kgrams reader k).2 = KGramOutcome.invalid_k ↔
      (k ≤ 0 ∨ k > (reader.token_list.count : Int)) := by
    by_cases hg : k ≤ 0 ∨ k > (reader.token_list.count : Int)
    · simp [generate_kgrams, hg]
    · have h1 : 1 ≤ k := by omega
      have h2 : k ≤ (reader.token_list.count : Int) := by omega
      rw [generate_kgrams_valid reader k h1 h2]
      simp [hg]
  refine ⟨key, ?_, ?_⟩
  · intro h
    have hg := key.mp h
    simp [generate_kgrams, hg]
  · intro h0 hk
    apply key.mpr
    right
    rw [h0]
    simpa using hk

theorem generate_kgrams_invalid_k_witness :
    ((generate_kgrams sample_reader 10).2 = KGramOutcome.invalid_k ↔
      ((10 : Int) ≤ 0 ∨ (10 : Int) > (sample_reader.token_list.count : Int))) ∧
    ((generate_kgrams sample_reader 10).2 = KGramOutcome.invalid_k →
      (generate_kgrams sample_reader 10).1 = sample_reader) ∧
    (sample_reader.token_list.count = 0 → (1 : Int) ≤ 10 →
      (generate_kgrams sample_reader 10).2 = KGramOutcome.invalid_k) :=
  generate_kgrams_invalid_k sample_reader 10

/-! ## Similarity engine -/

/-- C5: for two tables built by insertions into fresh tables, the intersection count
is the number of distinct strings inserted into both, and those strings are exactly
the ones `hash_table_contains` finds in both tables; occurrence counts play no role. -/
theorem intersection_count_distinct_common (size1 size2 : Nat) (h1 : 0 < size1)
    (h2 : 0 < size2) (xs ys : List String) :
    hash_table_intersection_count
        (some (insert_all (create_hash_table size1) xs))
        (some (insert_all (create_hash_table size2) ys)) =
      (xs.toFinset ∩ ys.toFinset).card ∧
    ∀ s : String, s ∈ xs.toFinset ∩ ys.toFinset ↔
      (hash_table_contains (insert_all (create_hash_table size1) xs) s = true ∧
       hash_table_contains (insert_all (create_hash_table size2) ys) s = true) := by
  have HA := holds_build size1 h1 xs
  have HB := holds_build size2 h2 ys
  have kA : (hash_table_keys (insert_all (create_hash_table size1) xs)).toFinset =
      xs.toFinset := by
    ext s; simp [holds_mem_keys_iff _ xs HA s]
  have kB : (hash_table_keys (insert_all (create_hash_table size2) ys)).toFinset =
      ys.toFinset := by
    ext s; simp [holds_mem_keys_iff _ ys HB s]
  refine ⟨by rw [intersection_count_eq_card _ _ HA.wf HB.wf, kA, kB], fun s => ?_⟩
  rw [contains_iff_mem_keys _ HA.wf, contains_iff_mem_keys _ HB.wf,
    holds_mem_keys_iff _ xs HA, holds_mem_keys_iff _ ys HB]
  simp

theorem intersection_count_distinct_common_witness :
    0 < 7 ∧ 0 < 1 ∧
    hash_table_intersection_count
        (some (insert_all (create_hash_table 7) ["a b c", "b c d", "a b c"]))
        (some (insert_all (create_hash_table 1) ["x y z", "a b c"])) =
      ((["a b c", "b c d", "a b c"] : List String).toFinset ∩
        (["x y z", "a b c"] : List String).toFinset).card ∧
    ∀ s : String,
      s ∈ (["a b c", "b c d", "a b c"] : List String).toFinset ∩
          (["x y z", "a b c"] : List String).toFinset ↔
      (hash_table_contains (insert_all (create_hash_table 7) ["a b c", "b c d", "a b c"]) s
          = true ∧
       hash_table_contains (insert_all (create_hash_table 1) ["x y z", "a b c"]) s = true) :=
  ⟨by decide, by decide,
    intersection_count_distinct_common 7 1 (by decide) (by decide)
      ["a b c", "b c d", "a b c"] ["x y z", "a b c"]⟩

/-- C6: the intersection count of two built shingle sets does not depend on the order
of the arguments. -/
theorem intersection_count_symmetric (A B : Option HashTable) (hA : Built A)
    (hB : Built B) :
    hash_table_intersection_count A B = hash_table_intersection_count B A := by
  cases A with
  | none => cases B <;> simp [hash_table_intersection_count]
  | some a =>
    cases B with
    | none => simp [hash_table_intersection_count]
    | some b =>
      have wa := built_wellFormed _ hA a rfl
      have wb := built_wellFormed _ hB b rfl
      rw [intersection_count_eq_card a b wa wb, intersection_count_eq_card b a wb wa,
        Finset.inter_comm]

theorem intersection_count_symmetric_witness :
    Built (some (insert_all (create_hash_table 7) ["a b c", "b c d"])) ∧
    Built (some (insert_all (create_hash_table 3) ["a b c", "x y z"])) ∧
    hash_table_intersection_count
        (some (insert_all (create_hash_table 7) ["a b c", "b c d"]))
        (some (insert_all (create_hash_table 3) ["a b c", "x y z"])) =
      hash_table_intersection_count
        (some (insert_all (create_hash_table 3) ["a b c", "x y z"]))
        (some (insert_all (create_hash_table 7) ["a b c", "b c d"])) :=
  ⟨built_insert_all 7 (by decide) _, built_insert_all 3 (by decide) _,
    intersection_count_symmetric _ _ (built_insert_all 7 (by decide) _)
      (built_insert_all 3 (by decide) _)⟩

/-- C7: for the shingle set `S` built by `generate_kgrams` with a valid `k`, the
intersection and union counts of `S` with itself both equal `S.count`, and the exact
Jaccard and cosine values of `S` with itself are 1. -/
theorem self_similarity (reader : DocumentReader) (k : Int) (h1 : 1 ≤ k)
    (h2 : k ≤ (reader.token_list.count : Int)) :
    ∃ S, (generate_kgrams reader k).1.kgram_hash = some S ∧
      hash_table_intersection_count (some S) (some S) = S.count ∧
      hash_table_union_count (some S) (some S) = (S.count : Int) ∧
      calculate_jaccard_similarity (some S) (some S) = 1 ∧
      calculate_cosine_similarity (some S) (some S) = 1 := by
  rw [generate_kgrams_valid reader k h1 h2]
  refine ⟨_, rfl, ?_⟩
  have H := holds_build HASH_TABLE_SIZE (by decide) (windows reader.token_list.tokens k.toNat)
  generalize insert_all (create_hash_table HASH_TABLE_SIZE)
    (windows reader.token_list.tokens k.toNat) = S at H
  have hself := intersection_self S H.wf
  have hpos : 0 < S.count := by
    rw [holds_count S _ H, Finset.card_pos]
    refine ⟨window reader.token_list.tokens 0 k.toNat, ?_⟩
    simp only [windows, List.mem_toFinset, List.mem_map, List.mem_range]
    exact ⟨0, by omega, rfl⟩
  have hne : S.count ≠ 0 := by omega
  have hq : (S.count : ℚ) ≠ 0 := by exact_mod_cast hne
  have hr : (0 : ℝ) ≤ (S.count : ℝ) := Nat.cast_nonneg _
  have hr0 : (S.count : ℝ) ≠ 0 := by exact_mod_cast hne
  refine ⟨hself, ?_, ?_, ?_⟩
  · simp only [hash_table_union_count, hself]; omega
  · have hu : hash_table_union_count (some S) (some S) = (S.count : Int) := by
      simp only [hash_table_union_count, hself]; omega
    have hu0 : ¬ ((S.count : Int) = 0) := by omega
    simp only [calculate_jaccard_similarity, jaccard_division, hself, hu, hne, or_self,
      if_false, hu0]
    simp [hq]
  · simp only [calculate_cosine_similarity, cosine_division, hself, hne, or_self, if_false]
    rw [Real.mul_self_sqrt hr]
    exact div_self hr0

theorem self_similarity_witness :
    (1 : Int) ≤ 2 ∧ (2 : Int) ≤ (sample_reader.token_list.count : Int) ∧
    ∃ S, (generate_kgrams sample_reader 2).1.kgram_hash = some S ∧
      hash_table_intersection_count (some S) (some S) = S.count ∧
      hash_table_union_count (some S) (some S) = (S.count : Int) ∧
      calculate_jaccard_similarity (some S) (some S) = 1 ∧
      calculate_cosine_similarity (some S) (some S) = 1 :=
  ⟨by decide, by decide, self_similarity sample_reader 2 (by decide) (by decide)⟩

theorem jaccard_division_built (A B : Option HashTable) (hA : Built A) (hB : Built B)
    (i : Nat) (u : Int) (h : jaccard_division A B = some (i, u)) : (i : Int) ≤ u ∧ 0 < u := by
  cases A with
  | none => simp [jaccard_division] at h
  | some a =>
    cases B with
    | none => simp [jaccard_division] at h
    | some b =>
      exact jaccard_division_bounds a b (built_wellFormed _ hA a rfl)
        (built_wellFormed _ hB b rfl) i u h

theorem jaccard_float_le_one (A B : Option HashTable) (hA : Built A) (hB : Built B) :
    (calculate_jaccard_similarity_float A B).toRat ≤ 1 := by
  unfold calculate_jaccard_similarity_float
  cases hd : jaccard_division A B with
  | none => simp [float_zero, BinFloat.toRat]
  | some p =>
    obtain ⟨i, u⟩ := p
    have hb := jaccard_division_built A B hA hB i u hd
    exact jaccard_quotient_le_one i u.toNat (by omega) (by omega)

theorem cosine_binary32_eq_float (A B : Option HashTable) :
    calculate_cosine_similarity_binary32 A B =
      (calculate_cosine_similarity_float A B).toRat := by
  unfold calculate_cosine_similarity_binary32 calculate_cosine_similarity_float
  cases cosine_division A B with
  | none => simp [float_zero, BinFloat.toRat]
  | some p => rfl

theorem jaccard_float_bounds (A B : Option HashTable) (hA : Built A) (hB : Built B) :
    ((calculate_jaccard_similarity A B : ℚ) : ℝ) * (1 - 6 / 2 ^ 24) ≤
      (((calculate_jaccard_similarity_float A B).toRat : ℚ) : ℝ) ∧
    (((calculate_jaccard_similarity_float A B).toRat : ℚ) : ℝ) ≤
      ((calculate_jaccard_similarity A B : ℚ) : ℝ) * (1 + 6 / 2 ^ 24) := by
  unfold calculate_jaccard_similarity calculate_jaccard_similarity_float
  cases hd : jaccard_division A B with
  | none => simp [float_zero, BinFloat.toRat]
  | some p =>
    obtain ⟨i, u⟩ := p
    obtain ⟨_, hu⟩ := jaccard_division_built A B hA hB i u hd
    obtain ⟨n, rfl⟩ := Int.eq_ofNat_of_zero_le hu.le
    simp only [Int.toNat_ofNat, Int.cast_natCast]
    have hun : 0 < n := by omega
    have hq := jaccard_quotient_bounds i n hun
    have hx : (0 : ℚ) ≤ (i : ℚ) / (n : ℚ) :=
      div_nonneg (Nat.cast_nonneg _) (Nat.cast_nonneg _)
    have hw := bounds_weaken hx (by norm_num : (1 - 6 / 2 ^ 24 : ℚ) ≤
        (1 - 1 / 2 ^ 24) / (1 + 1 / 2 ^ 24) * (1 - 1 / 2 ^ 24))
      (by norm_num : (1 + 1 / 2 ^ 24) / (1 - 1 / 2 ^ 24) * (1 + 1 / 2 ^ 24) ≤
        (1 + 6 / 2 ^ 24 : ℚ)) hq
    have h1 : (((i : ℚ) / (n : ℚ) * (1 - 6 / 2 ^ 24) : ℚ) : ℝ) ≤
        (((jaccard_quotient_binary32 i n).toRat : ℚ) : ℝ) := Rat.cast_le.mpr hw.1
    have h2 : (((jaccard_quotient_binary32 i n).toRat : ℚ) : ℝ) ≤
        (((i : ℚ) / (n : ℚ) * (1 + 6 / 2 ^ 24) : ℚ) : ℝ) := Rat.cast_le.mpr hw.2
    push_cast at h1 h2 ⊢
    exact ⟨h1, h2⟩

theorem cosine_division_pos (A B : Option HashTable) (i c1 c2 : Nat)
    (h : cosine_division A B = some (i, c1, c2)) : 0 < c1 ∧ 0 < c2 := by
  cases A with
  | none => simp [cosine_division] at h
  | some a =>
    cases B with
    | none => simp [cosine_division] at h
    | some b =>
      simp only [cosine_division] at h
      split_ifs at h with h0
      simp only [Option.some.injEq, Prod.mk.injEq] at h
      obtain ⟨_, rfl, rfl⟩ := h
      omega

theorem cosine_float_bounds (A B : Option HashTable) :
    calculate_cosine_similarity A B * (1 - 6 / 2 ^ 24) ≤
      (((calculate_cosine_similarity_float A B).toRat : ℚ) : ℝ) ∧
    (((calculate_cosine_similarity_float A B).toRat : ℚ) : ℝ) ≤
      calculate_cosine_similarity A B * (1 + 6 / 2 ^ 24) := by
  unfold calculate_cosine_similarity calculate_cosine_similarity_float
  cases hd : cosine_division A B with
  | none => simp [float_zero, BinFloat.toRat]
  | some p =>
    obtain ⟨i, c1, c2⟩ := p
    obtain ⟨h1, h2⟩ := cosine_division_pos A B i c1 c2 hd
    exact cosine_quotient_float_bounds i c1 c2 h1 h2

theorem combined_binary32_bounds (j c : BinFloat) (J C : ℝ) (hJ : 0 ≤ J) (hC : 0 ≤ C)
    (bj : J * (1 - 6 / 2 ^ 24) ≤ ((j.toRat : ℚ) : ℝ) ∧
      ((j.toRat : ℚ) : ℝ) ≤ J * (1 + 6 / 2 ^ 24))
    (bc : C * (1 - 6 / 2 ^ 24) ≤ ((c.toRat : ℚ) : ℝ) ∧
      ((c.toRat : ℚ) : ℝ) ≤ C * (1 + 6 / 2 ^ 24)) :
    combined_similarity J C * (1 - 8 / 2 ^ 24) ≤
      (((combined_similarity_binary32 j c).toRat : ℚ) : ℝ) ∧
    (((combined_similarity_binary32 j c).toRat : ℚ) : ℝ) ≤
      combined_similarity J C * (1 + 8 / 2 ^ 24) := by
  unfold combined_similarity_binary32 combined_similarity
  have k6 : ((6 : ℝ) / 10) * (1 - 1 / 2 ^ 53) ≤ (((double_const 6 10).toRat : ℚ) : ℝ) ∧
      (((double_const 6 10).toRat : ℚ) : ℝ) ≤ ((6 : ℝ) / 10) * (1 + 1 / 2 ^ 53) := by
    have := cast_round_bounds 53 (double_const_bounds 6 10 (by decide))
    push_cast at this
    exact this
  have k4 : ((4 : ℝ) / 10) * (1 - 1 / 2 ^ 53) ≤ (((double_const 4 10).toRat : ℚ) : ℝ) ∧
      (((double_const 4 10).toRat : ℚ) : ℝ) ≤ ((4 : ℝ) / 10) * (1 + 1 / 2 ^ 53) := by
    have := cast_round_bounds 53 (double_const_bounds 4 10 (by decide))
    push_cast at this
    exact this
  have p1 := bounds_mul hJ (by norm_num : (0 : ℝ) ≤ 6 / 10) (by norm_num) (by norm_num) bj k6
  have p2 := bounds_mul hC (by norm_num : (0 : ℝ) ≤ 4 / 10) (by norm_num) (by norm_num) bc k4
  have r1 := cast_round_bounds 53 (double_mul_bounds j (double_const 6 10))
  have r2 := cast_round_bounds 53 (double_mul_bounds c (double_const 4 10))
  rw [Rat.cast_mul] at r1 r2
  have x1 : (0 : ℝ) ≤ J * (6 / 10) := mul_nonneg hJ (by norm_num)
  have x2 : (0 : ℝ) ≤ C * (4 / 10) := mul_nonneg hC (by norm_num)
  have t1 := bounds_round x1 (by norm_num) (by norm_num) (by norm_num) p1 r1
  have t2 := bounds_round x2 (by norm_num) (by norm_num) (by norm_num) p2 r2
  have s := bounds_add t1 t2
  have r3 := cast_round_bounds 53 (double_add_bounds (double_mul j (double_const 6 10))
    (double_mul c (double_const 4 10)))
  rw [Rat.cast_add] at r3
  have t3 := bounds_round (add_nonneg x1 x2) (by norm_num) (by norm_num) (by norm_num) s r3
  have r4 := cast_round_bounds 24 (float_of_double_bounds
    (double_add (double_mul j (double_const 6 10)) (double_mul c (double_const 4 10))))
  have t4 := bounds_round (add_nonneg x1 x2) (by norm_num) (by norm_num) (by norm_num) t3 r4
  exact bounds_weaken (add_nonneg x1 x2) (by norm_num) (by norm_num) t4

theorem small_sets_division :
    jaccard_division
        (some (insert_all (create_hash_table 7) ["a b c", "b c d"]))
        (some (insert_all (create_hash_table 3) ["a b c", "x y z"])) = some (1, 3) := by
  have HA := holds_build 7 (by decide) ["a b c", "b c d"]
  have HB := holds_build 3 (by decide) ["a b c", "x y z"]
  have cA := holds_count _ _ HA
  have cB := holds_count _ _ HB
  have kA : (hash_table_keys (insert_all (create_hash_table 7) ["a b c", "b c d"])).toFinset =
      (["a b c", "b c d"] : List String).toFinset := by
    ext s; simp [holds_mem_keys_iff _ _ HA s]
  have kB : (hash_table_keys (insert_all (create_hash_table 3) ["a b c", "x y z"])).toFinset =
      (["a b c", "x y z"] : List String).toFinset := by
    ext s; simp [holds_mem_keys_iff _ _ HB s]
  have hi := intersection_count_eq_card _ _ HA.wf HB.wf
  rw [kA, kB] at hi
  have h1 : (["a b c", "b c d"] : List String).toFinset.card = 2 := by decide
  have h2 : (["a b c", "x y z"] : List String).toFinset.card = 2 := by decide
  have h3 : ((["a b c", "b c d"] : List String).toFinset ∩
      (["a b c", "x y z"] : List String).toFinset).card = 1 := by decide
  rw [h1] at cA
  rw [h2] at cB
  rw [h3] at hi
  simp only [jaccard_division, hash_table_union_count, hi, cA, cB]
  decide

/-- C8: for built (possibly empty or absent) shingle sets the Jaccard value lies in
`[0, 1]`, both the exact quotient and the `float` the C function returns: the
intersection count never exceeds the union count, and whenever the final division is
performed the union count is positive. -/
theorem jaccard_in_unit_interval (A B : Option HashTable) (hA : Built A) (hB : Built B) :
    0 ≤ calculate_jaccard_similarity A B ∧
    calculate_jaccard_similarity A B ≤ 1 ∧
    0 ≤ (calculate_jaccard_similarity_float A B).toRat ∧
    (calculate_jaccard_similarity_float A B).toRat ≤ 1 ∧
    (hash_table_intersection_count A B : Int) ≤ hash_table_union_count A B ∧
    ∀ i u, jaccard_division A B = some (i, u) → 0 < u := by
  have hb := jaccard_division_built A B hA hB
  refine ⟨?_, ?_, toRat_nonneg _, jaccard_float_le_one A B hA hB, ?_,
    fun i u h => (hb i u h).2⟩
  · unfold calculate_jaccard_similarity
    cases hd : jaccard_division A B with
    | none => simp
    | some p =>
      obtain ⟨i, u⟩ := p
      have hu : (0 : ℚ) ≤ (u : ℚ) := by exact_mod_cast (hb i u hd).2.le
      exact div_nonneg (Nat.cast_nonneg i) hu
  · unfold calculate_jaccard_similarity
    cases hd : jaccard_division A B with
    | none => simp
    | some p =>
      obtain ⟨i, u⟩ := p
      have hu : (0 : ℚ) ≤ (u : ℚ) := by exact_mod_cast (hb i u hd).2.le
      have hiu : ((i : Int) : ℚ) ≤ (u : ℚ) := by exact_mod_cast (hb i u hd).1
      apply div_le_one_of_le₀ _ hu
      simpa using hiu
  · cases A with
    | none => cases B <;> simp [hash_table_intersection_count, hash_table_union_count]
    | some a =>
      cases B with
      | none => simp [hash_table_intersection_count, hash_table_union_count]
      | some b =>
        have hle := intersection_le_count a b (built_wellFormed _ hA a rfl)
          (built_wellFormed _ hB b rfl)
        simp only [hash_table_union_count]
        omega

theorem jaccard_in_unit_interval_witness :
    Built (some (insert_all (create_hash_table 7) ["a b c", "b c d"])) ∧
    Built (some (insert_all (create_hash_table 3) ["a b c", "x y z"])) ∧
    jaccard_division
        (some (insert_all (create_hash_table 7) ["a b c", "b c d"]))
        (some (insert_all (create_hash_table 3) ["a b c", "x y z"])) = some (1, 3) ∧
    0 ≤ calculate_jaccard_similarity
        (some (insert_all (create_hash_table 7) ["a b c", "b c d"]))
        (some (insert_all (create_hash_table 3) ["a b c", "x y z"])) ∧
    calculate_jaccard_similarity
        (some (insert_all (create_hash_table 7) ["a b c", "b c d"]))
        (some (insert_all (create_hash_table 3) ["a b c", "x y z"])) ≤ 1 ∧
    0 ≤ (calculate_jaccard_similarity_float
        (some (insert_all (create_hash_table 7) ["a b c", "b c d"]))
        (some (insert_all (create_hash_table 3) ["a b c", "x y z"]))).toRat ∧
    (calculate_jaccard_similarity_float
        (some (insert_all (create_hash_table 7) ["a b c", "b c d"]))
        (some (insert_all (create_hash_table 3) ["a b c", "x y z"]))).toRat ≤ 1 ∧
    (hash_table_intersection_count
        (some (insert_all (create_hash_table 7) ["a b c", "b c d"]))
        (some (insert_all (create_hash_table 3) ["a b c", "x y z"])) : Int) ≤
      hash_table_union_count
        (some (insert_all (create_hash_table 7) ["a b c", "b c d"]))
        (some (insert_all (create_hash_table 3) ["a b c", "x y z"])) ∧
    ∀ i u, jaccard_division
        (some (insert_all (create_hash_table 7) ["a b c", "b c d"]))
        (some (insert_all (create_hash_table 3) ["a b c", "x y z"])) = some (i, u) →
      0 < u :=
  ⟨built_insert_all 7 (by decide) _, built_insert_all 3 (by decide) _, small_sets_division,
    jaccard_in_unit_interval _ _ (built_insert_all 7 (by decide) _)
      (built_insert_all 3 (by decide) _)⟩

/-- C9, as the claim states it, fails for the float the C function returns: for two
identical shingle sets with 2 distinct keys the binary32 value of
`intersection / (magnitude1 * magnitude2)` is `1 + 2^-23`, above 1. -/
theorem cosine_binary32_exceeds_one :
    Built (some (insert_all (create_hash_table HASH_TABLE_SIZE) ["a", "b"])) ∧
    calculate_cosine_similarity_binary32
        (some (insert_all (create_hash_table HASH_TABLE_SIZE) ["a", "b"]))
        (some (insert_all (create_hash_table HASH_TABLE_SIZE) ["a", "b"])) =
      1 + 1 / 2 ^ 23 ∧
    ¬ (calculate_cosine_similarity_binary32
        (some (insert_all (create_hash_table HASH_TABLE_SIZE) ["a", "b"]))
        (some (insert_all (create_hash_table HASH_TABLE_SIZE) ["a", "b"])) ≤ 1) := by
  have hv : calculate_cosine_similarity_binary32
      (some (insert_all (create_hash_table HASH_TABLE_SIZE) ["a", "b"]))
      (some (insert_all (create_hash_table HASH_TABLE_SIZE) ["a", "b"])) = 1 + 1 / 2 ^ 23 := by
    simp only [calculate_cosine_similarity_binary32, two_key_set_division,
      cosine_quotient_binary32_two, BinFloat.toRat]
    norm_num
  refine ⟨built_insert_all _ (by decide) _, hv, ?_⟩
  rw [hv]
  norm_num

theorem cosine_exact_bounds (A B : Option HashTable) (hA : Built A) (hB : Built B) :
    0 ≤ calculate_cosine_similarity A B ∧ calculate_cosine_similarity A B ≤ 1 := by
  cases A with
  | none => simp [calculate_cosine_similarity, cosine_division]
  | some a =>
    cases B with
    | none => simp [calculate_cosine_similarity, cosine_division]
    | some b =>
      have hb := cosine_division_bounds a b (built_wellFormed _ hA a rfl)
        (built_wellFormed _ hB b rfl)
      unfold calculate_cosine_similarity
      cases hd : cosine_division (some a) (some b) with
      | none => simp
      | some p =>
        obtain ⟨i, c1, c2⟩ := p
        have h := hb i c1 c2 hd
        exact cosine_quotient_bounds i c1 c2 h.1 h.2.1

theorem cosine_float_le (A B : Option HashTable) (hA : Built A) (hB : Built B) :
    calculate_cosine_similarity_binary32 A B ≤ 1 + 1 / 2 ^ 21 := by
  have hC := (cosine_exact_bounds A B hA hB).2
  have hf := (cosine_float_bounds A B).2
  rw [cosine_binary32_eq_float]
  have h1 : (((calculate_cosine_similarity_float A B).toRat : ℚ) : ℝ) ≤
      (((1 + 1 / 2 ^ 21 : ℚ)) : ℝ) := by
    push_cast
    have : calculate_cosine_similarity A B * (1 + 6 / 2 ^ 24) ≤ 1 * (1 + 6 / 2 ^ 24) :=
      mul_le_mul_of_nonneg_right hC (by norm_num)
    have e : (1 : ℝ) * (1 + 6 / 2 ^ 24) ≤ 1 + 1 / 2 ^ 21 := by norm_num
    linarith
  exact Rat.cast_le.mp h1

/-- C9, amended: for built (possibly empty or absent) shingle sets the exact value
`intersection / (sqrt |A| * sqrt |B|)` computed by `calculate_cosine_similarity` lies
in `[0, 1]`, and the float the C function returns is not negative and at most
`1 + 2^-21`. -/
theorem cosine_exact_in_unit_interval (A B : Option HashTable) (hA : Built A)
    (hB : Built B) :
    0 ≤ calculate_cosine_similarity A B ∧
    calculate_cosine_similarity A B ≤ 1 ∧
    0 ≤ calculate_cosine_similarity_binary32 A B ∧
    calculate_cosine_similarity_binary32 A B ≤ 1 + 1 / 2 ^ 21 := by
  have hfloat : 0 ≤ calculate_cosine_similarity_binary32 A B := by
    unfold calculate_cosine_similarity_binary32
    cases cosine_division A B with
    | none => simp
    | some p => exact toRat_nonneg _
  obtain ⟨h0, h1⟩ := cosine_exact_bounds A B hA hB
  exact ⟨h0, h1, hfloat, cosine_float_le A B hA hB⟩

theorem cosine_exact_in_unit_interval_witness :
    Built (some (insert_all (create_hash_table 7) ["a b c", "b c d"])) ∧
    Built (some (insert_all (create_hash_table 3) ["a b c", "x y z"])) ∧
    0 ≤ calculate_cosine_similarity
        (some (insert_all (create_hash_table 7) ["a b c", "b c d"]))
        (some (insert_all (create_hash_table 3) ["a b c", "x y z"])) ∧
    calculate_cosine_similarity
        (some (insert_all (create_hash_table 7) ["a b c", "b c d"]))
        (some (insert_all (create_hash_table 3) ["a b c", "x y z"])) ≤ 1 ∧
    0 ≤ calculate_cosine_similarity_binary32
        (some (insert_all (create_hash_table 7) ["a b c", "b c d"]))
        (some (insert_all (create_hash_table 3) ["a b c", "x y z"])) ∧
    calculate_cosine_similarity_binary32
        (some (insert_all (create_hash_table 7) ["a b c", "b c d"]))
        (some (insert_all (create_hash_table 3) ["a b c", "x y z"])) ≤ 1 + 1 / 2 ^ 21 :=
  ⟨built_insert_all 7 (by decide) _, built_insert_all 3 (by decide) _,
    cosine_exact_in_unit_interval _ _ (built_insert_all 7 (by decide) _)
      (built_insert_all 3 (by decide) _)⟩

/-- C10: when either shingle set is empty (`NULL` or distinct-key count 0), both
similarity functions return 0 (exactly, also as a float) through their first guard,
without reaching the division, whatever the other argument is. -/
theorem similarity_of_empty_set (A B : Option HashTable)
    (h : set_empty A = true ∨ set_empty B = true) :
    calculate_jaccard_similarity A B = 0 ∧
    calculate_cosine_similarity A B = 0 ∧
    calculate_cosine_similarity_binary32 A B = 0 ∧
    jaccard_division A B = none ∧
    cosine_division A B = none := by
  have hj : jaccard_division A B = none := by
    cases A with
    | none => simp [jaccard_division]
    | some a =>
      cases B with
      | none => simp [jaccard_division]
      | some b =>
        have : a.count = 0 ∨ b.count = 0 := by simpa [set_empty] using h
        simp [jaccard_division, this]
  have hc : cosine_division A B = none := by
    cases A with
    | none => simp [cosine_division]
    | some a =>
      cases B with
      | none => simp [cosine_division]
      | some b =>
        have : a.count = 0 ∨ b.count = 0 := by simpa [set_empty] using h
        simp [cosine_division, this]
  refine ⟨?_, ?_, ?_, hj, hc⟩
  · simp [calculate_jaccard_similarity, hj]
  · simp [calculate_cosine_similarity, hc]
  · simp [calculate_cosine_similarity_binary32, hc]

theorem similarity_of_empty_set_witness :
    (set_empty (some (create_hash_table 7)) = true ∨
      set_empty (some (insert_all (create_hash_table 7) ["a b c"])) = true) ∧
    calculate_jaccard_similarity (some (create_hash_table 7))
        (some (insert_all (create_hash_table 7) ["a b c"])) = 0 ∧
    calculate_cosine_similarity (some (create_hash_table 7))
        (some (insert_all (create_hash_table 7) ["a b c"])) = 0 ∧
    calculate_cosine_similarity_binary32 (some (create_hash_table 7))
        (some (insert_all (create_hash_table 7) ["a b c"])) = 0 ∧
    jaccard_division (some (create_hash_table 7))
        (some (insert_all (create_hash_table 7) ["a b c"])) = none ∧
    cosine_division (some (create_hash_table 7))
        (some (insert_all (create_hash_table 7) ["a b c"])) = none :=
  ⟨Or.inl (by decide), similarity_of_empty_set _ _ (Or.inl (by decide))⟩

/-! ## Normalizer -/

theorem compaction_fold {α : Type} (d : α) (f : α → α) (keep : α → Bool)
    (step : List α × Nat → Nat → List α × Nat)
    (hstep : ∀ st i, step st i =
      if keep (f (st.1.getD i d)) = true then (st.1.set st.2 (f (st.1.getD i d)), st.2 + 1)
      else st)
    (l : List α) (n : Nat) (hn : n ≤ l.length) :
    ((List.range n).foldl step (l, 0)).2 ≤ n ∧
    ((List.range n).foldl step (l, 0)).1.take ((List.range n).foldl step (l, 0)).2 =
      ((l.take n).map f).filter keep ∧
    ((List.range n).foldl step (l, 0)).1.drop n = l.drop n := by
  induction n with
  | zero => simp
  | succ n ih =>
    obtain ⟨h1, h2, h3⟩ := ih (by omega)
    rw [List.range_succ, List.foldl_append]
    generalize (List.range n).foldl step (l, 0) = st at h1 h2 h3 ⊢
    obtain ⟨arr, w⟩ := st
    simp only at h1 h2 h3
    have hlen : arr.length = l.length := by
      have := congrArg List.length h3
      simp at this
      omega
    have hget : arr.getD n d = l.getD n d := by
      have := congrArg (fun t => t.getD 0 d) h3
      simpa [List.getD_eq_getElem?_getD] using this
    have hl : l.take (n + 1) = l.take n ++ [l.getD n d] := by
      rw [List.take_succ, List.getD_eq_getElem?_getD, List.getElem?_eq_getElem (by omega)]
      simp
    have hd : List.drop (n + 1) arr = List.drop (n + 1) l := by
      have := congrArg (List.drop 1) h3
      simpa [List.drop_drop, Nat.add_comm] using this
    simp only [List.foldl_cons, List.foldl_nil, hstep, hget, hl, List.map_append,
      List.filter_append, List.map_cons, List.map_nil]
    by_cases hk : keep (f (l.getD n d)) = true
    · simp only [hk, if_true, List.filter_cons, List.filter_nil]
      refine ⟨by omega, ?_, ?_⟩
      · rw [← h2]
        have hw : w < arr.length := by omega
        rw [List.set_eq_take_append_cons_drop, if_pos hw, List.take_append_eq_append_take]
        simp [List.take_take, List.length_take, Nat.min_eq_left (Nat.le_of_lt hw)]
      · rw [List.drop_set_of_lt _ _ (by omega)]
        exact hd
    · have hk2 : keep (f (l.getD n d)) = false := by simpa using hk
      simp only [hk2, Bool.false_eq_true, if_false, List.filter_cons, List.filter_nil,
        List.append_nil]
      exact ⟨by omega, h2, hd⟩

theorem remove_punctuation_numbers_eq (str : String) :
    remove_punctuation_numbers str = String.mk (str.data.filter is_letter_or_apostrophe) := by
  unfold remove_punctuation_numbers
  have h := compaction_fold (Char.ofNat 0) id is_letter_or_apostrophe
    (fun (st : List Char × Nat) read_index =>
      let c := st.1.getD read_index (Char.ofNat 0)
      if c_isalpha c = true ∨ c = apostrophe then (st.1.set st.2 c, st.2 + 1) else st)
    (by intro st i; simp [is_letter_or_apostrophe])
    str.data str.data.length (le_refl _)
  simp only [List.take_length, List.map_id] at h
  simp only [h.2.1]

theorem normalize_eq (token : String) :
    remove_punctuation_numbers (to_lowercase token) = normalize_spec token := by
  rw [remove_punctuation_numbers_eq]
  rfl

theorem stopword_loop_iff (stopwords : List String) (word : String) :
    stopword_loop stopwords word = true ↔ word ∈ stopwords := by
  induction stopwords with
  | nil => simp [stopword_loop]
  | cons sw rest ih =>
    by_cases h : sw = word
    · simp [stopword_loop, h]
    · simp only [stopword_loop, h, if_false, ih, List.mem_cons]
      constructor
      · intro h2; exact Or.inr h2
      · rintro (h2 | h2)
        · exact absurd h2.symm h
        · exact h2

theorem string_length_eq_zero (t : String) : t.length = 0 ↔ t = "" := by
  constructor
  · intro h
    apply String.ext
    have : t.data.length = 0 := h
    exact List.length_eq_zero.mp this
  · rintro rfl
    rfl

theorem preprocess_text_tokens (reader : DocumentReader) :
    (preprocess_text reader).token_list.tokens =
      preprocess_spec reader.token_list.tokens reader.stopwords := by
  unfold preprocess_text preprocess_spec
  have h := compaction_fold "" (fun t => remove_punctuation_numbers (to_lowercase t))
    (fun t => decide (t ≠ "") && decide (t ∉ reader.stopwords))
    (fun (st : List String × Nat) i =>
      let token := remove_punctuation_numbers (to_lowercase (st.1.getD i ""))
      if token.length = 0 then st
      else if is_stopword reader token = true then st
      else (st.1.set st.2 token, st.2 + 1))
    (by
      intro st i
      simp only [string_length_eq_zero, is_stopword, stopword_loop_iff]
      split_ifs <;> simp_all)
    reader.token_list.tokens reader.token_list.tokens.length (le_refl _)
  simp only [List.take_length, TokenList.count] at h ⊢
  rw [h.2.1, List.filter_filter]
  have hf : (fun t => remove_punctuation_numbers (to_lowercase t)) = normalize_spec :=
    funext normalize_eq
  rw [hf]
  apply List.filter_congr
  intro t _
  simp [Bool.and_comm]

theorem preprocess_text_eq (reader : DocumentReader) :
    preprocess_text reader =
      { reader with
        token_list :=
          { tokens := preprocess_spec reader.token_list.tokens reader.stopwords } } := by
  have h := preprocess_text_tokens reader
  have e : preprocess_text reader =
      { reader with
        token_list := { tokens := (preprocess_text reader).token_list.tokens } } := rfl
  rw [e, h]

theorem apostrophe_toNat : apostrophe.toNat = 39 := by decide

theorem toNat_ofNat_lowercase (n : Nat) (h1 : 65 ≤ n) (h2 : n ≤ 90) :
    (Char.ofNat (n + 32)).toNat = n + 32 := by
  interval_cases n <;> rfl

theorem lowercase_fixed (c : Char) (h : is_lowercase_or_apostrophe c) :
    c_tolower c = c ∧ is_letter_or_apostrophe c = true := by
  rcases h with h | h
  · have hu : ¬ (65 ≤ c.toNat ∧ c.toNat ≤ 90) := by omega
    refine ⟨by simp [c_tolower, hu], ?_⟩
    simp [is_letter_or_apostrophe, c_isalpha, h]
  · subst h
    have hu : ¬ (65 ≤ apostrophe.toNat ∧ apostrophe.toNat ≤ 90) := by
      rw [apostrophe_toNat]; omega
    refine ⟨by simp [c_tolower, hu], ?_⟩
    simp [is_letter_or_apostrophe]

theorem kept_is_lowercase (c : Char) (h : is_letter_or_apostrophe (c_tolower c) = true) :
    is_lowercase_or_apostrophe (c_tolower c) := by
  by_cases hu : 65 ≤ c.toNat ∧ c.toNat ≤ 90
  · left
    simp only [c_tolower, hu, and_self, if_true]
    rw [toNat_ofNat_lowercase _ hu.1 hu.2]
    omega
  · have e : c_tolower c = c := by simp [c_tolower, hu]
    rw [e] at h ⊢
    simp only [is_letter_or_apostrophe, c_isalpha, Bool.or_eq_true, decide_eq_true_eq] at h
    rcases h with (h | h) | h
    · exact absurd h hu
    · exact Or.inl h
    · exact Or.inr h

theorem normalize_spec_chars (token : String) :
    ∀ c ∈ (normalize_spec token).data, is_lowercase_or_apostrophe c := by
  intro c hc
  simp only [normalize_spec, List.mem_filter, List.mem_map] at hc
  obtain ⟨⟨a, _, rfl⟩, hk⟩ := hc
  exact kept_is_lowercase a hk

theorem normalize_spec_fixed (token : String)
    (h : ∀ c ∈ token.data, is_lowercase_or_apostrophe c) : normalize_spec token = token := by
  apply String.ext
  simp only [normalize_spec]
  have h1 : token.data.map c_tolower = token.data := by
    conv_rhs => rw [← List.map_id token.data]
    apply List.map_congr_left
    intro c hc
    exact (lowercase_fixed c (h c hc)).1
  rw [h1, List.filter_eq_self]
  intro c hc
  exact (lowercase_fixed c (h c hc)).2

theorem mem_preprocess_spec (tokens stopwords : List String) (t : String) :
    t ∈ preprocess_spec tokens stopwords ↔
      (∃ u ∈ tokens, normalize_spec u = t) ∧ t ≠ "" ∧ t ∉ stopwords := by
  simp only [preprocess_spec, List.mem_filter, List.mem_map, decide_eq_true_eq, and_assoc]

theorem preprocess_spec_idempotent (tokens stopwords : List String) :
    preprocess_spec (preprocess_spec tokens stopwords) stopwords =
      preprocess_spec tokens stopwords := by
  generalize hout : preprocess_spec tokens stopwords = out
  have hmem : ∀ t ∈ out, normalize_spec t = t ∧ t ≠ "" ∧ t ∉ stopwords := by
    intro t ht
    rw [← hout, mem_preprocess_spec] at ht
    obtain ⟨⟨u, _, rfl⟩, h2, h3⟩ := ht
    exact ⟨normalize_spec_fixed _ (normalize_spec_chars u), h2, h3⟩
  unfold preprocess_spec
  have h1 : out.map normalize_spec = out := by
    conv_rhs => rw [← List.map_id out]
    apply List.map_congr_left
    intro t ht
    exact (hmem t ht).1
  have h2 : out.filter (fun t => decide (t ≠ "")) = out := by
    rw [List.filter_eq_self]
    intro t ht
    simpa using (hmem t ht).2.1
  rw [h1, h2, List.filter_eq_self]
  intro t ht
  simpa using (hmem t ht).2.2

/-- C11: for every token list and stopword list, `preprocess_text` leaves exactly the
list the specification describes (normalise each token, drop the empty ones and the
stopwords, keep the order), the normalisation of the code (`to_lowercase` then
`remove_punctuation_numbers`) being the specified one, and the token count is the
number of survivors; nothing else of the reader changes. -/
theorem preprocess_text_refines_spec (reader : DocumentReader) :
    (preprocess_text reader).token_list.tokens =
      preprocess_spec reader.token_list.tokens reader.stopwords ∧
    (preprocess_text reader).token_list.count =
      (preprocess_spec reader.token_list.tokens reader.stopwords).length ∧
    (∀ token, remove_punctuation_numbers (to_lowercase token) = normalize_spec token) ∧
    preprocess_text reader =
      { reader with token_list := (preprocess_text reader).token_list } := by
  refine ⟨preprocess_text_tokens reader, ?_, normalize_eq, rfl⟩
  rw [TokenList.count, preprocess_text_tokens]

/-- C12: `preprocess_text` is idempotent: a second run with the same stopwords leaves
the reader, its token list and its token count as the first run left them. -/
theorem preprocess_text_idempotent (reader : DocumentReader) :
    preprocess_text (preprocess_text reader) = preprocess_text reader ∧
    (preprocess_text (preprocess_text reader)).token_list.count =
      (preprocess_text reader).token_list.count := by
  have h : preprocess_text (preprocess_text reader) = preprocess_text reader := by
    rw [preprocess_text_eq (preprocess_text reader), preprocess_text_eq reader]
    simp only [preprocess_spec_idempotent]
  exact ⟨h, by rw [h]⟩

/-- C13: every token that remains after `preprocess_text` is non-empty, consists only
of lowercase ASCII letters and apostrophes, and is not an entry of the stopword list. -/
theorem preprocess_text_token_invariant (reader : DocumentReader) (t : String)
    (ht : t ∈ (preprocess_text reader).token_list.tokens) :
    t ≠ "" ∧ 0 < t.length ∧
    (∀ c ∈ t.data, is_lowercase_or_apostrophe c) ∧
    t ∉ reader.stopwords ∧ is_stopword reader t = false := by
  rw [preprocess_text_tokens, mem_preprocess_spec] at ht
  obtain ⟨⟨u, _, rfl⟩, h2, h3⟩ := ht
  refine ⟨h2, ?_, normalize_spec_chars u, h3, ?_⟩
  · rcases Nat.eq_zero_or_pos (normalize_spec u).length with h | h
    · exact absurd ((string_length_eq_zero _).mp h) h2
    · exact h
  · have := stopword_loop_iff reader.stopwords (normalize_spec u)
    simp only [is_stopword]
    cases hs : stopword_loop reader.stopwords (normalize_spec u) with
    | false => rfl
    | true => exact absurd (this.mp hs) h3

theorem preprocess_text_token_invariant_witness :
    "quick" ∈ (preprocess_text raw_reader).token_list.tokens ∧
    ("quick" ≠ "" ∧ 0 < "quick".length ∧
      (∀ c ∈ "quick".data, is_lowercase_or_apostrophe c) ∧
      "quick" ∉ raw_reader.stopwords ∧ is_stopword raw_reader "quick" = false) :=
  ⟨by decide, preprocess_text_token_invariant raw_reader "quick" (by decide)⟩

/-! ## Tokenizer -/

theorem splitOnP_eq_takeWhile_cons (l : List Char) :
    l.splitOnP is_delimiter =
      l.takeWhile (fun x => !is_delimiter x) ::
        (if l.dropWhile (fun x => !is_delimiter x) = [] then []
         else ((l.dropWhile (fun x => !is_delimiter x)).drop 1).splitOnP is_delimiter) := by
  induction l with
  | nil => simp
  | cons x xs ih =>
    rw [List.splitOnP_cons]
    by_cases hx : is_delimiter x = true
    · simp [hx]
    · have hx2 : is_delimiter x = false := by simpa using hx
      rw [if_neg hx, ih]
      simp [hx2, List.takeWhile_cons, List.dropWhile_cons, List.modifyHead]

theorem fields_nil : fields [] = [] := by
  simp [fields]

theorem fields_cons_delimiter (x : Char) (xs : List Char) (hx : is_delimiter x = true) :
    fields (x :: xs) = fields xs := by
  simp [fields, List.splitOnP_cons, hx]

theorem fields_dropWhile (l : List Char) : fields (l.dropWhile is_delimiter) = fields l := by
  induction l with
  | nil => rfl
  | cons x xs ih =>
    by_cases hx : is_delimiter x = true
    · rw [List.dropWhile_cons, if_pos hx, ih, fields_cons_delimiter x xs hx]
    · rw [List.dropWhile_cons, if_neg hx]

theorem fields_cons_token (x : Char) (xs : List Char) (hx : is_delimiter x = false) :
    fields (x :: xs) =
      (x :: xs).takeWhile (fun c => !is_delimiter c) ::
        fields (((x :: xs).dropWhile (fun c => !is_delimiter c)).drop 1) := by
  unfold fields
  rw [splitOnP_eq_takeWhile_cons (x :: xs)]
  have hne : (x :: xs).takeWhile (fun c => !is_delimiter c) ≠ [] := by
    simp [List.takeWhile_cons, hx]
  by_cases hd : (x :: xs).dropWhile (fun c => !is_delimiter c) = []
  · simp [hd, hne]
  · simp [hd, hne]

theorem strtok_none (saved : List Char) (h : strtok saved = none) : fields saved = [] := by
  unfold strtok at h
  rw [← fields_dropWhile]
  cases hd : saved.dropWhile is_delimiter with
  | nil => exact fields_nil
  | cons c rest => rw [hd] at h; simp at h

theorem head_dropWhile_not_delimiter (saved : List Char) (c : Char) (rest : List Char)
    (h : saved.dropWhile is_delimiter = c :: rest) : is_delimiter c = false := by
  induction saved with
  | nil => simp at h
  | cons x xs ih =>
    by_cases hx : is_delimiter x = true
    · rw [List.dropWhile_cons, if_pos hx] at h
      exact ih h
    · rw [List.dropWhile_cons, if_neg hx] at h
      have : x = c := (List.cons.inj h).1
      subst this
      simpa using hx

theorem strtok_some (saved token next : List Char) (h : strtok saved = some (token, next)) :
    fields saved = token :: fields next ∧ next.length < saved.length ∧ token ≠ [] ∧
      ∀ c ∈ token, is_delimiter c = false := by
  unfold strtok at h
  cases hd : saved.dropWhile is_delimiter with
  | nil => rw [hd] at h; simp at h
  | cons c rest =>
    rw [hd] at h
    simp only [Option.some.injEq, Prod.mk.injEq] at h
    obtain ⟨h1, h2⟩ := h
    have hc := head_dropWhile_not_delimiter saved c rest hd
    have hlen : (c :: rest).length ≤ saved.length := by
      rw [← hd]
      exact (List.dropWhile_sublist _).length_le
    refine ⟨?_, ?_, ?_, ?_⟩
    · rw [← fields_dropWhile saved, hd, fields_cons_token c rest hc, h1, h2]
    · rw [← h2]
      have : ((c :: rest).dropWhile (fun x => !is_delimiter x)).length ≤ (c :: rest).length :=
        (List.dropWhile_sublist _).length_le
      have hne : (c :: rest).dropWhile (fun x => !is_delimiter x) ≠ c :: rest := by
        simp [List.dropWhile_cons, hc]
        intro e
        have := congrArg List.length e
        have h3 : (rest.dropWhile (fun x => !is_delimiter x)).length ≤ rest.length :=
          (List.dropWhile_sublist _).length_le
        simp at this
        omega
      simp only [List.length_drop, List.length_cons] at hlen this ⊢
      have h4 : ((c :: rest).dropWhile (fun x => !is_delimiter x)).length ≤ rest.length := by
        simp only [List.dropWhile_cons, hc, Bool.not_false, if_true]
        exact (List.dropWhile_sublist _).length_le
      omega
    · rw [← h1]
      simp [List.takeWhile_cons, hc]
    · intro a ha
      rw [← h1] at ha
      have := List.mem_takeWhile_imp ha
      simpa using this

theorem tokenize_loop_eq (fuel : Nat) (saved : List Char) (tokens : List String)
    (hfuel : saved.length < fuel) :
    tokenize_loop fuel saved tokens =
      tokens ++ ((fields saved).map String.mk).take (MAX_TOKENS - tokens.length) := by
  induction fuel generalizing saved tokens with
  | zero => omega
  | succ fuel ih =>
    unfold tokenize_loop
    cases hs : strtok saved with
    | none => simp [strtok_none saved hs]
    | some p =>
      obtain ⟨token, next⟩ := p
      obtain ⟨h1, h2, _, _⟩ := strtok_some saved token next hs
      simp only []
      by_cases hc : tokens.length < MAX_TOKENS
      · rw [if_pos hc, ih next (tokens ++ [String.mk token]) (by omega), h1]
        have : MAX_TOKENS - tokens.length = (MAX_TOKENS - (tokens.length + 1)) + 1 := by omega
        rw [this]
        simp
      · rw [if_neg hc]
        have : MAX_TOKENS - tokens.length = 0 := by omega
        simp [this]

theorem tokenize_text_tokens (reader : DocumentReader) (text : String) :
    (tokenize_text reader text).token_list.tokens = (maximal_runs text).take MAX_TOKENS := by
  simp only [tokenize_text, maximal_runs]
  rw [tokenize_loop_eq _ _ _ (Nat.lt_succ_self _)]
  simp

theorem fields_spec_bounded (n : Nat) (l : List Char) (hl : l.length ≤ n) :
    ∀ run ∈ fields l, run ≠ [] ∧ ∀ c ∈ run, is_delimiter c = false := by
  induction n generalizing l with
  | zero =>
    have : l = [] := List.length_eq_zero.mp (by omega)
    subst this
    simp [fields_nil]
  | succ n ih =>
    intro run hrun
    cases hs : strtok l with
    | none => rw [strtok_none l hs] at hrun; simp at hrun
    | some p =>
      obtain ⟨token, next⟩ := p
      obtain ⟨h1, h2, h3, h4⟩ := strtok_some l token next hs
      rw [h1] at hrun
      rcases List.mem_cons.mp hrun with rfl | hrun
      · exact ⟨h3, h4⟩
      · exact ih next (by omega) run hrun

theorem fields_spec (l : List Char) :
    ∀ run ∈ fields l, run ≠ [] ∧ ∀ c ∈ run, is_delimiter c = false :=
  fields_spec_bounded l.length l (le_refl _)

/-- C14: `tokenize_text` replaces the token list by the first `min(n, 10000)` of the
`n` maximal runs of non-delimiter characters of the text, in order; so no token is
empty or contains a delimiter, a longer input is cut at 10000 tokens without any error
outcome, and the tokens held before play no role. -/
theorem tokenize_text_maximal_runs (reader : DocumentReader) (text : String) :
    (tokenize_text reader text).token_list.tokens = (maximal_runs text).take MAX_TOKENS ∧
    (tokenize_text reader text).token_list.count =
      min (maximal_runs text).length MAX_TOKENS ∧
    (∀ t ∈ (tokenize_text reader text).token_list.tokens,
      t ≠ "" ∧ ∀ c ∈ t.data, is_delimiter c = false) ∧
    (∀ other : DocumentReader,
      (tokenize_text other text).token_list = (tokenize_text reader text).token_list) := by
  refine ⟨tokenize_text_tokens reader text, ?_, ?_, fun other => rfl⟩
  · rw [TokenList.count, tokenize_text_tokens, List.length_take, Nat.min_comm]
  · intro t ht
    rw [tokenize_text_tokens] at ht
    have hmem := List.mem_of_mem_take ht
    simp only [maximal_runs, List.mem_map] at hmem
    obtain ⟨run, hrun, rfl⟩ := hmem
    obtain ⟨h1, h2⟩ := fields_spec text.data run hrun
    refine ⟨?_, h2⟩
    intro e
    exact h1 (congrArg String.data e)

/-! ## Comparator -/

theorem getD_set_eq {α : Type} (l : List α) (idx i : Nat) (a d : α) (h : idx < l.length) :
    (l.set idx a).getD i d = if i = idx then a else l.getD i d := by
  by_cases hi : i = idx
  · subst hi
    simp [List.getD_eq_getElem?_getD, List.getElem?_set, h]
  · have hne : ¬ idx = i := fun e => hi e.symm
    simp [List.getD_eq_getElem?_getD, List.getElem?_set, hi, hne]

theorem holds_keys_toFinset (ht : HashTable) (xs : List String) (h : Holds ht xs) :
    (hash_table_keys ht).toFinset = xs.toFinset := by
  ext s
  simp [holds_mem_keys_iff ht xs h s]

theorem jaccard_of_division (A B : Option HashTable) (i : Nat) (u : Int)
    (h : jaccard_division A B = some (i, u)) :
    calculate_jaccard_similarity A B = (i : ℚ) / (u : ℚ) := by
  unfold calculate_jaccard_similarity
  rw [h]

theorem cosine_of_division (A B : Option HashTable) (i c1 c2 : Nat)
    (h : cosine_division A B = some (i, c1, c2)) :
    calculate_cosine_similarity A B =
      (i : ℝ) / (Real.sqrt (c1 : ℝ) * Real.sqrt (c2 : ℝ)) := by
  unfold calculate_cosine_similarity
  rw [h]

theorem jaccard_float_of_division (A B : Option HashTable) (i : Nat) (u : Int)
    (h : jaccard_division A B = some (i, u)) :
    calculate_jaccard_similarity_float A B = jaccard_quotient_binary32 i u.toNat := by
  unfold calculate_jaccard_similarity_float
  rw [h]

theorem cosine_float_of_division (A B : Option HashTable) (i c1 c2 : Nat)
    (h : cosine_division A B = some (i, c1, c2)) :
    calculate_cosine_similarity_float A B = cosine_quotient_binary32 i c1 c2 := by
  unfold calculate_cosine_similarity_float
  rw [h]

theorem float_sum_snoc (xs : List BinFloat) (x : BinFloat) :
    float_sum (xs ++ [x]) = float_add (float_sum xs) x := by
  simp [float_sum, List.foldl_append]

theorem compare_loop (target : DocumentReader) (k : Int)
    (refs : List (Option DocumentReader)) (scores : List BinFloat) (m : Nat)
    (hm1 : m ≤ refs.length) (hm2 : m ≤ scores.length) :
    ((List.range m).foldl (compare_step target k) (refs, scores, float_zero)).1.length =
      refs.length ∧
    ((List.range m).foldl (compare_step target k) (refs, scores, float_zero)).2.1.length =
      scores.length ∧
    (∀ i, ((List.range m).foldl (compare_step target k)
        (refs, scores, float_zero)).1.getD i none =
      if i < m then (refs.getD i none).map (fun d => ensure_kgrams d k)
      else refs.getD i none) ∧
    (∀ i, ((List.range m).foldl (compare_step target k)
        (refs, scores, float_zero)).2.1.getD i float_zero =
      if i < m then
        (match refs.getD i none with
          | none => scores.getD i float_zero
          | some d => pair_score_binary32 target k d)
      else scores.getD i float_zero) ∧
    ((List.range m).foldl (compare_step target k) (refs, scores, float_zero)).2.2 =
      float_sum ((List.range m).filterMap (fun i =>
        (refs.getD i none).map (pair_score_binary32 target k))) := by
  induction m with
  | zero => simp [float_sum]
  | succ m ih =>
    obtain ⟨h1, h2, h3, h4, h5⟩ := ih (by omega) (by omega)
    rw [List.range_succ, List.foldl_append, List.filterMap_append]
    generalize (List.range m).foldl (compare_step target k) (refs, scores, float_zero) = st
      at h1 h2 h3 h4 h5 ⊢
    obtain ⟨docs, sc, total⟩ := st
    simp only at h1 h2 h3 h4 h5
    have hcur : docs.getD m none = refs.getD m none := by
      rw [h3 m]; simp
    simp only [List.foldl_cons, List.foldl_nil, compare_step, hcur, List.filterMap_cons,
      List.filterMap_nil]
    cases hr : refs.getD m none with
    | none =>
      simp only [Option.map_none', List.append_nil]
      refine ⟨h1, h2, ?_, ?_, h5⟩
      · intro i
        rw [h3 i]
        rcases Nat.lt_trichotomy i m with hi | hi | hi
        · rw [if_pos hi, if_pos (by omega)]
        · subst hi
          rw [if_neg (lt_irrefl _), if_pos (Nat.lt_succ_self _), hr]
          rfl
        · rw [if_neg (by omega), if_neg (by omega)]
      · intro i
        rw [h4 i]
        rcases Nat.lt_trichotomy i m with hi | hi | hi
        · rw [if_pos hi, if_pos (by omega)]
        · subst hi
          rw [if_neg (lt_irrefl _), if_pos (Nat.lt_succ_self _), hr]
        · rw [if_neg (by omega), if_neg (by omega)]
    | some d =>
      simp only [Option.map_some', float_sum_snoc]
      refine ⟨by simp [h1], by simp [h2], ?_, ?_, by rw [h5]; rfl⟩
      · intro i
        rw [getD_set_eq _ _ _ _ _ (by omega)]
        rcases Nat.lt_trichotomy i m with hi | hi | hi
        · rw [if_neg (by omega), h3 i, if_pos hi, if_pos (by omega)]
        · subst hi
          rw [if_pos rfl, if_pos (Nat.lt_succ_self _), hr]
          rfl
        · rw [if_neg (by omega), h3 i, if_neg (by omega), if_neg (by omega)]
      · intro i
        rw [getD_set_eq _ _ _ _ _ (by omega)]
        rcases Nat.lt_trichotomy i m with hi | hi | hi
        · rw [if_neg (by omega), h4 i, if_pos hi, if_pos (by omega)]
        · subst hi
          rw [if_pos rfl, if_pos (Nat.lt_succ_self _), hr]
          rfl
        · rw [if_neg (by omega), h4 i, if_neg (by omega), if_neg (by omega)]

theorem generate_kgrams_invalid (doc : DocumentReader) (k : Int) (h : invalid_k doc k) :
    generate_kgrams doc k = (doc, KGramOutcome.invalid_k) := by
  unfold invalid_k at h
  simp [generate_kgrams, h]

theorem ensure_kgrams_invalid (doc : DocumentReader) (k : Int) (h : invalid_k doc k) :
    ensure_kgrams doc k = doc := by
  unfold ensure_kgrams
  split
  · rw [generate_kgrams_invalid doc k h]
  · rfl

theorem compare_documents_compared (c : PlagiarismChecker) (k : Int) (ok : CheckerOk c)
    (t : DocumentReader) (ht : c.target_doc = some t) (hn : c.reference_count ≠ 0) :
    (compare_documents c k).2 = CompareOutcome.compared ∧
    (compare_documents c k).1.target_doc = some (ensure_kgrams t k) ∧
    (∀ i, i < c.reference_count → ∀ d, c.reference_docs.getD i none = some d →
      (compare_documents c k).1.reference_docs.getD i none = some (ensure_kgrams d k) ∧
      (compare_documents c k).1.similarity_scores.getD i float_zero =
        pair_score_binary32 (ensure_kgrams t k) k d) ∧
    (compare_documents c k).1.overall_similarity =
      float_div
        (float_sum ((List.range c.reference_count).map
          (fun i => (compare_documents c k).1.similarity_scores.getD i float_zero)))
        (float_of_int c.reference_count) := by
  obtain ⟨h1, h2, h3, h4, h5⟩ := compare_loop (ensure_kgrams t k) k c.reference_docs
    c.similarity_scores c.reference_count ok.count_le_docs ok.count_le_scores
  simp only [compare_documents, ht, hn, if_false]
  refine ⟨trivial, trivial, ?_, ?_⟩
  · intro i hi d hd
    rw [h3 i, h4 i, if_pos hi, if_pos hi, hd]
    exact ⟨rfl, rfl⟩
  · rw [h5]
    congr 2
    rw [← List.filterMap_eq_map]
    apply List.filterMap_congr
    intro i hi
    have hi2 := List.mem_range.mp hi
    obtain ⟨d, hd⟩ := ok.non_null i hi2
    rw [Function.comp_apply, h4 i, if_pos hi2, hd]
    rfl

theorem compare_documents_count (c : PlagiarismChecker) (k : Int) :
    (compare_documents c k).1.reference_count = c.reference_count := by
  unfold compare_documents
  cases c.target_doc with
  | none => rfl
  | some t =>
    simp only []
    split <;> rfl

theorem self_scores (S : HashTable) (wf : WellFormed S) (hpos : 0 < S.count) :
    calculate_jaccard_similarity (some S) (some S) = 1 ∧
    calculate_cosine_similarity (some S) (some S) = 1 := by
  have hself := intersection_self S wf
  have hne : S.count ≠ 0 := by omega
  have hq : (S.count : ℚ) ≠ 0 := by exact_mod_cast hne
  have hr : (0 : ℝ) ≤ (S.count : ℝ) := Nat.cast_nonneg _
  have hr0 : (S.count : ℝ) ≠ 0 := by exact_mod_cast hne
  have hu : hash_table_union_count (some S) (some S) = (S.count : Int) := by
    simp only [hash_table_union_count, hself]; omega
  have hu0 : ¬ ((S.count : Int) = 0) := by omega
  constructor
  · simp only [calculate_jaccard_similarity, jaccard_division, hself, hu, hne, or_self,
      if_false, hu0]
    simp [hq]
  · simp only [calculate_cosine_similarity, cosine_division, hself, hne, or_self, if_false]
    rw [Real.mul_self_sqrt hr]
    exact div_self hr0

theorem self_divisions (S : HashTable) (wf : WellFormed S) (hpos : 0 < S.count) :
    jaccard_division (some S) (some S) = some (S.count, (S.count : Int)) ∧
    cosine_division (some S) (some S) = some (S.count, S.count, S.count) := by
  have hself := intersection_self S wf
  have hne : S.count ≠ 0 := by omega
  have hu : hash_table_union_count (some S) (some S) = (S.count : Int) := by
    simp only [hash_table_union_count, hself]; omega
  have hu0 : ¬ ((S.count : Int) = 0) := by omega
  constructor
  · simp only [jaccard_division, hself, hu, hne, or_self, if_false, hu0]
  · simp only [cosine_division, hself, hne, or_self, if_false]

theorem checkerOk_create : CheckerOk create_plagiarism_checker where
  count_le_docs := by simp [create_plagiarism_checker]
  count_le_scores := by simp [create_plagiarism_checker]
  non_null := by
    intro i hi
    simp [create_plagiarism_checker] at hi

theorem checkerOk_add_target (c : PlagiarismChecker) (ok : CheckerOk c)
    (target : Option DocumentReader) : CheckerOk (add_target_document c target) := by
  cases target with
  | none => exact ok
  | some d => exact ⟨ok.count_le_docs, ok.count_le_scores, ok.non_null⟩

theorem checkerOk_add_reference (c : PlagiarismChecker) (ok : CheckerOk c)
    (hd : c.reference_docs.length = MAX_REFERENCE_PAPERS)
    (hs : c.similarity_scores.length = MAX_REFERENCE_PAPERS)
    (reference : Option DocumentReader) : CheckerOk (add_reference_document c reference) := by
  cases reference with
  | none => exact ok
  | some d =>
    unfold add_reference_document
    simp only []
    split
    · rename_i hlt
      refine ⟨?_, ?_, ?_⟩
      · simp only [List.length_set]; omega
      · simp only []; omega
      · intro i hi
        simp only [] at hi ⊢
        rw [getD_set_eq _ _ _ _ _ (by omega)]
        by_cases hic : i = c.reference_count
        · exact ⟨d, by rw [if_pos hic]⟩
        · rw [if_neg hic]
          exact ok.non_null i (by omega)
    · exact ok

theorem checkerOk_sample : CheckerOk sample_checker := by
  unfold sample_checker
  apply checkerOk_add_reference
  · exact checkerOk_add_target _ checkerOk_create _
  · simp [add_target_document, create_plagiarism_checker]
  · simp [add_target_document, create_plagiarism_checker]

theorem sample_checker_fields :
    sample_checker.target_doc = some sample_reader ∧
    sample_checker.reference_count = 1 ∧
    sample_checker.reference_docs.getD 0 none = some sample_reader ∧
    sample_checker.similarity_scores.getD 0 float_zero = float_zero ∧
    sample_checker.overall_similarity = float_zero := by
  simp [sample_checker, add_reference_document, add_target_document,
    create_plagiarism_checker, MAX_REFERENCE_PAPERS]

theorem checkerOk_rounding : CheckerOk rounding_checker := by
  unfold rounding_checker
  apply checkerOk_add_reference
  · exact checkerOk_add_target _ checkerOk_create _
  · simp [add_target_document, create_plagiarism_checker]
  · simp [add_target_document, create_plagiarism_checker]

theorem rounding_checker_fields :
    rounding_checker.target_doc = some rounding_target ∧
    rounding_checker.reference_count = 1 ∧
    rounding_checker.reference_docs.getD 0 none = some rounding_reference := by
  simp [rounding_checker, add_reference_document, add_target_document,
    create_plagiarism_checker, MAX_REFERENCE_PAPERS]

theorem checkerOk_two_references (t r0 r1 : DocumentReader) :
    CheckerOk (add_reference_document
      (add_reference_document
        (add_target_document create_plagiarism_checker (some t)) (some r0)) (some r1)) := by
  apply checkerOk_add_reference
  · apply checkerOk_add_reference
    · exact checkerOk_add_target _ checkerOk_create _
    · simp [add_target_document, create_plagiarism_checker]
    · simp [add_target_document, create_plagiarism_checker]
  · simp [add_reference_document, add_target_document, create_plagiarism_checker,
      MAX_REFERENCE_PAPERS]
  · simp [add_reference_document, add_target_document, create_plagiarism_checker,
      MAX_REFERENCE_PAPERS]

theorem checkerOk_two_reference : CheckerOk two_reference_checker :=
  checkerOk_two_references _ _ _

theorem two_reference_checker_fields :
    two_reference_checker.target_doc = some fox_reader ∧
    two_reference_checker.reference_count = 2 ∧
    two_reference_checker.reference_docs.getD 0 none = some dog_reader ∧
    two_reference_checker.reference_docs.getD 1 none = some cat_reader := by
  simp [two_reference_checker, add_reference_document, add_target_document,
    create_plagiarism_checker, MAX_REFERENCE_PAPERS]

theorem checkerOk_stale : CheckerOk stale_checker :=
  checkerOk_two_references _ _ _

theorem stale_checker_fields :
    stale_checker.target_doc = some sample_reader ∧
    stale_checker.reference_count = 2 ∧
    stale_checker.reference_docs.getD 0 none = some stale_reader ∧
    stale_checker.reference_docs.getD 1 none = some raw_reader := by
  simp [stale_checker, add_reference_document, add_target_document,
    create_plagiarism_checker, MAX_REFERENCE_PAPERS]

/-- The state of `sample_reader` is the one `generate_kgrams` with `k = 1` leaves. -/
theorem sample_reader_generated :
    (generate_kgrams
      { sample_reader with
        kgram_list := { kgrams := [], count := 0, k_value := 0 }
        kgram_hash := none } 1).1 = sample_reader := by
  rw [generate_kgrams_valid _ 1 (by decide) (by decide)]
  have hw : windows ["a", "b", "a", "b"] (1 : Int).toNat = ["a", "b", "a", "b"] := by decide
  simp only [sample_reader, hw]
  rfl

theorem sample_reader_invalid : invalid_k sample_reader 10 := by
  right
  decide

theorem sample_reader_self_scores :
    calculate_jaccard_similarity sample_reader.kgram_hash sample_reader.kgram_hash = 1 ∧
    calculate_cosine_similarity sample_reader.kgram_hash sample_reader.kgram_hash = 1 := by
  have H := holds_build HASH_TABLE_SIZE (by decide) ["a", "b", "a", "b"]
  have hcount := holds_count _ _ H
  have hcard : (["a", "b", "a", "b"] : List String).toFinset.card = 2 := by decide
  rw [hcard] at hcount
  exact self_scores _ H.wf (by omega)

theorem sample_reader_divisions :
    jaccard_division sample_reader.kgram_hash sample_reader.kgram_hash = some (2, 2) ∧
    cosine_division sample_reader.kgram_hash sample_reader.kgram_hash = some (2, 2, 2) := by
  have H := holds_build HASH_TABLE_SIZE (by decide) ["a", "b", "a", "b"]
  have hcount := holds_count _ _ H
  have hcard : (["a", "b", "a", "b"] : List String).toFinset.card = 2 := by decide
  rw [hcard] at hcount
  have h := self_divisions _ H.wf (by omega)
  rw [hcount] at h
  exact h

set_option maxRecDepth 1000000 in
theorem two_key_score_binary32 :
    combined_similarity_binary32 (jaccard_quotient_binary32 2 2)
      (cosine_quotient_binary32 2 2 2) = { mant := 8388608, exp := -23 } ∧
    float_div (float_sum [{ mant := 8388608, exp := -23 }]) (float_of_int 1) =
      { mant := 8388608, exp := -23 } := by
  decide

theorem sample_pair_score_binary32 :
    pair_score_binary32 sample_reader 10 sample_reader = { mant := 8388608, exp := -23 } := by
  unfold pair_score_binary32
  rw [ensure_kgrams_invalid _ _ sample_reader_invalid,
    jaccard_float_of_division _ _ 2 2 sample_reader_divisions.1,
    cosine_float_of_division _ _ 2 2 2 sample_reader_divisions.2]
  exact two_key_score_binary32.1

theorem combined_similarity_eq (j c : ℝ) : combined_similarity j c = 0.6 * j + 0.4 * c := by
  unfold combined_similarity
  norm_num
  ring

theorem scores_of_absent_set (A B : Option HashTable) (h : A = none ∨ B = none) :
    calculate_jaccard_similarity A B = 0 ∧ calculate_cosine_similarity A B = 0 := by
  rcases h with rfl | rfl
  · constructor
    · simp [calculate_jaccard_similarity, jaccard_division]
    · simp [calculate_cosine_similarity, cosine_division]
  · cases A <;> constructor <;>
      simp [calculate_jaccard_similarity, jaccard_division, calculate_cosine_similarity,
        cosine_division]

theorem float_scores_of_absent_set (A B : Option HashTable) (h : A = none ∨ B = none) :
    calculate_jaccard_similarity_float A B = float_zero ∧
    calculate_cosine_similarity_float A B = float_zero := by
  rcases h with rfl | rfl
  · constructor
    · simp [calculate_jaccard_similarity_float, jaccard_division]
    · simp [calculate_cosine_similarity_float, cosine_division]
  · cases A <;> constructor <;>
      simp [calculate_jaccard_similarity_float, jaccard_division,
        calculate_cosine_similarity_float, cosine_division]

theorem combined_binary32_zero :
    combined_similarity_binary32 float_zero float_zero = float_zero := by
  decide

theorem sqrt_mul_sqrt_le (i a b : Nat) (h1 : i ≤ a) (h2 : i ≤ b) :
    Real.sqrt (a : ℝ) * Real.sqrt (b : ℝ) ≤ (a : ℝ) + (b : ℝ) - (i : ℝ) := by
  have ha : (0 : ℝ) ≤ (a : ℝ) := Nat.cast_nonneg a
  have hb : (0 : ℝ) ≤ (b : ℝ) := Nat.cast_nonneg b
  have hia : (i : ℝ) ≤ (a : ℝ) := by exact_mod_cast h1
  have hib : (i : ℝ) ≤ (b : ℝ) := by exact_mod_cast h2
  rcases le_total (a : ℝ) (b : ℝ) with hab | hab
  · have h : Real.sqrt (a : ℝ) * Real.sqrt (b : ℝ) ≤ Real.sqrt (b : ℝ) * Real.sqrt (b : ℝ) :=
      mul_le_mul_of_nonneg_right (Real.sqrt_le_sqrt hab) (Real.sqrt_nonneg _)
    rw [Real.mul_self_sqrt hb] at h
    linarith
  · have h : Real.sqrt (a : ℝ) * Real.sqrt (b : ℝ) ≤ Real.sqrt (a : ℝ) * Real.sqrt (a : ℝ) :=
      mul_le_mul_of_nonneg_left (Real.sqrt_le_sqrt hab) (Real.sqrt_nonneg _)
    rw [Real.mul_self_sqrt ha] at h
    linarith

theorem jaccard_cosine_order (a b : HashTable) (wa : WellFormed a) (wb : WellFormed b) :
    (0 : ℝ) ≤ ((calculate_jaccard_similarity (some a) (some b) : ℚ) : ℝ) ∧
    ((calculate_jaccard_similarity (some a) (some b) : ℚ) : ℝ) ≤
      calculate_cosine_similarity (some a) (some b) ∧
    calculate_cosine_similarity (some a) (some b) ≤ 1 := by
  have hle := intersection_le_count a b wa wb
  by_cases h0 : a.count = 0 ∨ b.count = 0
  · have hj : jaccard_division (some a) (some b) = none := by simp [jaccard_division, h0]
    have hc : cosine_division (some a) (some b) = none := by simp [cosine_division, h0]
    have e1 : calculate_jaccard_similarity (some a) (some b) = 0 := by
      unfold calculate_jaccard_similarity; rw [hj]
    have e2 : calculate_cosine_similarity (some a) (some b) = 0 := by
      unfold calculate_cosine_similarity; rw [hc]
    rw [e1, e2]
    norm_num
  · have ha0 : a.count ≠ 0 := fun e => h0 (Or.inl e)
    have hb0 : b.count ≠ 0 := fun e => h0 (Or.inr e)
    have hu : ¬ ((a.count : Int) + (b.count : Int) -
        (hash_table_intersection_count (some a) (some b) : Int) = 0) := by omega
    have hj : jaccard_division (some a) (some b) =
        some (hash_table_intersection_count (some a) (some b),
          (a.count : Int) + (b.count : Int) -
            (hash_table_intersection_count (some a) (some b) : Int)) := by
      simp only [jaccard_division, hash_table_union_count, h0, if_false, hu]
    have hc : cosine_division (some a) (some b) =
        some (hash_table_intersection_count (some a) (some b), a.count, b.count) := by
      simp only [cosine_division, h0, if_false]
    rw [jaccard_of_division _ _ _ _ hj, cosine_of_division _ _ _ _ _ hc]
    generalize hash_table_intersection_count (some a) (some b) = i at hle ⊢
    have hi : (0 : ℝ) ≤ (i : ℝ) := Nat.cast_nonneg i
    have hsq := sqrt_mul_sqrt_le i a.count b.count hle.1 hle.2
    have hapos : (0 : ℝ) < (a.count : ℝ) := by
      exact_mod_cast Nat.pos_of_ne_zero ha0
    have hbpos : (0 : ℝ) < (b.count : ℝ) := by
      exact_mod_cast Nat.pos_of_ne_zero hb0
    have hden : 0 < Real.sqrt (a.count : ℝ) * Real.sqrt (b.count : ℝ) :=
      mul_pos (Real.sqrt_pos.mpr hapos) (Real.sqrt_pos.mpr hbpos)
    have hupos : (0 : ℝ) < (a.count : ℝ) + (b.count : ℝ) - (i : ℝ) := by linarith
    push_cast
    refine ⟨div_nonneg hi hupos.le, div_le_div_of_nonneg_left hi hden hsq,
      (cosine_quotient_bounds i a.count b.count hle.1 hle.2).2⟩

theorem similarity_order_built (A B : Option HashTable) (hA : Built A) (hB : Built B) :
    (0 : ℝ) ≤ ((calculate_jaccard_similarity A B : ℚ) : ℝ) ∧
    ((calculate_jaccard_similarity A B : ℚ) : ℝ) ≤ calculate_cosine_similarity A B ∧
    calculate_cosine_similarity A B ≤ 1 := by
  cases A with
  | none =>
    obtain ⟨e1, e2⟩ := scores_of_absent_set none B (Or.inl rfl)
    rw [e1, e2]; norm_num
  | some a =>
    cases B with
    | none =>
      obtain ⟨e1, e2⟩ := scores_of_absent_set (some a) none (Or.inr rfl)
      rw [e1, e2]; norm_num
    | some b =>
      exact jaccard_cosine_order a b (built_wellFormed _ hA a rfl)
        (built_wellFormed _ hB b rfl)

theorem combined_between (j c : ℝ) (h0 : 0 ≤ j) (hjc : j ≤ c) (h1 : c ≤ 1) :
    j ≤ combined_similarity j c ∧ combined_similarity j c ≤ c ∧
    0 ≤ combined_similarity j c ∧ combined_similarity j c ≤ 1 := by
  unfold combined_similarity
  refine ⟨?_, ?_, ?_, ?_⟩ <;> linarith

theorem built_ensure_kgrams (doc : DocumentReader) (k : Int) (h : Built doc.kgram_hash) :
    Built (ensure_kgrams doc k).kgram_hash := by
  unfold ensure_kgrams
  split
  · by_cases hv : 1 ≤ k ∧ k ≤ (doc.token_list.count : Int)
    · rw [generate_kgrams_valid doc k hv.1 hv.2]
      exact built_insert_all HASH_TABLE_SIZE (by decide) _
    · have hinv : invalid_k doc k := by
        unfold invalid_k
        omega
      rw [generate_kgrams_invalid doc k hinv]
      exact h
  · exact h

theorem pair_score_bounds (target : DocumentReader) (k : Int) (d : DocumentReader)
    (ht : Built target.kgram_hash) (hd : Built d.kgram_hash) :
    0 ≤ pair_score target k d ∧ pair_score target k d ≤ 1 := by
  obtain ⟨h0, h1, h2⟩ := similarity_order_built target.kgram_hash
    (ensure_kgrams d k).kgram_hash ht (built_ensure_kgrams d k hd)
  have := combined_between _ _ h0 h1 h2
  exact ⟨this.2.2.1, this.2.2.2⟩

theorem exact_score_eq (t d : DocumentReader) (k : Int) :
    exact_score (some t) (some (ensure_kgrams d k)) = pair_score t k d := rfl

theorem abs_sub_le_of_bounds {x y e : ℝ} (hx1 : x ≤ 1) (he : 0 ≤ e)
    (b : x * (1 - e) ≤ y ∧ y ≤ x * (1 + e)) : |y - x| ≤ e := by
  rw [abs_le]
  have : x * e ≤ e := by nlinarith
  constructor <;> nlinarith [b.1, b.2]

theorem pair_score_binary32_bounds (target : DocumentReader) (k : Int) (d : DocumentReader)
    (ht : Built target.kgram_hash) (hd : Built d.kgram_hash) :
    pair_score target k d * (1 - 8 / 2 ^ 24) ≤
      (((pair_score_binary32 target k d).toRat : ℚ) : ℝ) ∧
    (((pair_score_binary32 target k d).toRat : ℚ) : ℝ) ≤
      pair_score target k d * (1 + 8 / 2 ^ 24) := by
  have hb := built_ensure_kgrams d k hd
  obtain ⟨h0, h1, h2⟩ := similarity_order_built target.kgram_hash
    (ensure_kgrams d k).kgram_hash ht hb
  exact combined_binary32_bounds _ _ _ _ h0 (le_trans h0 h1)
    (jaccard_float_bounds _ _ ht hb) (cosine_float_bounds _ _)

theorem pair_score_binary32_error (target : DocumentReader) (k : Int) (d : DocumentReader)
    (ht : Built target.kgram_hash) (hd : Built d.kgram_hash) :
    |(((pair_score_binary32 target k d).toRat : ℚ) : ℝ) - pair_score target k d| ≤
      1 / 2 ^ 21 := by
  obtain ⟨h0, h1⟩ := pair_score_bounds target k d ht hd
  have hb := pair_score_binary32_bounds target k d ht hd
  have e : (1 : ℝ) / 2 ^ 21 = 8 / 2 ^ 24 := by norm_num
  rw [e]
  exact abs_sub_le_of_bounds h1 (by norm_num) hb

theorem float_fold_bounds (f : Nat → BinFloat) (F : Nat → ℝ) (l h : ℝ) (hlh : l ≤ h)
    (is : List Nat)
    (hyp : ∀ i ∈ is, 0 ≤ F i ∧ F i * l ≤ (((f i).toRat : ℚ) : ℝ) ∧
      (((f i).toRat : ℚ) : ℝ) ≤ F i * h)
    (acc : BinFloat) (A L H : ℝ) (hA : 0 ≤ A) (hL0 : 0 ≤ L) (hLl : L ≤ l) (hhH : h ≤ H)
    (b : A * L ≤ ((acc.toRat : ℚ) : ℝ) ∧ ((acc.toRat : ℚ) : ℝ) ≤ A * H) :
    (A + (is.map F).sum) * (L * (1 - 1 / 2 ^ 24) ^ is.length) ≤
      ((((is.map f).foldl float_add acc).toRat : ℚ) : ℝ) ∧
    ((((is.map f).foldl float_add acc).toRat : ℚ) : ℝ) ≤
      (A + (is.map F).sum) * (H * (1 + 1 / 2 ^ 24) ^ is.length) := by
  induction is generalizing acc A L H with
  | nil => simpa using b
  | cons i is ih =>
    obtain ⟨hF0, hFl, hFh⟩ := hyp i (List.mem_cons_self _ _)
    have bi : F i * L ≤ (((f i).toRat : ℚ) : ℝ) ∧ (((f i).toRat : ℚ) : ℝ) ≤ F i * H :=
      bounds_weaken hF0 hLl hhH ⟨hFl, hFh⟩
    have s := bounds_add b bi
    have r := cast_round_bounds 24 (float_add_bounds acc (f i))
    rw [Rat.cast_add] at r
    have t := bounds_round (add_nonneg hA hF0) hL0 (by norm_num) (by norm_num) s r
    have hL1 : L * (1 - 1 / 2 ^ 24) ≤ L := by nlinarith
    have hH0 : 0 ≤ H := le_trans (le_trans (le_trans hL0 hLl) hlh) hhH
    have hH1 : H ≤ H * (1 + 1 / 2 ^ 24) := by nlinarith
    have := ih (fun j hj => hyp j (List.mem_cons_of_mem _ hj)) (float_add acc (f i))
      (A + F i) (L * (1 - 1 / 2 ^ 24)) (H * (1 + 1 / 2 ^ 24)) (add_nonneg hA hF0)
      (mul_nonneg hL0 (by norm_num)) (le_trans hL1 hLl) (le_trans hhH hH1) t
    simp only [List.map_cons, List.foldl_cons, List.sum_cons, List.length_cons]
    rw [pow_succ (1 - 1 / 2 ^ 24 : ℝ) is.length, pow_succ (1 + 1 / 2 ^ 24 : ℝ) is.length]
    have e1 : A + (F i + (is.map F).sum) = A + F i + (is.map F).sum := by ring
    have e2 : L * ((1 - 1 / 2 ^ 24) ^ is.length * (1 - 1 / 2 ^ 24)) =
        L * (1 - 1 / 2 ^ 24) * (1 - 1 / 2 ^ 24) ^ is.length := by ring
    have e3 : H * ((1 + 1 / 2 ^ 24) ^ is.length * (1 + 1 / 2 ^ 24)) =
        H * (1 + 1 / 2 ^ 24) * (1 + 1 / 2 ^ 24) ^ is.length := by ring
    rw [e1, e2, e3]
    exact this

theorem float_mean_bounds (f : Nat → BinFloat) (F : Nat → ℝ) (n : Nat) (hn1 : 1 ≤ n)
    (hn : n ≤ 10)
    (hyp : ∀ i, i < n → 0 ≤ F i ∧ F i * (1 - 8 / 2 ^ 24) ≤ (((f i).toRat : ℚ) : ℝ) ∧
      (((f i).toRat : ℚ) : ℝ) ≤ F i * (1 + 8 / 2 ^ 24)) :
    ((List.range n).map F).sum / n * (1 - 32 / 2 ^ 24) ≤
      (((float_div (float_sum ((List.range n).map f)) (float_of_int n)).toRat : ℚ) : ℝ) ∧
    (((float_div (float_sum ((List.range n).map f)) (float_of_int n)).toRat : ℚ) : ℝ) ≤
      ((List.range n).map F).sum / n * (1 + 32 / 2 ^ 24) := by
  have hs := float_fold_bounds f F (1 - 8 / 2 ^ 24) (1 + 8 / 2 ^ 24) (by norm_num)
    (List.range n)
    (fun i hi => hyp i (List.mem_range.mp hi)) float_zero 0 (1 - 8 / 2 ^ 24) (1 + 8 / 2 ^ 24)
    (le_refl _) (by norm_num) (le_refl _) (le_refl _) (by simp [float_zero, BinFloat.toRat])
  rw [List.length_range, zero_add] at hs
  have hsum0 : 0 ≤ ((List.range n).map F).sum := by
    apply List.sum_nonneg
    intro x hx
    obtain ⟨i, hi, rfl⟩ := List.mem_map.mp hx
    exact (hyp i (List.mem_range.mp hi)).1
  have hlo : (1 - 1 / 2 ^ 24 : ℝ) ^ 10 ≤ (1 - 1 / 2 ^ 24) ^ n :=
    pow_le_pow_of_le_one (by norm_num) (by norm_num) hn
  have hhi : (1 + 1 / 2 ^ 24 : ℝ) ^ n ≤ (1 + 1 / 2 ^ 24) ^ 10 :=
    pow_le_pow_right₀ (by norm_num) hn
  have hs2 := bounds_weaken hsum0
    (mul_le_mul_of_nonneg_left hlo (by norm_num : (0 : ℝ) ≤ 1 - 8 / 2 ^ 24))
    (mul_le_mul_of_nonneg_left hhi (by norm_num : (0 : ℝ) ≤ 1 + 8 / 2 ^ 24)) hs
  have hnpos : (0 : ℝ) < (n : ℝ) := by exact_mod_cast hn1
  have hN := cast_round_bounds 24 (float_of_int_bounds_rat n)
  rw [Rat.cast_natCast] at hN
  have hmant : 0 < (float_of_int n).mant := toRat_pos_mant _ (float_of_int_pos n hn1)
  have hq := bounds_div hsum0 hnpos (by norm_num) (by norm_num) hs2 hN
  have r := cast_round_bounds 24 (float_div_bounds (float_sum ((List.range n).map f))
    (float_of_int n) hmant)
  rw [Rat.cast_div] at r
  have t := bounds_round (div_nonneg hsum0 hnpos.le) (by norm_num) (by norm_num) (by norm_num)
    hq r
  exact bounds_weaken (div_nonneg hsum0 hnpos.le) (by norm_num) (by norm_num) t

theorem exact_scores_unit_interval (c : PlagiarismChecker) (k : Int) (t : DocumentReader)
    (ok : CheckerOk c) (ht : c.target_doc = some t) (hn : 1 ≤ c.reference_count)
    (hbt : Built t.kgram_hash)
    (hbd : ∀ i, i < c.reference_count → ∀ d, c.reference_docs.getD i none = some d →
      Built d.kgram_hash) :
    (∀ i, i < c.reference_count →
      0 ≤ exact_score (compare_documents c k).1.target_doc
        ((compare_documents c k).1.reference_docs.getD i none) ∧
      exact_score (compare_documents c k).1.target_doc
        ((compare_documents c k).1.reference_docs.getD i none) ≤ 1) ∧
    0 ≤ exact_mean (compare_documents c k).1 ∧
    exact_mean (compare_documents c k).1 ≤ 1 := by
  obtain ⟨_, h2, h3, _⟩ := compare_documents_compared c k ok t ht (by omega)
  have hscore : ∀ i, i < c.reference_count →
      0 ≤ exact_score (compare_documents c k).1.target_doc
        ((compare_documents c k).1.reference_docs.getD i none) ∧
      exact_score (compare_documents c k).1.target_doc
        ((compare_documents c k).1.reference_docs.getD i none) ≤ 1 := by
    intro i hi
    obtain ⟨d, hd⟩ := ok.non_null i hi
    rw [h2, (h3 i hi d hd).1, exact_score_eq]
    exact pair_score_bounds _ k d (built_ensure_kgrams t k hbt) (hbd i hi d hd)
  refine ⟨hscore, ?_, ?_⟩
  · unfold exact_mean
    rw [compare_documents_count]
    apply div_nonneg _ (Nat.cast_nonneg _)
    apply List.sum_nonneg
    intro x hx
    obtain ⟨i, hi, rfl⟩ := List.mem_map.mp hx
    exact (hscore i (List.mem_range.mp hi)).1
  · unfold exact_mean
    rw [compare_documents_count]
    apply div_le_one_of_le₀ _ (Nat.cast_nonneg _)
    have := List.sum_le_card_nsmul
      ((List.range c.reference_count).map
        (fun i => exact_score (compare_documents c k).1.target_doc
          ((compare_documents c k).1.reference_docs.getD i none))) 1
      (by
        intro x hx
        obtain ⟨i, hi, rfl⟩ := List.mem_map.mp hx
        exact (hscore i (List.mem_range.mp hi)).2)
    simpa using this

theorem stored_scores_error (c : PlagiarismChecker) (k : Int) (t : DocumentReader)
    (ok : CheckerOk c) (ht : c.target_doc = some t) (hn : 1 ≤ c.reference_count)
    (hbt : Built t.kgram_hash)
    (hbd : ∀ i, i < c.reference_count → ∀ d, c.reference_docs.getD i none = some d →
      Built d.kgram_hash) :
    (∀ i, i < c.reference_count →
      |((((compare_documents c k).1.similarity_scores.getD i float_zero).toRat : ℚ) : ℝ) -
        exact_score (compare_documents c k).1.target_doc
          ((compare_documents c k).1.reference_docs.getD i none)| ≤ 1 / 2 ^ 21) ∧
    (c.reference_count ≤ MAX_REFERENCE_PAPERS →
      |(((compare_documents c k).1.overall_similarity.toRat : ℚ) : ℝ) -
        exact_mean (compare_documents c k).1| ≤ 1 / 2 ^ 19) := by
  obtain ⟨_, h2, h3, h4⟩ := compare_documents_compared c k ok t ht (by omega)
  obtain ⟨_, _, hm1⟩ := exact_scores_unit_interval c k t ok ht hn hbt hbd
  have hpair : ∀ i, i < c.reference_count →
      0 ≤ exact_score (compare_documents c k).1.target_doc
          ((compare_documents c k).1.reference_docs.getD i none) ∧
      exact_score (compare_documents c k).1.target_doc
          ((compare_documents c k).1.reference_docs.getD i none) * (1 - 8 / 2 ^ 24) ≤
        ((((compare_documents c k).1.similarity_scores.getD i float_zero).toRat : ℚ) : ℝ) ∧
      ((((compare_documents c k).1.similarity_scores.getD i float_zero).toRat : ℚ) : ℝ) ≤
        exact_score (compare_documents c k).1.target_doc
          ((compare_documents c k).1.reference_docs.getD i none) * (1 + 8 / 2 ^ 24) := by
    intro i hi
    obtain ⟨d, hd⟩ := ok.non_null i hi
    rw [h2, (h3 i hi d hd).1, (h3 i hi d hd).2, exact_score_eq]
    have hb := pair_score_binary32_bounds (ensure_kgrams t k) k d
      (built_ensure_kgrams t k hbt) (hbd i hi d hd)
    exact ⟨(pair_score_bounds _ k d (built_ensure_kgrams t k hbt) (hbd i hi d hd)).1,
      hb.1, hb.2⟩
  constructor
  · intro i hi
    obtain ⟨d, hd⟩ := ok.non_null i hi
    rw [h2, (h3 i hi d hd).1, (h3 i hi d hd).2, exact_score_eq]
    exact pair_score_binary32_error _ k d (built_ensure_kgrams t k hbt) (hbd i hi d hd)
  · intro hmax
    have hb := float_mean_bounds
      (fun i => (compare_documents c k).1.similarity_scores.getD i float_zero)
      (fun i => exact_score (compare_documents c k).1.target_doc
        ((compare_documents c k).1.reference_docs.getD i none))
      c.reference_count hn hmax hpair
    rw [← h4] at hb
    have hmean : exact_mean (compare_documents c k).1 =
        ((List.range c.reference_count).map
          (fun i => exact_score (compare_documents c k).1.target_doc
            ((compare_documents c k).1.reference_docs.getD i none))).sum /
          (c.reference_count : ℝ) := by
      unfold exact_mean
      rw [compare_documents_count]
    rw [← hmean] at hb
    have e : (1 : ℝ) / 2 ^ 19 = 32 / 2 ^ 24 := by norm_num
    rw [e]
    exact abs_sub_le_of_bounds hm1 (by norm_num) hb

theorem ensure_kgrams_hit (doc : DocumentReader) (k : Int)
    (h : doc.kgram_hash ≠ none ∧ doc.kgram_list.k_value = k) : ensure_kgrams doc k = doc := by
  unfold ensure_kgrams
  rw [if_neg]
  intro hc
  rcases hc with hc | hc
  · exact h.1 hc
  · exact hc h.2

theorem ensure_kgrams_miss (doc : DocumentReader) (k : Int)
    (h : doc.kgram_hash = none ∨ doc.kgram_list.k_value ≠ k) :
    ensure_kgrams doc k = (generate_kgrams doc k).1 := by
  unfold ensure_kgrams
  rw [if_pos h]

theorem divisions_of_built (size1 size2 : Nat) (h1 : 0 < size1) (h2 : 0 < size2)
    (xs ys : List String) (i a b : Nat)
    (ha : xs.toFinset.card = a) (hb : ys.toFinset.card = b)
    (hi : (xs.toFinset ∩ ys.toFinset).card = i)
    (ha0 : a ≠ 0) (hb0 : b ≠ 0) (hu : (a : Int) + (b : Int) - (i : Int) ≠ 0) :
    jaccard_division (some (insert_all (create_hash_table size1) xs))
        (some (insert_all (create_hash_table size2) ys)) =
      some (i, (a : Int) + (b : Int) - (i : Int)) ∧
    cosine_division (some (insert_all (create_hash_table size1) xs))
        (some (insert_all (create_hash_table size2) ys)) = some (i, a, b) := by
  have HA := holds_build size1 h1 xs
  have HB := holds_build size2 h2 ys
  have cA := holds_count _ _ HA
  have cB := holds_count _ _ HB
  have hint := intersection_count_eq_card _ _ HA.wf HB.wf
  rw [holds_keys_toFinset _ _ HA, holds_keys_toFinset _ _ HB, hi] at hint
  rw [ha] at cA
  rw [hb] at cB
  generalize insert_all (create_hash_table size1) xs = A at cA hint ⊢
  generalize insert_all (create_hash_table size2) ys = B at cB hint ⊢
  constructor
  · simp only [jaccard_division, hash_table_union_count, hint, cA, cB, ha0, hb0, or_self,
      if_false, hu]
  · simp only [cosine_division, hint, cA, cB, ha0, hb0, or_self, if_false]

set_option maxRecDepth 1000000 in
theorem rounding_cards :
    (common_tokens ++ target_only_tokens).toFinset.card = 66 ∧
    (common_tokens ++ reference_only_tokens).toFinset.card = 66 ∧
    ((common_tokens ++ target_only_tokens).toFinset ∩
      (common_tokens ++ reference_only_tokens).toFinset).card = 33 := by
  decide

set_option maxRecDepth 1000000 in
theorem rounding_windows :
    windows rounding_target.token_list.tokens 1 = common_tokens ++ target_only_tokens ∧
    windows rounding_reference.token_list.tokens 1 =
      common_tokens ++ reference_only_tokens := by
  decide

theorem rounding_sets :
    (ensure_kgrams rounding_target 1).kgram_hash =
      some (insert_all (create_hash_table HASH_TABLE_SIZE)
        (common_tokens ++ target_only_tokens)) ∧
    (ensure_kgrams rounding_reference 1).kgram_hash =
      some (insert_all (create_hash_table HASH_TABLE_SIZE)
        (common_tokens ++ reference_only_tokens)) := by
  have e1 : (1 : Int).toNat = 1 := rfl
  have ht := generate_kgrams_valid rounding_target 1 (by decide) (by decide)
  have hr := generate_kgrams_valid rounding_reference 1 (by decide) (by decide)
  rw [e1, rounding_windows.1] at ht
  rw [e1, rounding_windows.2] at hr
  rw [ensure_kgrams_miss rounding_target 1 (Or.inl rfl),
    ensure_kgrams_miss rounding_reference 1 (Or.inl rfl), ht, hr]
  exact ⟨rfl, rfl⟩

theorem rounding_divisions :
    jaccard_division (ensure_kgrams rounding_target 1).kgram_hash
        (ensure_kgrams rounding_reference 1).kgram_hash = some (33, 99) ∧
    cosine_division (ensure_kgrams rounding_target 1).kgram_hash
        (ensure_kgrams rounding_reference 1).kgram_hash = some (33, 66, 66) := by
  obtain ⟨c1, c2, c3⟩ := rounding_cards
  rw [rounding_sets.1, rounding_sets.2]
  exact divisions_of_built HASH_TABLE_SIZE HASH_TABLE_SIZE (by decide) (by decide) _ _
    33 66 66 c1 c2 c3 (by decide) (by decide) (by decide)

set_option maxRecDepth 1000000 in
theorem rounding_score_binary32 :
    jaccard_quotient_binary32 33 (99 : Int).toNat = { mant := 11184811, exp := -25 } ∧
    cosine_quotient_binary32 33 66 66 = { mant := 16777214, exp := -25 } ∧
    combined_similarity_binary32 { mant := 11184811, exp := -25 }
      { mant := 16777214, exp := -25 } = { mant := 13421772, exp := -25 } ∧
    float_div (float_sum [{ mant := 13421772, exp := -25 }]) (float_of_int 1) =
      { mant := 13421772, exp := -25 } ∧
    double_const 7 10 = { mant := 6305039478318694, exp := -53 } ∧
    double_const 4 10 = { mant := 7205759403792794, exp := -54 } ∧
    double_const 1 10 = { mant := 7205759403792794, exp := -56 } := by
  decide

theorem rounding_status_binary32 :
    pair_status_binary32 { mant := 13421772, exp := -25 } = Band.low := by
  obtain ⟨_, _, _, _, h7, h4, h1⟩ := rounding_score_binary32
  unfold pair_status_binary32
  rw [h7, h4, h1]
  simp only [BinFloat.toRat]
  norm_num

theorem ensure_kgrams_fresh (doc : DocumentReader) (k : Int) (h : doc.kgram_hash = none)
    (h1 : 1 ≤ k) (h2 : k ≤ (doc.token_list.count : Int)) :
    (ensure_kgrams doc k).kgram_hash =
      some (insert_all (create_hash_table HASH_TABLE_SIZE)
        (windows doc.token_list.tokens k.toNat)) := by
  rw [ensure_kgrams_miss doc k (Or.inl h), generate_kgrams_valid doc k h1 h2]

theorem two_reference_divisions :
    jaccard_division (ensure_kgrams fox_reader 2).kgram_hash
        (ensure_kgrams dog_reader 2).kgram_hash = some (2, 5) ∧
    cosine_division (ensure_kgrams fox_reader 2).kgram_hash
        (ensure_kgrams dog_reader 2).kgram_hash = some (2, 4, 3) ∧
    jaccard_division (ensure_kgrams fox_reader 2).kgram_hash
        (ensure_kgrams cat_reader 2).kgram_hash = some (1, 6) ∧
    cosine_division (ensure_kgrams fox_reader 2).kgram_hash
        (ensure_kgrams cat_reader 2).kgram_hash = some (1, 4, 3) := by
  rw [ensure_kgrams_fresh fox_reader 2 rfl (by decide) (by decide),
    ensure_kgrams_fresh dog_reader 2 rfl (by decide) (by decide),
    ensure_kgrams_fresh cat_reader 2 rfl (by decide) (by decide)]
  have d0 := divisions_of_built HASH_TABLE_SIZE HASH_TABLE_SIZE (by decide) (by decide)
    (windows fox_reader.token_list.tokens (2 : Int).toNat)
    (windows dog_reader.token_list.tokens (2 : Int).toNat) 2 4 3
    (by decide) (by decide) (by decide) (by decide) (by decide) (by decide)
  have d1 := divisions_of_built HASH_TABLE_SIZE HASH_TABLE_SIZE (by decide) (by decide)
    (windows fox_reader.token_list.tokens (2 : Int).toNat)
    (windows cat_reader.token_list.tokens (2 : Int).toNat) 1 4 3
    (by decide) (by decide) (by decide) (by decide) (by decide) (by decide)
  exact ⟨d0.1, d0.2, d1.1, d1.2⟩

set_option maxRecDepth 1000000 in
theorem two_reference_score_binary32 :
    combined_similarity_binary32 (jaccard_quotient_binary32 2 (5 : Int).toNat)
      (cosine_quotient_binary32 2 4 3) = { mant := 15802128, exp := -25 } ∧
    combined_similarity_binary32 (jaccard_quotient_binary32 1 (6 : Int).toNat)
      (cosine_quotient_binary32 1 4 3) = { mant := 14459951, exp := -26 } ∧
    float_div
      (float_sum [{ mant := 15802128, exp := -25 }, { mant := 14459951, exp := -26 }])
      (float_of_int 2) = { mant := 11516052, exp := -25 } := by
  decide

/-- The floats `compare_documents` stores for `two_reference_checker` with `k = 2`:
about `0.47094`, `0.21547` and their mean `0.34321`. -/
theorem two_reference_scores :
    (compare_documents two_reference_checker 2).1.similarity_scores.getD 0 float_zero =
      { mant := 15802128, exp := -25 } ∧
    (compare_documents two_reference_checker 2).1.similarity_scores.getD 1 float_zero =
      { mant := 14459951, exp := -26 } ∧
    (compare_documents two_reference_checker 2).1.overall_similarity =
      { mant := 11516052, exp := -25 } := by
  obtain ⟨f1, f2, f3, f4⟩ := two_reference_checker_fields
  obtain ⟨_, _, h3, h4⟩ := compare_documents_compared two_reference_checker 2
    checkerOk_two_reference fox_reader f1 (by rw [f2]; decide)
  obtain ⟨j0, c0, j1, c1⟩ := two_reference_divisions
  obtain ⟨r0, r1, r2⟩ := two_reference_score_binary32
  have s0 : (compare_documents two_reference_checker 2).1.similarity_scores.getD 0
      float_zero = { mant := 15802128, exp := -25 } := by
    rw [(h3 0 (by rw [f2]; decide) dog_reader f3).2, pair_score_binary32,
      jaccard_float_of_division _ _ 2 5 j0, cosine_float_of_division _ _ 2 4 3 c0, r0]
  have s1 : (compare_documents two_reference_checker 2).1.similarity_scores.getD 1
      float_zero = { mant := 14459951, exp := -26 } := by
    rw [(h3 1 (by rw [f2]; decide) cat_reader f4).2, pair_score_binary32,
      jaccard_float_of_division _ _ 1 6 j1, cosine_float_of_division _ _ 1 4 3 c1, r1]
  refine ⟨s0, s1, ?_⟩
  have hr : List.range 2 = [0, 1] := rfl
  rw [h4, f2, hr]
  simp only [List.map_cons, List.map_nil, s0, s1]
  exact r2

theorem stale_invalid :
    invalid_k sample_reader 5 ∧ invalid_k stale_reader 5 ∧ invalid_k raw_reader 5 := by
  refine ⟨?_, ?_, ?_⟩ <;> right <;> decide

theorem stale_divisions :
    jaccard_division sample_reader.kgram_hash stale_reader.kgram_hash = some (1, 4) ∧
    cosine_division sample_reader.kgram_hash stale_reader.kgram_hash = some (1, 2, 3) :=
  divisions_of_built HASH_TABLE_SIZE HASH_TABLE_SIZE (by decide) (by decide)
    ["a", "b", "a", "b"] ["a", "c", "d"] 1 2 3
    (by decide) (by decide) (by decide) (by decide) (by decide) (by decide)

set_option maxRecDepth 1000000 in
theorem stale_score_binary32 :
    combined_similarity_binary32 (jaccard_quotient_binary32 1 (4 : Int).toNat)
      (cosine_quotient_binary32 1 2 3) = { mant := 10512581, exp := -25 } ∧
    float_div (float_sum [{ mant := 10512581, exp := -25 }, float_zero]) (float_of_int 2) =
      { mant := 10512581, exp := -26 } := by
  decide

/-- The floats `compare_documents` stores for `stale_checker` with `k = 5`, invalid for
all three documents: about `0.3133` from the two stale shingle sets, `0.0` for the
reference without a shingle set, and `0.15665` overall. -/
theorem stale_scores :
    (compare_documents stale_checker 5).1.similarity_scores.getD 0 float_zero =
      { mant := 10512581, exp := -25 } ∧
    (compare_documents stale_checker 5).1.similarity_scores.getD 1 float_zero =
      float_zero ∧
    (compare_documents stale_checker 5).1.overall_similarity =
      { mant := 10512581, exp := -26 } := by
  obtain ⟨f1, f2, f3, f4⟩ := stale_checker_fields
  obtain ⟨i1, i2, i3⟩ := stale_invalid
  obtain ⟨_, _, h3, h4⟩ := compare_documents_compared stale_checker 5
    checkerOk_stale sample_reader f1 (by rw [f2]; decide)
  obtain ⟨j0, c0⟩ := stale_divisions
  obtain ⟨r0, r1⟩ := stale_score_binary32
  have s0 : (compare_documents stale_checker 5).1.similarity_scores.getD 0 float_zero =
      { mant := 10512581, exp := -25 } := by
    rw [(h3 0 (by rw [f2]; decide) stale_reader f3).2, pair_score_binary32,
      ensure_kgrams_invalid _ _ i1, ensure_kgrams_invalid _ _ i2,
      jaccard_float_of_division _ _ 1 4 j0, cosine_float_of_division _ _ 1 2 3 c0, r0]
  have s1 : (compare_documents stale_checker 5).1.similarity_scores.getD 1 float_zero =
      float_zero := by
    rw [(h3 1 (by rw [f2]; decide) raw_reader f4).2, pair_score_binary32,
      ensure_kgrams_invalid _ _ i3,
      (float_scores_of_absent_set _ raw_reader.kgram_hash (Or.inr rfl)).1,
      (float_scores_of_absent_set _ raw_reader.kgram_hash (Or.inr rfl)).2]
    exact combined_binary32_zero
  refine ⟨s0, s1, ?_⟩
  have hr : List.range 2 = [0, 1] := rfl
  rw [h4, f2, hr]
  simp only [List.map_cons, List.map_nil, s0, s1]
  exact r1

/-- C15, as the claim states it, fails for the floats the C function stores: for a
target and a reference of 66 distinct tokens each, 33 of them shared, and `k = 1`, the
two shingle sets give the exact values `jaccard = 1/3`, `cosine = 1/2` and
`0.6 * jaccard + 0.4 * cosine = 0.4`, but `similarity_scores[0]` is
`13421772 / 2^25 < 0.4` and so is `overall_similarity`; the exact score belongs to the
Moderate band and the stored one to the Low band. -/
theorem compare_documents_rounds_scores :
    CheckerOk rounding_checker ∧
    rounding_checker.target_doc = some rounding_target ∧
    rounding_checker.reference_count = 1 ∧
    rounding_checker.reference_docs.getD 0 none = some rounding_reference ∧
    (∃ t2 r2,
      (compare_documents rounding_checker 1).1.target_doc = some t2 ∧
      (compare_documents rounding_checker 1).1.reference_docs.getD 0 none = some r2 ∧
      calculate_jaccard_similarity t2.kgram_hash r2.kgram_hash = 1 / 3 ∧
      calculate_cosine_similarity t2.kgram_hash r2.kgram_hash = 1 / 2 ∧
      0.6 * ((calculate_jaccard_similarity t2.kgram_hash r2.kgram_hash : ℚ) : ℝ) +
        0.4 * calculate_cosine_similarity t2.kgram_hash r2.kgram_hash = 0.4 ∧
      pair_status
        (0.6 * ((calculate_jaccard_similarity t2.kgram_hash r2.kgram_hash : ℚ) : ℝ) +
          0.4 * calculate_cosine_similarity t2.kgram_hash r2.kgram_hash) = Band.moderate) ∧
    ((compare_documents rounding_checker 1).1.similarity_scores.getD 0 float_zero).toRat =
      13421772 / 2 ^ 25 ∧
    ((compare_documents rounding_checker 1).1.similarity_scores.getD 0 float_zero).toRat <
      4 / 10 ∧
    (compare_documents rounding_checker 1).1.overall_similarity.toRat = 13421772 / 2 ^ 25 ∧
    (compare_documents rounding_checker 1).1.overall_similarity.toRat < 4 / 10 ∧
    pair_status_binary32
      ((compare_documents rounding_checker 1).1.similarity_scores.getD 0 float_zero) =
      Band.low := by
  obtain ⟨f1, f2, f3⟩ := rounding_checker_fields
  obtain ⟨_, h2, h3, h4⟩ := compare_documents_compared rounding_checker 1
    checkerOk_rounding rounding_target f1 (by rw [f2]; decide)
  obtain ⟨hj, hc⟩ := rounding_divisions
  obtain ⟨r1, r2, r3, r4, _⟩ := rounding_score_binary32
  have hs : (compare_documents rounding_checker 1).1.similarity_scores.getD 0 float_zero =
      { mant := 13421772, exp := -25 } := by
    rw [(h3 0 (by rw [f2]; decide) rounding_reference f3).2, pair_score_binary32,
      jaccard_float_of_division _ _ 33 99 hj, cosine_float_of_division _ _ 33 66 66 hc,
      r1, r2, r3]
  have ho : (compare_documents rounding_checker 1).1.overall_similarity =
      { mant := 13421772, exp := -25 } := by
    have hr : List.range 1 = [0] := rfl
    rw [h4, f2, hr]
    simp only [List.map_cons, List.map_nil, hs]
    exact r4
  have hJ : calculate_jaccard_similarity (ensure_kgrams rounding_target 1).kgram_hash
      (ensure_kgrams rounding_reference 1).kgram_hash = 1 / 3 := by
    rw [jaccard_of_division _ _ 33 99 hj]
    norm_num
  have hC : calculate_cosine_similarity (ensure_kgrams rounding_target 1).kgram_hash
      (ensure_kgrams rounding_reference 1).kgram_hash = 1 / 2 := by
    rw [cosine_of_division _ _ 33 66 66 hc, Real.mul_self_sqrt (by norm_num)]
    norm_num
  have hE : 0.6 * ((calculate_jaccard_similarity (ensure_kgrams rounding_target 1).kgram_hash
        (ensure_kgrams rounding_reference 1).kgram_hash : ℚ) : ℝ) +
      0.4 * calculate_cosine_similarity (ensure_kgrams rounding_target 1).kgram_hash
        (ensure_kgrams rounding_reference 1).kgram_hash = 0.4 := by
    rw [hJ, hC]
    norm_num
  refine ⟨checkerOk_rounding, f1, f2, f3,
    ⟨ensure_kgrams rounding_target 1, ensure_kgrams rounding_reference 1, h2,
      (h3 0 (by rw [f2]; decide) rounding_reference f3).1, hJ, hC, hE, ?_⟩,
    ?_, ?_, ?_, ?_, ?_⟩
  · rw [hE]
    unfold pair_status
    norm_num
  · rw [hs]
    simp only [BinFloat.toRat]
    norm_num
  · rw [hs]
    simp only [BinFloat.toRat]
    norm_num
  · rw [ho]
    simp only [BinFloat.toRat]
    norm_num
  · rw [ho]
    simp only [BinFloat.toRat]
    norm_num
  · rw [hs]
    exact rounding_status_binary32

/-- C15, amended: for a checker with a target and `n ≥ 1` references, after
`compare_documents` every `similarity_scores[i]`, `i < n`, is the `float` that
`(jaccard_sim * 0.6) + (cosine_sim * 0.4)` gives on the `float` results of the two
similarity functions for the shingle sets the target and reference `i` then hold (the
products and the sum in `double`, the sum rounded to `float`), and `overall_similarity`
is the `float` sum of `similarity_scores[0..n-1]`, added in index order to `0.0`, divided
in `float` by `reference_count`. When the documents hold built shingle sets, every
stored score is within `2^-21` of the exact `0.6 * jaccard + 0.4 * cosine`, and with at
most `MAX_REFERENCE_PAPERS` references the stored overall similarity is within `2^-19`
of the arithmetic mean of the exact scores. -/
theorem compare_documents_scores (c : PlagiarismChecker) (k : Int) (ok : CheckerOk c)
    (t : DocumentReader) (ht : c.target_doc = some t) (hn : 1 ≤ c.reference_count) :
    (∀ i, i < c.reference_count → ∃ t2 r2,
      (compare_documents c k).1.target_doc = some t2 ∧
      (compare_documents c k).1.reference_docs.getD i none = some r2 ∧
      (compare_documents c k).1.similarity_scores.getD i float_zero =
        float_of_double
          (double_add
            (double_mul (calculate_jaccard_similarity_float t2.kgram_hash r2.kgram_hash)
              (double_const 6 10))
            (double_mul (calculate_cosine_similarity_float t2.kgram_hash r2.kgram_hash)
              (double_const 4 10)))) ∧
    (compare_documents c k).1.overall_similarity =
      float_div
        (((List.range c.reference_count).map
          (fun i => (compare_documents c k).1.similarity_scores.getD i float_zero)).foldl
            float_add float_zero)
        (float_of_int c.reference_count) ∧
    (Built t.kgram_hash →
      (∀ i, i < c.reference_count → ∀ d, c.reference_docs.getD i none = some d →
        Built d.kgram_hash) →
      (∀ i, i < c.reference_count →
        |((((compare_documents c k).1.similarity_scores.getD i float_zero).toRat : ℚ) : ℝ) -
          exact_score (compare_documents c k).1.target_doc
            ((compare_documents c k).1.reference_docs.getD i none)| ≤ 1 / 2 ^ 21) ∧
      (c.reference_count ≤ MAX_REFERENCE_PAPERS →
        |(((compare_documents c k).1.overall_similarity.toRat : ℚ) : ℝ) -
          exact_mean (compare_documents c k).1| ≤ 1 / 2 ^ 19)) := by
  obtain ⟨_, h2, h3, h4⟩ := compare_documents_compared c k ok t ht (by omega)
  refine ⟨?_, h4, fun hbt hbd => stored_scores_error c k t ok ht hn hbt hbd⟩
  intro i hi
  obtain ⟨d, hd⟩ := ok.non_null i hi
  obtain ⟨h5, h6⟩ := h3 i hi d hd
  exact ⟨ensure_kgrams t k, ensure_kgrams d k, h2, h5, h6⟩

theorem compare_documents_scores_witness :
    CheckerOk two_reference_checker ∧ two_reference_checker.target_doc = some fox_reader ∧
    1 ≤ two_reference_checker.reference_count ∧
    ((compare_documents two_reference_checker 2).1.similarity_scores.getD 0 float_zero =
        { mant := 15802128, exp := -25 } ∧
      (compare_documents two_reference_checker 2).1.similarity_scores.getD 1 float_zero =
        { mant := 14459951, exp := -26 } ∧
      (compare_documents two_reference_checker 2).1.overall_similarity =
        { mant := 11516052, exp := -25 }) ∧
    (∀ i, i < two_reference_checker.reference_count → ∃ t2 r2,
      (compare_documents two_reference_checker 2).1.target_doc = some t2 ∧
      (compare_documents two_reference_checker 2).1.reference_docs.getD i none = some r2 ∧
      (compare_documents two_reference_checker 2).1.similarity_scores.getD i float_zero =
        float_of_double
          (double_add
            (double_mul (calculate_jaccard_similarity_float t2.kgram_hash r2.kgram_hash)
              (double_const 6 10))
            (double_mul (calculate_cosine_similarity_float t2.kgram_hash r2.kgram_hash)
              (double_const 4 10)))) ∧
    (compare_documents two_reference_checker 2).1.overall_similarity =
      float_div
        (((List.range two_reference_checker.reference_count).map
          (fun i => (compare_documents two_reference_checker 2).1.similarity_scores.getD i
            float_zero)).foldl float_add float_zero)
        (float_of_int two_reference_checker.reference_count) ∧
    (Built fox_reader.kgram_hash →
      (∀ i, i < two_reference_checker.reference_count → ∀ d, two_reference_checker.reference_docs.getD i none = some d →
        Built d.kgram_hash) →
      (∀ i, i < two_reference_checker.reference_count →
        |((((compare_documents two_reference_checker 2).1.similarity_scores.getD i float_zero).toRat : ℚ) : ℝ) -
          exact_score (compare_documents two_reference_checker 2).1.target_doc
            ((compare_documents two_reference_checker 2).1.reference_docs.getD i none)| ≤ 1 / 2 ^ 21) ∧
      (two_reference_checker.reference_count ≤ MAX_REFERENCE_PAPERS →
        |(((compare_documents two_reference_checker 2).1.overall_similarity.toRat : ℚ) : ℝ) -
          exact_mean (compare_documents two_reference_checker 2).1| ≤ 1 / 2 ^ 19)) :=
  ⟨checkerOk_two_reference, two_reference_checker_fields.1,
    by rw [two_reference_checker_fields.2.1]; decide, two_reference_scores,
    compare_documents_scores two_reference_checker 2 checkerOk_two_reference fox_reader
      two_reference_checker_fields.1 (by rw [two_reference_checker_fields.2.1]; decide)⟩

/-- C16: with no target document or with zero reference documents `compare_documents`
returns on one of its two error paths and the checker is left as it was: every score,
the overall similarity and every document (so every shingle set) are unchanged, and the
division by `reference_count` is not reached. -/
theorem compare_documents_no_input (c : PlagiarismChecker) (k : Int)
    (h : c.target_doc = none ∨ c.reference_count = 0) :
    (compare_documents c k).1 = c ∧
    (compare_documents c k).2 ≠ CompareOutcome.compared ∧
    (c.target_doc = none → (compare_documents c k).2 = CompareOutcome.no_target) ∧
    (c.target_doc ≠ none → (compare_documents c k).2 = CompareOutcome.no_references) := by
  cases ht : c.target_doc with
  | none => simp [compare_documents, ht]
  | some t =>
    have hn : c.reference_count = 0 := by
      rcases h with h | h
      · rw [ht] at h; cases h
      · exact h
    simp [compare_documents, ht, hn]

theorem compare_documents_no_input_witness :
    (create_plagiarism_checker.target_doc = none ∨
      create_plagiarism_checker.reference_count = 0) ∧
    (compare_documents create_plagiarism_checker 3).1 = create_plagiarism_checker ∧
    (compare_documents create_plagiarism_checker 3).2 ≠ CompareOutcome.compared ∧
    (create_plagiarism_checker.target_doc = none →
      (compare_documents create_plagiarism_checker 3).2 = CompareOutcome.no_target) ∧
    (create_plagiarism_checker.target_doc ≠ none →
      (compare_documents create_plagiarism_checker 3).2 = CompareOutcome.no_references) :=
  ⟨Or.inl rfl, compare_documents_no_input create_plagiarism_checker 3 (Or.inl rfl)⟩

/-- C17, as the claim states it, fails: with `k = 10` on documents of 4 tokens
`generate_kgrams` takes its invalid-k return, yet `compare_documents` ends normally and
writes a pairwise score and an overall similarity (here both the float 1, computed from
the shingle sets the documents still hold from an earlier pass with `k = 1`). -/
theorem compare_documents_ignores_invalid_k :
    CheckerOk sample_checker ∧
    sample_checker.target_doc = some sample_reader ∧
    sample_checker.reference_count = 1 ∧
    sample_checker.reference_docs.getD 0 none = some sample_reader ∧
    invalid_k sample_reader 10 ∧
    (generate_kgrams sample_reader 10).2 = KGramOutcome.invalid_k ∧
    (compare_documents sample_checker 10).2 = CompareOutcome.compared ∧
    sample_checker.similarity_scores.getD 0 float_zero = float_zero ∧
    ((compare_documents sample_checker 10).1.similarity_scores.getD 0 float_zero).toRat = 1 ∧
    (compare_documents sample_checker 10).1.overall_similarity.toRat = 1 := by
  obtain ⟨f1, f2, f3, f4, _⟩ := sample_checker_fields
  obtain ⟨h1, _, h3, h4⟩ := compare_documents_compared sample_checker 10 checkerOk_sample
    sample_reader f1 (by rw [f2]; decide)
  have hs : (compare_documents sample_checker 10).1.similarity_scores.getD 0 float_zero =
      { mant := 8388608, exp := -23 } := by
    rw [(h3 0 (by rw [f2]; decide) sample_reader f3).2,
      ensure_kgrams_invalid _ _ sample_reader_invalid]
    exact sample_pair_score_binary32
  have ho : (compare_documents sample_checker 10).1.overall_similarity =
      { mant := 8388608, exp := -23 } := by
    have hr : List.range 1 = [0] := rfl
    rw [h4, f2, hr]
    simp only [List.map_cons, List.map_nil, hs]
    exact two_key_score_binary32.2
  refine ⟨checkerOk_sample, f1, f2, f3, sample_reader_invalid, ?_, h1, f4, ?_, ?_⟩
  · rw [generate_kgrams_invalid _ _ sample_reader_invalid]
  · rw [hs]
    simp only [BinFloat.toRat]
    norm_num
  · rw [ho]
    simp only [BinFloat.toRat]
    norm_num

/-- C17, amended: for a checker with a target and at least one reference, and any `k`,
`compare_documents` ends normally. A document for which `k` is invalid makes
`generate_kgrams` take its invalid-k return and is left unchanged, but the run goes
on: every `similarity_scores[i]` is written as the `float` value of
`(jaccard_sim * 0.6) + (cosine_sim * 0.4)` for the shingle sets the documents hold
(`0.0` when one of them holds none), and the overall similarity is the `float` sum of
the scores divided by `reference_count`. -/
theorem compare_documents_invalid_k (c : PlagiarismChecker) (k : Int) (ok : CheckerOk c)
    (t : DocumentReader) (ht : c.target_doc = some t) (hn : 1 ≤ c.reference_count) :
    (compare_documents c k).2 = CompareOutcome.compared ∧
    (invalid_k t k → (generate_kgrams t k).2 = KGramOutcome.invalid_k ∧
      (compare_documents c k).1.target_doc = some t) ∧
    (∀ i, i < c.reference_count → ∀ d, c.reference_docs.getD i none = some d →
      invalid_k d k → (generate_kgrams d k).2 = KGramOutcome.invalid_k ∧
        (compare_documents c k).1.reference_docs.getD i none = some d) ∧
    (∀ i, i < c.reference_count → ∃ t2 r2,
      (compare_documents c k).1.target_doc = some t2 ∧
      (compare_documents c k).1.reference_docs.getD i none = some r2 ∧
      (compare_documents c k).1.similarity_scores.getD i float_zero =
        combined_similarity_binary32
          (calculate_jaccard_similarity_float t2.kgram_hash r2.kgram_hash)
          (calculate_cosine_similarity_float t2.kgram_hash r2.kgram_hash) ∧
      ((t2.kgram_hash = none ∨ r2.kgram_hash = none) →
        (compare_documents c k).1.similarity_scores.getD i float_zero = float_zero)) ∧
    (compare_documents c k).1.overall_similarity =
      float_div
        (float_sum ((List.range c.reference_count).map
          (fun i => (compare_documents c k).1.similarity_scores.getD i float_zero)))
        (float_of_int c.reference_count) := by
  obtain ⟨h1, h2, h3, h4⟩ := compare_documents_compared c k ok t ht (by omega)
  refine ⟨h1, ?_, ?_, ?_, h4⟩
  · intro hinv
    refine ⟨by rw [generate_kgrams_invalid t k hinv], ?_⟩
    rw [h2, ensure_kgrams_invalid t k hinv]
  · intro i hi d hd hinv
    refine ⟨by rw [generate_kgrams_invalid d k hinv], ?_⟩
    rw [(h3 i hi d hd).1, ensure_kgrams_invalid d k hinv]
  · intro i hi
    obtain ⟨d, hd⟩ := ok.non_null i hi
    obtain ⟨h5, h6⟩ := h3 i hi d hd
    refine ⟨ensure_kgrams t k, ensure_kgrams d k, h2, h5, h6, ?_⟩
    intro hnone
    obtain ⟨hj, hc⟩ := float_scores_of_absent_set _ _ hnone
    rw [h6, pair_score_binary32, hj, hc]
    exact combined_binary32_zero

theorem compare_documents_invalid_k_witness :
    CheckerOk stale_checker ∧ stale_checker.target_doc = some sample_reader ∧
    1 ≤ stale_checker.reference_count ∧
    (invalid_k sample_reader 5 ∧ invalid_k stale_reader 5 ∧ invalid_k raw_reader 5) ∧
    ((compare_documents stale_checker 5).1.similarity_scores.getD 0 float_zero =
        { mant := 10512581, exp := -25 } ∧
      (compare_documents stale_checker 5).1.similarity_scores.getD 1 float_zero =
        float_zero ∧
      (compare_documents stale_checker 5).1.overall_similarity =
        { mant := 10512581, exp := -26 }) ∧
    (compare_documents stale_checker 5).2 = CompareOutcome.compared ∧
    (invalid_k sample_reader 5 →
      (generate_kgrams sample_reader 5).2 = KGramOutcome.invalid_k ∧
      (compare_documents stale_checker 5).1.target_doc = some sample_reader) ∧
    (∀ i, i < stale_checker.reference_count → ∀ d,
      stale_checker.reference_docs.getD i none = some d →
      invalid_k d 5 → (generate_kgrams d 5).2 = KGramOutcome.invalid_k ∧
        (compare_documents stale_checker 5).1.reference_docs.getD i none = some d) ∧
    (∀ i, i < stale_checker.reference_count → ∃ t2 r2,
      (compare_documents stale_checker 5).1.target_doc = some t2 ∧
      (compare_documents stale_checker 5).1.reference_docs.getD i none = some r2 ∧
      (compare_documents stale_checker 5).1.similarity_scores.getD i float_zero =
        combined_similarity_binary32
          (calculate_jaccard_similarity_float t2.kgram_hash r2.kgram_hash)
          (calculate_cosine_similarity_float t2.kgram_hash r2.kgram_hash) ∧
      ((t2.kgram_hash = none ∨ r2.kgram_hash = none) →
        (compare_documents stale_checker 5).1.similarity_scores.getD i float_zero =
          float_zero)) ∧
    (compare_documents stale_checker 5).1.overall_similarity =
      float_div
        (float_sum ((List.range stale_checker.reference_count).map
          (fun i => (compare_documents stale_checker 5).1.similarity_scores.getD i
            float_zero)))
        (float_of_int stale_checker.reference_count) :=
  ⟨checkerOk_stale, stale_checker_fields.1,
    by rw [stale_checker_fields.2.1]; decide, stale_invalid, stale_scores,
    compare_documents_invalid_k stale_checker 5 checkerOk_stale sample_reader
      stale_checker_fields.1 (by rw [stale_checker_fields.2.1]; decide)⟩

/-! ## Scenarios -/

theorem fox_windows :
    windows fox_reader.token_list.tokens 3 =
      ["the quick brown", "quick brown fox", "brown fox the", "fox the quick",
       "the quick brown", "quick brown fox"] := by
  decide

/-- C18: for the tokens `the quick brown fox the quick brown fox` and `k = 3`,
`generate_kgrams` stores the six k-grams in window order, the hash table has 4 distinct
keys, `the quick brown` and `quick brown fox` have count 2, and `brown fox the` and
`fox the quick` have count 1. -/
theorem generate_kgrams_fox_scenario :
    (generate_kgrams fox_reader 3).2 = KGramOutcome.generated ∧
    (generate_kgrams fox_reader 3).1.kgram_list.kgrams =
      ["the quick brown", "quick brown fox", "brown fox the", "fox the quick",
       "the quick brown", "quick brown fox"] ∧
    (generate_kgrams fox_reader 3).1.kgram_list.count = 6 ∧
    ∃ ht, (generate_kgrams fox_reader 3).1.kgram_hash = some ht ∧
      ht.count = 4 ∧
      (hash_table_nodes ht).filter (fun n => n.kgram = "the quick brown") =
        [{ kgram := "the quick brown", count := 2 }] ∧
      (hash_table_nodes ht).filter (fun n => n.kgram = "quick brown fox") =
        [{ kgram := "quick brown fox", count := 2 }] ∧
      (hash_table_nodes ht).filter (fun n => n.kgram = "brown fox the") =
        [{ kgram := "brown fox the", count := 1 }] ∧
      (hash_table_nodes ht).filter (fun n => n.kgram = "fox the quick") =
        [{ kgram := "fox the quick", count := 1 }] := by
  have hv := generate_kgrams_valid fox_reader 3 (by decide) (by decide)
  have e3 : (3 : Int).toNat = 3 := rfl
  rw [e3, fox_windows] at hv
  rw [hv]
  refine ⟨rfl, rfl, by decide, _, rfl, ?_⟩
  have H := holds_build HASH_TABLE_SIZE (by decide)
    ["the quick brown", "quick brown fox", "brown fox the", "fox the quick",
     "the quick brown", "quick brown fox"]
  refine ⟨?_, ?_, ?_, ?_, ?_⟩
  · rw [holds_count _ _ H]; decide
  · rw [holds_filter_key _ _ H]; decide
  · rw [holds_filter_key _ _ H]; decide
  · rw [holds_filter_key _ _ H]; decide
  · rw [holds_filter_key _ _ H]; decide

theorem scenario_counts :
    hash_table_intersection_count (some scenario_target) (some scenario_reference) = 1 ∧
    scenario_target.count = 2 ∧ scenario_reference.count = 2 := by
  have HT := holds_build HASH_TABLE_SIZE (by decide) ["a b c", "b c d"]
  have HR := holds_build HASH_TABLE_SIZE (by decide) ["a b c", "x y z"]
  refine ⟨?_, ?_, ?_⟩
  · unfold scenario_target scenario_reference
    rw [intersection_count_eq_card _ _ HT.wf HR.wf, holds_keys_toFinset _ _ HT,
      holds_keys_toFinset _ _ HR]
    decide
  · unfold scenario_target
    rw [holds_count _ _ HT]; decide
  · unfold scenario_reference
    rw [holds_count _ _ HR]; decide

theorem scenario_divisions :
    jaccard_division (some scenario_target) (some scenario_reference) = some (1, 3) ∧
    cosine_division (some scenario_target) (some scenario_reference) = some (1, 2, 2) := by
  obtain ⟨h1, h2, h3⟩ := scenario_counts
  constructor
  · simp only [jaccard_division, hash_table_union_count, h1, h2, h3]
    decide
  · simp only [cosine_division, h1, h2, h3]
    decide

set_option maxRecDepth 1000000 in
theorem scenario_score_binary32 :
    jaccard_quotient_binary32 1 3 = { mant := 11184811, exp := -25 } ∧
    cosine_quotient_binary32 1 2 2 = { mant := 8388609, exp := -24 } ∧
    combined_similarity_binary32 { mant := 11184811, exp := -25 }
      { mant := 8388609, exp := -24 } = { mant := 13421774, exp := -25 } ∧
    double_const 7 10 = { mant := 6305039478318694, exp := -53 } ∧
    double_const 4 10 = { mant := 7205759403792794, exp := -54 } := by
  decide

theorem scenario_status_binary32 :
    pair_status_binary32
      (combined_similarity_binary32 (jaccard_quotient_binary32 1 3)
        (cosine_quotient_binary32 1 2 2)) = Band.moderate := by
  obtain ⟨h1, h2, h3, h4, h5⟩ := scenario_score_binary32
  rw [h1, h2, h3]
  unfold pair_status_binary32
  rw [h4, h5]
  have hlt : ¬ ((13421774 : ℚ) * 2 ^ (-25 : Int) ≥ 6305039478318694 * 2 ^ (-53 : Int)) := by
    norm_num
  have hge : (13421774 : ℚ) * 2 ^ (-25 : Int) ≥ 7205759403792794 * 2 ^ (-54 : Int) := by
    norm_num
  simp only [BinFloat.toRat]
  norm_num

/-- C19: for the target set `{a b c, b c d}` and the reference set `{a b c, x y z}`
the intersection count is 1, the union count 3, the exact Jaccard value 1/3, the exact
cosine value 1/2, the combined score 0.4, and its pair-level status is Moderate (0.4
belongs to the Moderate band); the status of the float score the C code stores is
Moderate as well. -/
theorem two_set_scenario :
    hash_table_intersection_count (some scenario_target) (some scenario_reference) = 1 ∧
    hash_table_union_count (some scenario_target) (some scenario_reference) = 3 ∧
    calculate_jaccard_similarity (some scenario_target) (some scenario_reference) = 1 / 3 ∧
    calculate_cosine_similarity (some scenario_target) (some scenario_reference) =
      1 / (Real.sqrt 2 * Real.sqrt 2) ∧
    calculate_cosine_similarity (some scenario_target) (some scenario_reference) = 0.5 ∧
    combined_similarity
      ((calculate_jaccard_similarity (some scenario_target) (some scenario_reference) : ℚ) : ℝ)
      (calculate_cosine_similarity (some scenario_target) (some scenario_reference)) = 0.4 ∧
    pair_status (combined_similarity
      ((calculate_jaccard_similarity (some scenario_target) (some scenario_reference) : ℚ) : ℝ)
      (calculate_cosine_similarity (some scenario_target) (some scenario_reference))) =
      Band.moderate ∧
    jaccard_division (some scenario_target) (some scenario_reference) = some (1, 3) ∧
    cosine_division (some scenario_target) (some scenario_reference) = some (1, 2, 2) ∧
    pair_status_binary32
      (combined_similarity_binary32 (jaccard_quotient_binary32 1 3)
        (cosine_quotient_binary32 1 2 2)) = Band.moderate := by
  obtain ⟨h1, h2, h3⟩ := scenario_counts
  obtain ⟨hj, hc⟩ := scenario_divisions
  have hJ : calculate_jaccard_similarity (some scenario_target) (some scenario_reference)
      = 1 / 3 := by
    rw [jaccard_of_division _ _ 1 3 hj]
    norm_num
  have hC : calculate_cosine_similarity (some scenario_target) (some scenario_reference) =
      1 / (Real.sqrt 2 * Real.sqrt 2) := by
    rw [cosine_of_division _ _ 1 2 2 hc]
    norm_num
  have hC2 : calculate_cosine_similarity (some scenario_target) (some scenario_reference) =
      0.5 := by
    rw [hC, Real.mul_self_sqrt (by norm_num)]
    norm_num
  have hS : combined_similarity
      ((calculate_jaccard_similarity (some scenario_target) (some scenario_reference) : ℚ) : ℝ)
      (calculate_cosine_similarity (some scenario_target) (some scenario_reference)) = 0.4 := by
    rw [hJ, hC2, combined_similarity]
    norm_num
  refine ⟨h1, ?_, hJ, hC, hC2, hS, ?_, hj, hc, scenario_status_binary32⟩
  · simp only [hash_table_union_count, h1, h2, h3]
    decide
  · rw [hS]
    unfold pair_status
    norm_num

/-- C20: the pair-level status of a score `s` is High exactly when `s ≥ 0.7`, Moderate
exactly when `0.4 ≤ s < 0.7`, Low exactly when `0.1 ≤ s < 0.4` and Minimal exactly when
`s < 0.1`; one of the four cases always holds, and a larger score never gets a lower
band. -/
theorem pair_status_bands (s : ℝ) :
    (pair_status s = Band.high ↔ s ≥ 0.7) ∧
    (pair_status s = Band.moderate ↔ 0.4 ≤ s ∧ s < 0.7) ∧
    (pair_status s = Band.low ↔ 0.1 ≤ s ∧ s < 0.4) ∧
    (pair_status s = Band.minimal ↔ s < 0.1) ∧
    (s ≥ 0.7 ∨ (0.4 ≤ s ∧ s < 0.7) ∨ (0.1 ≤ s ∧ s < 0.4) ∨ s < 0.1) ∧
    ∀ t : ℝ, s ≤ t → (pair_status s).rank ≤ (pair_status t).rank := by
  have e7 : (0.7 : ℝ) = 7 / 10 := by norm_num
  have e4 : (0.4 : ℝ) = 4 / 10 := by norm_num
  have e1 : (0.1 : ℝ) = 1 / 10 := by norm_num
  rw [e7, e4, e1]
  have key : (s ≥ 7 / 10 ∧ pair_status s = Band.high) ∨
      (4 / 10 ≤ s ∧ s < 7 / 10 ∧ pair_status s = Band.moderate) ∨
      (1 / 10 ≤ s ∧ s < 4 / 10 ∧ pair_status s = Band.low) ∨
      (s < 1 / 10 ∧ pair_status s = Band.minimal) := by
    unfold pair_status
    by_cases h1 : s ≥ 7 / 10
    · exact Or.inl ⟨h1, by rw [if_pos h1]⟩
    · by_cases h2 : s ≥ 4 / 10
      · exact Or.inr (Or.inl ⟨h2, lt_of_not_ge h1, by rw [if_neg h1, if_pos h2]⟩)
      · by_cases h3 : s ≥ 1 / 10
        · exact Or.inr (Or.inr (Or.inl
            ⟨h3, lt_of_not_ge h2, by rw [if_neg h1, if_neg h2, if_pos h3]⟩))
        · exact Or.inr (Or.inr (Or.inr
            ⟨lt_of_not_ge h3, by rw [if_neg h1, if_neg h2, if_neg h3]⟩))
  refine ⟨?_, ?_, ?_, ?_, ?_, ?_⟩
  · rcases key with ⟨h, e⟩ | ⟨h, h2, e⟩ | ⟨h, h2, e⟩ | ⟨h, e⟩ <;> rw [e] <;>
      constructor <;> intro x <;>
      first | rfl | exact h | exact ⟨h, h2⟩ | (exfalso; linarith) |
        cases x
  · rcases key with ⟨h, e⟩ | ⟨h, h2, e⟩ | ⟨h, h2, e⟩ | ⟨h, e⟩ <;> rw [e] <;>
      constructor <;> intro x <;>
      first | rfl | exact h | exact ⟨h, h2⟩ | (exfalso; linarith) |
        cases x
  · rcases key with ⟨h, e⟩ | ⟨h, h2, e⟩ | ⟨h, h2, e⟩ | ⟨h, e⟩ <;> rw [e] <;>
      constructor <;> intro x <;>
      first | rfl | exact h | exact ⟨h, h2⟩ | (exfalso; linarith) |
        cases x
  · rcases key with ⟨h, e⟩ | ⟨h, h2, e⟩ | ⟨h, h2, e⟩ | ⟨h, e⟩ <;> rw [e] <;>
      constructor <;> intro x <;>
      first | rfl | exact h | exact ⟨h, h2⟩ | (exfalso; linarith) |
        cases x
  · rcases key with ⟨h, _⟩ | ⟨h, h2, _⟩ | ⟨h, h2, _⟩ | ⟨h, _⟩
    · exact Or.inl h
    · exact Or.inr (Or.inl ⟨h, h2⟩)
    · exact Or.inr (Or.inr (Or.inl ⟨h, h2⟩))
    · exact Or.inr (Or.inr (Or.inr h))
  · intro t hst
    unfold pair_status
    split_ifs <;> simp only [Band.rank, le_refl, Nat.zero_le, Nat.one_le_ofNat,
      Nat.reduceLeDiff] <;> linarith

theorem pair_status_bands_witness :
    (pair_status (0.4 : ℝ) = Band.high ↔ (0.4 : ℝ) ≥ 0.7) ∧
    (pair_status (0.4 : ℝ) = Band.moderate ↔ 0.4 ≤ (0.4 : ℝ) ∧ (0.4 : ℝ) < 0.7) ∧
    (pair_status (0.4 : ℝ) = Band.low ↔ 0.1 ≤ (0.4 : ℝ) ∧ (0.4 : ℝ) < 0.4) ∧
    (pair_status (0.4 : ℝ) = Band.minimal ↔ (0.4 : ℝ) < 0.1) ∧
    ((0.4 : ℝ) ≥ 0.7 ∨ (0.4 ≤ (0.4 : ℝ) ∧ (0.4 : ℝ) < 0.7) ∨
      (0.1 ≤ (0.4 : ℝ) ∧ (0.4 : ℝ) < 0.4) ∨ (0.4 : ℝ) < 0.1) ∧
    ∀ t : ℝ, (0.4 : ℝ) ≤ t → (pair_status (0.4 : ℝ)).rank ≤ (pair_status t).rank :=
  pair_status_bands 0.4

/-! ## Status bands -/

theorem pair_status_cases (s : ℝ) :
    (s ≥ 7 / 10 ∧ pair_status s = Band.high) ∨
    (4 / 10 ≤ s ∧ s < 7 / 10 ∧ pair_status s = Band.moderate) ∨
    (1 / 10 ≤ s ∧ s < 4 / 10 ∧ pair_status s = Band.low) ∨
    (s < 1 / 10 ∧ pair_status s = Band.minimal) := by
  unfold pair_status
  by_cases h1 : s ≥ 7 / 10
  · exact Or.inl ⟨h1, by rw [if_pos h1]⟩
  · by_cases h2 : s ≥ 4 / 10
    · exact Or.inr (Or.inl ⟨h2, lt_of_not_ge h1, by rw [if_neg h1, if_pos h2]⟩)
    · by_cases h3 : s ≥ 1 / 10
      · exact Or.inr (Or.inr (Or.inl
          ⟨h3, lt_of_not_ge h2, by rw [if_neg h1, if_neg h2, if_pos h3]⟩))
      · exact Or.inr (Or.inr (Or.inr
          ⟨lt_of_not_ge h3, by rw [if_neg h1, if_neg h2, if_neg h3]⟩))

theorem overall_verdict_cases (s : ℝ) :
    (s ≥ 6 / 10 ∧ overall_verdict s = Band.high) ∨
    (3 / 10 ≤ s ∧ s < 6 / 10 ∧ overall_verdict s = Band.moderate) ∨
    (1 / 10 ≤ s ∧ s < 3 / 10 ∧ overall_verdict s = Band.low) ∨
    (s < 1 / 10 ∧ overall_verdict s = Band.minimal) := by
  unfold overall_verdict
  by_cases h1 : s ≥ 6 / 10
  · exact Or.inl ⟨h1, by rw [if_pos h1]⟩
  · by_cases h2 : s ≥ 3 / 10
    · exact Or.inr (Or.inl ⟨h2, lt_of_not_ge h1, by rw [if_neg h1, if_pos h2]⟩)
    · by_cases h3 : s ≥ 1 / 10
      · exact Or.inr (Or.inr (Or.inl
          ⟨h3, lt_of_not_ge h2, by rw [if_neg h1, if_neg h2, if_pos h3]⟩))
      · exact Or.inr (Or.inr (Or.inr
          ⟨lt_of_not_ge h3, by rw [if_neg h1, if_neg h2, if_neg h3]⟩))

/-- C21: the overall verdict of a score `s` is High exactly when `s ≥ 0.6`, Moderate
exactly when `0.3 ≤ s < 0.6`, Low exactly when `0.1 ≤ s < 0.3`, Minimal exactly when
`s < 0.1`. For `0.6 ≤ s < 0.7` and for `0.3 ≤ s < 0.4` the overall band is strictly
above the pair-level band of the same value; for every other `s` the two are equal. -/
theorem overall_verdict_bands (s : ℝ) :
    (overall_verdict s = Band.high ↔ s ≥ 0.6) ∧
    (overall_verdict s = Band.moderate ↔ 0.3 ≤ s ∧ s < 0.6) ∧
    (overall_verdict s = Band.low ↔ 0.1 ≤ s ∧ s < 0.3) ∧
    (overall_verdict s = Band.minimal ↔ s < 0.1) ∧
    (((0.6 ≤ s ∧ s < 0.7) ∨ (0.3 ≤ s ∧ s < 0.4)) →
      (pair_status s).rank < (overall_verdict s).rank) ∧
    (¬ ((0.6 ≤ s ∧ s < 0.7) ∨ (0.3 ≤ s ∧ s < 0.4)) →
      overall_verdict s = pair_status s) := by
  have e7 : (0.7 : ℝ) = 7 / 10 := by norm_num
  have e6 : (0.6 : ℝ) = 6 / 10 := by norm_num
  have e4 : (0.4 : ℝ) = 4 / 10 := by norm_num
  have e3 : (0.3 : ℝ) = 3 / 10 := by norm_num
  have e1 : (0.1 : ℝ) = 1 / 10 := by norm_num
  rw [e7, e6, e4, e3, e1]
  have key := overall_verdict_cases s
  have keyp := pair_status_cases s
  refine ⟨?_, ?_, ?_, ?_, ?_, ?_⟩
  · rcases key with ⟨h, e⟩ | ⟨h, h2, e⟩ | ⟨h, h2, e⟩ | ⟨h, e⟩ <;> rw [e] <;>
      constructor <;> intro x <;>
      first | rfl | exact h | exact ⟨h, h2⟩ | (exfalso; linarith) |
        cases x
  · rcases key with ⟨h, e⟩ | ⟨h, h2, e⟩ | ⟨h, h2, e⟩ | ⟨h, e⟩ <;> rw [e] <;>
      constructor <;> intro x <;>
      first | rfl | exact h | exact ⟨h, h2⟩ | (exfalso; linarith) |
        cases x
  · rcases key with ⟨h, e⟩ | ⟨h, h2, e⟩ | ⟨h, h2, e⟩ | ⟨h, e⟩ <;> rw [e] <;>
      constructor <;> intro x <;>
      first | rfl | exact h | exact ⟨h, h2⟩ | (exfalso; linarith) |
        cases x
  · rcases key with ⟨h, e⟩ | ⟨h, h2, e⟩ | ⟨h, h2, e⟩ | ⟨h, e⟩ <;> rw [e] <;>
      constructor <;> intro x <;>
      first | rfl | exact h | exact ⟨h, h2⟩ | (exfalso; linarith) |
        cases x
  · intro hx
    rcases key with ⟨h, e⟩ | ⟨h, h2, e⟩ | ⟨h, h2, e⟩ | ⟨h, e⟩ <;>
      rcases keyp with ⟨g, f⟩ | ⟨g, g2, f⟩ | ⟨g, g2, f⟩ | ⟨g, f⟩ <;>
      rw [e, f] <;> rcases hx with ⟨x1, x2⟩ | ⟨x1, x2⟩ <;>
      first | (exfalso; linarith) | decide
  · intro hx
    rw [not_or, not_and, not_and] at hx
    rcases key with ⟨h, e⟩ | ⟨h, h2, e⟩ | ⟨h, h2, e⟩ | ⟨h, e⟩ <;>
      rcases keyp with ⟨g, f⟩ | ⟨g, g2, f⟩ | ⟨g, g2, f⟩ | ⟨g, f⟩ <;>
      rw [e, f] <;>
      first
        | rfl
        | (exfalso; linarith)
        | (exfalso; have := hx.1 (by linarith); linarith)
        | (exfalso; have := hx.2 (by linarith); linarith)

theorem overall_verdict_bands_witness :
    (overall_verdict (0.65 : ℝ) = Band.high ↔ (0.65 : ℝ) ≥ 0.6) ∧
    (overall_verdict (0.65 : ℝ) = Band.moderate ↔ 0.3 ≤ (0.65 : ℝ) ∧ (0.65 : ℝ) < 0.6) ∧
    (overall_verdict (0.65 : ℝ) = Band.low ↔ 0.1 ≤ (0.65 : ℝ) ∧ (0.65 : ℝ) < 0.3) ∧
    (overall_verdict (0.65 : ℝ) = Band.minimal ↔ (0.65 : ℝ) < 0.1) ∧
    (((0.6 ≤ (0.65 : ℝ) ∧ (0.65 : ℝ) < 0.7) ∨ (0.3 ≤ (0.65 : ℝ) ∧ (0.65 : ℝ) < 0.4)) →
      (pair_status (0.65 : ℝ)).rank < (overall_verdict (0.65 : ℝ)).rank) ∧
    (¬ ((0.6 ≤ (0.65 : ℝ) ∧ (0.65 : ℝ) < 0.7) ∨ (0.3 ≤ (0.65 : ℝ) ∧ (0.65 : ℝ) < 0.4)) →
      overall_verdict (0.65 : ℝ) = pair_status (0.65 : ℝ)) :=
  overall_verdict_bands 0.65

/-! ## Frame and invariant of the hash table -/

theorem hash_table_insert_size (ht : HashTable) (s : String) :
    (hash_table_insert ht s).size = ht.size := by
  cases hci : chain_increment (ht.table.getD (hash_function s ht.size) []) s with
  | some c2 => rw [insert_found ht s c2 hci]
  | none => rw [insert_new ht s hci]

theorem insert_all_size (ht : HashTable) (xs : List String) :
    (insert_all ht xs).size = ht.size := by
  induction xs generalizing ht with
  | nil => rfl
  | cons x rest ih =>
    have := ih (hash_table_insert ht x)
    simp only [insert_all, List.foldl_cons] at this ⊢
    rw [this, hash_table_insert_size]

theorem holds_contains_iff (ht : HashTable) (xs : List String) (h : Holds ht xs)
    (s : String) : hash_table_contains ht s = true ↔ s ∈ xs := by
  rw [contains_iff_mem_keys ht h.wf, holds_mem_keys_iff ht xs h]

theorem card_toFinset_snoc (xs : List String) (s : String) :
    (xs ++ [s]).toFinset.card = if s ∈ xs then xs.toFinset.card else xs.toFinset.card + 1 := by
  have e : (xs ++ [s]).toFinset = insert s xs.toFinset := by
    ext t
    simp [or_comm]
  rw [e]
  by_cases h : s ∈ xs
  · rw [if_pos h, Finset.insert_eq_of_mem (List.mem_toFinset.mpr h)]
  · rw [if_neg h, Finset.card_insert_of_not_mem (fun hm => h (List.mem_toFinset.mp hm))]

/-- C22: on a table built by insertions into a fresh table of any bucket count `≥ 1`,
`hash_table_insert(ht, s)` makes `s` present; the entry of `s` has count 1 if `s` was
absent and its previous count plus 1 otherwise; the distinct-key count grows by 1
exactly when `s` was absent; and for every other key the membership answer and the
entry are unchanged. -/
theorem hash_table_insert_frame (size : Nat) (hsize : 1 ≤ size) (xs : List String)
    (s : String) :
    hash_table_contains
      (hash_table_insert (insert_all (create_hash_table size) xs) s) s = true ∧
    (hash_table_contains (insert_all (create_hash_table size) xs) s = false →
      (hash_table_nodes (insert_all (create_hash_table size) xs)).filter
          (fun n => n.kgram = s) = [] ∧
      (hash_table_nodes
          (hash_table_insert (insert_all (create_hash_table size) xs) s)).filter
          (fun n => n.kgram = s) = [{ kgram := s, count := 1 }]) ∧
    (hash_table_contains (insert_all (create_hash_table size) xs) s = true →
      ∃ c, 1 ≤ c ∧
        (hash_table_nodes (insert_all (create_hash_table size) xs)).filter
          (fun n => n.kgram = s) = [{ kgram := s, count := c }] ∧
        (hash_table_nodes
          (hash_table_insert (insert_all (create_hash_table size) xs) s)).filter
          (fun n => n.kgram = s) = [{ kgram := s, count := c + 1 }]) ∧
    (hash_table_insert (insert_all (create_hash_table size) xs) s).count =
      (if hash_table_contains (insert_all (create_hash_table size) xs) s = true then
        (insert_all (create_hash_table size) xs).count
       else (insert_all (create_hash_table size) xs).count + 1) ∧
    ∀ t : String, t ≠ s →
      hash_table_contains
          (hash_table_insert (insert_all (create_hash_table size) xs) s) t =
        hash_table_contains (insert_all (create_hash_table size) xs) t ∧
      (hash_table_nodes
          (hash_table_insert (insert_all (create_hash_table size) xs) s)).filter
          (fun n => n.kgram = t) =
        (hash_table_nodes (insert_all (create_hash_table size) xs)).filter
          (fun n => n.kgram = t) := by
  have H := holds_build size hsize xs
  have H2 := holds_insert _ xs H s
  generalize insert_all (create_hash_table size) xs = ht at H H2 ⊢
  have hcs : (xs ++ [s]).count s = xs.count s + 1 := by simp
  refine ⟨?_, ?_, ?_, ?_, ?_⟩
  · rw [holds_contains_iff _ _ H2]; simp
  · intro hc
    have h0 := (holds_contains_eq_false_iff ht xs H s).mp hc
    rw [holds_filter_key ht xs H, holds_filter_key _ _ H2, hcs, h0]
    simp
  · intro hc
    have hmem := (holds_contains_iff ht xs H s).mp hc
    have hpos : 0 < xs.count s := List.count_pos_iff.mpr hmem
    refine ⟨xs.count s, hpos, ?_, ?_⟩
    · rw [holds_filter_key ht xs H, if_neg (by omega)]
    · rw [holds_filter_key _ _ H2, hcs, if_neg (by omega)]
  · rw [holds_count _ _ H2, holds_count ht xs H, card_toFinset_snoc]
    simp only [holds_contains_iff ht xs H]
  · intro t hts
    have hct : (xs ++ [s]).count t = xs.count t := by
      rw [List.count_append]
      have : ¬ s = t := fun e => hts e.symm
      simp [List.count_cons, this]
    constructor
    · have h1 := holds_contains_iff _ _ H2 t
      have h2 := holds_contains_iff ht xs H t
      have h3 : t ∈ xs ++ [s] ↔ t ∈ xs := by simp [hts]
      cases ha : hash_table_contains (hash_table_insert ht s) t <;>
        cases hb : hash_table_contains ht t <;> simp_all
    · rw [holds_filter_key _ _ H2, holds_filter_key ht xs H, hct]

theorem hash_table_insert_frame_witness :
    1 ≤ 1 ∧
    hash_table_contains
      (hash_table_insert (insert_all (create_hash_table 1) ["a b", "b a"]) "a b") "a b"
        = true ∧
    (hash_table_contains (insert_all (create_hash_table 1) ["a b", "b a"]) "a b" = false →
      (hash_table_nodes (insert_all (create_hash_table 1) ["a b", "b a"])).filter
          (fun n => n.kgram = "a b") = [] ∧
      (hash_table_nodes
          (hash_table_insert (insert_all (create_hash_table 1) ["a b", "b a"]) "a b")).filter
          (fun n => n.kgram = "a b") = [{ kgram := "a b", count := 1 }]) ∧
    (hash_table_contains (insert_all (create_hash_table 1) ["a b", "b a"]) "a b" = true →
      ∃ c, 1 ≤ c ∧
        (hash_table_nodes (insert_all (create_hash_table 1) ["a b", "b a"])).filter
          (fun n => n.kgram = "a b") = [{ kgram := "a b", count := c }] ∧
        (hash_table_nodes
          (hash_table_insert (insert_all (create_hash_table 1) ["a b", "b a"]) "a b")).filter
          (fun n => n.kgram = "a b") = [{ kgram := "a b", count := c + 1 }]) ∧
    (hash_table_insert (insert_all (create_hash_table 1) ["a b", "b a"]) "a b").count =
      (if hash_table_contains (insert_all (create_hash_table 1) ["a b", "b a"]) "a b"
          = true then
        (insert_all (create_hash_table 1) ["a b", "b a"]).count
       else (insert_all (create_hash_table 1) ["a b", "b a"]).count + 1) ∧
    ∀ t : String, t ≠ "a b" →
      hash_table_contains
          (hash_table_insert (insert_all (create_hash_table 1) ["a b", "b a"]) "a b") t =
        hash_table_contains (insert_all (create_hash_table 1) ["a b", "b a"]) t ∧
      (hash_table_nodes
          (hash_table_insert (insert_all (create_hash_table 1) ["a b", "b a"]) "a b")).filter
          (fun n => n.kgram = t) =
        (hash_table_nodes (insert_all (create_hash_table 1) ["a b", "b a"])).filter
          (fun n => n.kgram = t) :=
  ⟨by decide, hash_table_insert_frame 1 (by decide) ["a b", "b a"] "a b"⟩

/-- C24: the table obtained from `create_hash_table(size)`, `size ≥ 1`, by any
sequence of `hash_table_insert` calls is well formed: every node lies in the bucket
numbered by the hash of its key, and a hash is always below `size`; no key occurs in
two nodes; every node count is at least 1; and `count` is the number of nodes. -/
theorem hash_table_invariant (size : Nat) (hsize : 1 ≤ size) (xs : List String) :
    (insert_all (create_hash_table size) xs).size = size ∧
    (insert_all (create_hash_table size) xs).table.length = size ∧
    (∀ i n, n ∈ (insert_all (create_hash_table size) xs).table.getD i [] →
      hash_function n.kgram size = i ∧ i < size) ∧
    (∀ str : String, hash_function str size < size) ∧
    (hash_table_keys (insert_all (create_hash_table size) xs)).Nodup ∧
    (∀ n ∈ hash_table_nodes (insert_all (create_hash_table size) xs), 1 ≤ n.count) ∧
    (insert_all (create_hash_table size) xs).count =
      (hash_table_nodes (insert_all (create_hash_table size) xs)).length := by
  have H := (holds_build size hsize xs).wf
  have hs : (insert_all (create_hash_table size) xs).size = size := by
    rw [insert_all_size]; rfl
  refine ⟨hs, by rw [H.length_eq, hs], ?_, fun str => hash_function_lt str size hsize,
    H.nodup_keys, H.count_pos, H.count_eq⟩
  intro i n hn
  have hp := H.placement i n hn
  rw [hs] at hp
  exact ⟨hp, by rw [← hp]; exact hash_function_lt _ size hsize⟩

theorem hash_table_invariant_witness :
    1 ≤ 3 ∧
    (insert_all (create_hash_table 3) ["a b", "b a", "a b"]).size = 3 ∧
    (insert_all (create_hash_table 3) ["a b", "b a", "a b"]).table.length = 3 ∧
    (∀ i n, n ∈ (insert_all (create_hash_table 3) ["a b", "b a", "a b"]).table.getD i [] →
      hash_function n.kgram 3 = i ∧ i < 3) ∧
    (∀ str : String, hash_function str 3 < 3) ∧
    (hash_table_keys (insert_all (create_hash_table 3) ["a b", "b a", "a b"])).Nodup ∧
    (∀ n ∈ hash_table_nodes (insert_all (create_hash_table 3) ["a b", "b a", "a b"]),
      1 ≤ n.count) ∧
    (insert_all (create_hash_table 3) ["a b", "b a", "a b"]).count =
      (hash_table_nodes (insert_all (create_hash_table 3) ["a b", "b a", "a b"])).length :=
  ⟨by decide, hash_table_invariant 3 (by decide) ["a b", "b a", "a b"]⟩

/-! ## Shingle keys -/

theorem intercalate_go_data (acc s : String) (l : List String) :
    (String.intercalate.go acc s l).data =
      acc.data ++ (l.map (fun a => s.data ++ a.data)).flatten := by
  induction l generalizing acc with
  | nil => simp [String.intercalate.go]
  | cons x rest ih => simp [String.intercalate.go, ih, List.append_assoc]

theorem list_intercalate_cons (sep a : List Char) (l : List (List Char)) :
    List.intercalate sep (a :: l) = a ++ (l.map (fun x => sep ++ x)).flatten := by
  induction l generalizing a with
  | nil => simp [List.intercalate]
  | cons x rest ih =>
    have := ih x
    simp only [List.intercalate, List.intersperse, List.flatten_cons, List.map_cons] at this ⊢
    rw [this]
    simp

theorem intercalate_data (s : String) (l : List String) (hl : l ≠ []) :
    (s.intercalate l).data = List.intercalate s.data (l.map String.data) := by
  cases l with
  | nil => exact absurd rfl hl
  | cons a rest =>
    simp only [String.intercalate, intercalate_go_data, List.map_cons, list_intercalate_cons,
      List.map_map]
    rfl

theorem space_data : " ".data = [Char.ofNat 32] := by decide

theorem intercalate_space_injective (a b : List String) (ha : a ≠ []) (hb : b ≠ [])
    (hsa : ∀ t ∈ a, space_free t) (hsb : ∀ t ∈ b, space_free t)
    (h : " ".intercalate a = " ".intercalate b) : a = b := by
  have hd := congrArg String.data h
  rw [intercalate_data _ _ ha, intercalate_data _ _ hb, space_data] at hd
  have h1 := List.splitOn_intercalate (a.map String.data) (Char.ofNat 32)
    (by
      intro l hl hmem
      obtain ⟨t, ht, rfl⟩ := List.mem_map.mp hl
      exact hsa t ht _ hmem rfl)
    (by simpa using ha)
  have h2 := List.splitOn_intercalate (b.map String.data) (Char.ofNat 32)
    (by
      intro l hl hmem
      obtain ⟨t, ht, rfl⟩ := List.mem_map.mp hl
      exact hsb t ht _ hmem rfl)
    (by simpa using hb)
  rw [hd, h2] at h1
  have hinj : Function.Injective String.data := fun x y e => String.ext e
  exact (List.map_injective_iff.mpr hinj h1).symm

theorem build_kgram_whole (a : List String) :
    build_kgram a 0 a.length = " ".intercalate a := by
  rw [build_kgram_eq_window a 0 a.length (by omega)]
  simp [window]

theorem tokenize_text_space_free (reader : DocumentReader) (text : String) :
    ∀ t ∈ (tokenize_text reader text).token_list.tokens, t ≠ "" ∧ space_free t := by
  intro t ht
  rw [tokenize_text_tokens] at ht
  have hmem := List.mem_of_mem_take ht
  simp only [maximal_runs, List.mem_map] at hmem
  obtain ⟨run, hrun, rfl⟩ := hmem
  obtain ⟨h1, h2⟩ := fields_spec text.data run hrun
  refine ⟨fun e => h1 (congrArg String.data e), ?_⟩
  intro c hc e
  have := h2 c hc
  rw [e] at this
  exact absurd this (by decide)

/-- C25: for `k ≥ 1` and two sequences of `k` tokens without a space character (as
all tokens of `tokenize_text` are, which are also non-empty), the keys that
`generate_kgrams` builds by joining them with single spaces are equal exactly when the
sequences are equal; so two windows of one token list get the same key only when they
hold the same tokens. -/
theorem kgram_key_injective (k : Nat) (hk : 1 ≤ k) (a b : List String)
    (ha : a.length = k) (hb : b.length = k)
    (hsa : ∀ t ∈ a, space_free t) (hsb : ∀ t ∈ b, space_free t) :
    (build_kgram a 0 k = build_kgram b 0 k ↔ a = b) ∧
    (" ".intercalate a = " ".intercalate b ↔ a = b) ∧
    (∀ (T : List String) (i j : Nat), (∀ t ∈ T, space_free t) →
      i + k ≤ T.length → j + k ≤ T.length →
      (build_kgram T i k = build_kgram T j k ↔ (T.drop i).take k = (T.drop j).take k)) ∧
    (∀ (reader : DocumentReader) (text : String),
      ∀ t ∈ (tokenize_text reader text).token_list.tokens, t ≠ "" ∧ space_free t) := by
  have hane : a ≠ [] := by
    intro e; rw [e] at ha; simp at ha; omega
  have hbne : b ≠ [] := by
    intro e; rw [e] at hb; simp at hb; omega
  have hjoin : " ".intercalate a = " ".intercalate b ↔ a = b :=
    ⟨intercalate_space_injective a b hane hbne hsa hsb, fun e => by rw [e]⟩
  refine ⟨?_, hjoin, ?_, tokenize_text_space_free⟩
  · have e1 := build_kgram_whole a
    have e2 := build_kgram_whole b
    rw [ha] at e1
    rw [hb] at e2
    rw [e1, e2]
    exact hjoin
  · intro T i j hT hi hj
    rw [build_kgram_eq_window T i k hi, build_kgram_eq_window T j k hj]
    unfold window
    constructor
    · intro h
      apply intercalate_space_injective _ _ _ _ _ _ h
      · intro e
        have := congrArg List.length e
        simp at this
        omega
      · intro e
        have := congrArg List.length e
        simp at this
        omega
      · intro t ht
        exact hT t (List.mem_of_mem_drop (List.mem_of_mem_take ht))
      · intro t ht
        exact hT t (List.mem_of_mem_drop (List.mem_of_mem_take ht))
    · intro e
      rw [e]

theorem kgram_key_injective_witness :
    1 ≤ 2 ∧ (["a", "b"] : List String).length = 2 ∧ (["a", "c"] : List String).length = 2 ∧
    (∀ t ∈ (["a", "b"] : List String), space_free t) ∧
    (∀ t ∈ (["a", "c"] : List String), space_free t) ∧
    ((build_kgram ["a", "b"] 0 2 = build_kgram ["a", "c"] 0 2 ↔
        (["a", "b"] : List String) = ["a", "c"]) ∧
     (" ".intercalate ["a", "b"] = " ".intercalate ["a", "c"] ↔
        (["a", "b"] : List String) = ["a", "c"]) ∧
     (∀ (T : List String) (i j : Nat), (∀ t ∈ T, space_free t) →
       i + 2 ≤ T.length → j + 2 ≤ T.length →
       (build_kgram T i 2 = build_kgram T j 2 ↔ (T.drop i).take 2 = (T.drop j).take 2)) ∧
     (∀ (reader : DocumentReader) (text : String),
       ∀ t ∈ (tokenize_text reader text).token_list.tokens, t ≠ "" ∧ space_free t)) :=
  ⟨by decide, rfl, rfl, by simp [space_free], by simp [space_free],
    kgram_key_injective 2 (by decide) ["a", "b"] ["a", "c"] rfl rfl
      (by simp [space_free]) (by simp [space_free])⟩

/-! ## Order of the two metrics -/

/-- C26: for built shingle sets the exact Jaccard value never exceeds the exact cosine
value; so the combined score `0.6 * jaccard + 0.4 * cosine` lies between the two and in
`[0, 1]`, and for the documents as `compare_documents` leaves them (holding built sets)
every pairwise combined score and their arithmetic mean lie in `[0, 1]`, all in exact
arithmetic. -/
theorem jaccard_le_cosine (A B : Option HashTable) (hA : Built A) (hB : Built B) :
    ((calculate_jaccard_similarity A B : ℚ) : ℝ) ≤ calculate_cosine_similarity A B ∧
    ((calculate_jaccard_similarity A B : ℚ) : ℝ) ≤
      combined_similarity ((calculate_jaccard_similarity A B : ℚ) : ℝ)
        (calculate_cosine_similarity A B) ∧
    combined_similarity ((calculate_jaccard_similarity A B : ℚ) : ℝ)
        (calculate_cosine_similarity A B) ≤ calculate_cosine_similarity A B ∧
    0 ≤ combined_similarity ((calculate_jaccard_similarity A B : ℚ) : ℝ)
        (calculate_cosine_similarity A B) ∧
    combined_similarity ((calculate_jaccard_similarity A B : ℚ) : ℝ)
        (calculate_cosine_similarity A B) ≤ 1 ∧
    ∀ (c : PlagiarismChecker) (k : Int) (t : DocumentReader), CheckerOk c →
      c.target_doc = some t → 1 ≤ c.reference_count → Built t.kgram_hash →
      (∀ i, i < c.reference_count → ∀ d, c.reference_docs.getD i none = some d →
        Built d.kgram_hash) →
      (∀ i, i < c.reference_count →
        0 ≤ exact_score (compare_documents c k).1.target_doc
          ((compare_documents c k).1.reference_docs.getD i none) ∧
        exact_score (compare_documents c k).1.target_doc
          ((compare_documents c k).1.reference_docs.getD i none) ≤ 1) ∧
      0 ≤ exact_mean (compare_documents c k).1 ∧
      exact_mean (compare_documents c k).1 ≤ 1 := by
  obtain ⟨h0, h1, h2⟩ := similarity_order_built A B hA hB
  obtain ⟨b1, b2, b3, b4⟩ := combined_between _ _ h0 h1 h2
  refine ⟨h1, b1, b2, b3, b4, ?_⟩
  intro c k t ok ht hn hbt hbd
  exact exact_scores_unit_interval c k t ok ht hn hbt hbd

theorem jaccard_le_cosine_witness :
    Built (some scenario_target) ∧ Built (some scenario_reference) ∧
    (((calculate_jaccard_similarity (some scenario_target) (some scenario_reference) : ℚ) : ℝ)
        ≤ calculate_cosine_similarity (some scenario_target) (some scenario_reference) ∧
    ((calculate_jaccard_similarity (some scenario_target) (some scenario_reference) : ℚ) : ℝ)
        ≤ combined_similarity
          ((calculate_jaccard_similarity (some scenario_target)
            (some scenario_reference) : ℚ) : ℝ)
          (calculate_cosine_similarity (some scenario_target) (some scenario_reference)) ∧
    combined_similarity
        ((calculate_jaccard_similarity (some scenario_target)
          (some scenario_reference) : ℚ) : ℝ)
        (calculate_cosine_similarity (some scenario_target) (some scenario_reference)) ≤
      calculate_cosine_similarity (some scenario_target) (some scenario_reference) ∧
    0 ≤ combined_similarity
        ((calculate_jaccard_similarity (some scenario_target)
          (some scenario_reference) : ℚ) : ℝ)
        (calculate_cosine_similarity (some scenario_target) (some scenario_reference)) ∧
    combined_similarity
        ((calculate_jaccard_similarity (some scenario_target)
          (some scenario_reference) : ℚ) : ℝ)
        (calculate_cosine_similarity (some scenario_target) (some scenario_reference)) ≤ 1 ∧
    ∀ (c : PlagiarismChecker) (k : Int) (t : DocumentReader), CheckerOk c →
      c.target_doc = some t → 1 ≤ c.reference_count → Built t.kgram_hash →
      (∀ i, i < c.reference_count → ∀ d, c.reference_docs.getD i none = some d →
        Built d.kgram_hash) →
      (∀ i, i < c.reference_count →
        0 ≤ exact_score (compare_documents c k).1.target_doc
          ((compare_documents c k).1.reference_docs.getD i none) ∧
        exact_score (compare_documents c k).1.target_doc
          ((compare_documents c k).1.reference_docs.getD i none) ≤ 1) ∧
      0 ≤ exact_mean (compare_documents c k).1 ∧
      exact_mean (compare_documents c k).1 ≤ 1) :=
  ⟨built_insert_all HASH_TABLE_SIZE (by decide) _,
    built_insert_all HASH_TABLE_SIZE (by decide) _,
    jaccard_le_cosine (some scenario_target) (some scenario_reference)
      (built_insert_all HASH_TABLE_SIZE (by decide) _)
      (built_insert_all HASH_TABLE_SIZE (by decide) _)⟩

/-! ## The ensure step of the comparator -/

/-- C23: the ensure step of `compare_documents` leaves a document untouched when it
holds a shingle set tagged with the requested `k`. When it holds none, or one tagged
with another `k`, and `k` is valid, the document afterwards holds the k-gram list and
the shingle set built from its current tokens for `k`, tagged `k`: the table is the one
a fresh document with these tokens gets, so for every string its entry is the number
of windows producing it and nothing of the old set is left. The shingle set is a single
field, so a document holds at most one. `compare_documents` applies this step to the
target and to every reference. -/
theorem ensure_kgrams_cache (doc : DocumentReader) (k : Int) :
    ((doc.kgram_hash ≠ none ∧ doc.kgram_list.k_value = k) → ensure_kgrams doc k = doc) ∧
    ((doc.kgram_hash = none ∨ doc.kgram_list.k_value ≠ k) → 1 ≤ k →
      k ≤ (doc.token_list.count : Int) →
      (ensure_kgrams doc k).token_list = doc.token_list ∧
      (ensure_kgrams doc k).kgram_list.k_value = k ∧
      (ensure_kgrams doc k).kgram_list.kgrams = windows doc.token_list.tokens k.toNat ∧
      (ensure_kgrams doc k).kgram_hash =
        some (insert_all (create_hash_table HASH_TABLE_SIZE)
          (windows doc.token_list.tokens k.toNat)) ∧
      (ensure_kgrams doc k).kgram_hash =
        (generate_kgrams (without_kgrams doc) k).1.kgram_hash ∧
      ∀ s : String,
        (hash_table_nodes (insert_all (create_hash_table HASH_TABLE_SIZE)
            (windows doc.token_list.tokens k.toNat))).filter (fun n => n.kgram = s) =
          if window_positions doc.token_list.tokens k.toNat s = 0 then []
          else [{ kgram := s
                  count := window_positions doc.token_list.tokens k.toNat s }]) ∧
    (∀ (c : PlagiarismChecker), CheckerOk c → c.reference_count ≠ 0 →
      (c.target_doc = some doc →
        (compare_documents c k).1.target_doc = some (ensure_kgrams doc k)) ∧
      (∀ i, i < c.reference_count → c.target_doc ≠ none →
        c.reference_docs.getD i none = some doc →
        (compare_documents c k).1.reference_docs.getD i none =
          some (ensure_kgrams doc k))) := by
  refine ⟨ensure_kgrams_hit doc k, ?_, ?_⟩
  · intro hmiss h1 h2
    rw [ensure_kgrams_miss doc k hmiss, generate_kgrams_valid doc k h1 h2,
      generate_kgrams_valid (without_kgrams doc) k h1 h2]
    refine ⟨rfl, rfl, rfl, rfl, rfl, ?_⟩
    intro s
    have H := holds_build HASH_TABLE_SIZE (by decide) (windows doc.token_list.tokens k.toNat)
    rw [← count_windows]
    exact holds_filter_key _ _ H s
  · intro c ok hn
    constructor
    · intro ht
      exact (compare_documents_compared c k ok doc ht hn).2.1
    · intro i hi htn hd
      cases ht : c.target_doc with
      | none => exact absurd ht htn
      | some t => exact ((compare_documents_compared c k ok t ht hn).2.2.1 i hi doc hd).1

theorem ensure_kgrams_cache_witness :
    ((sample_reader.kgram_hash ≠ none ∧ sample_reader.kgram_list.k_value = 2) →
      ensure_kgrams sample_reader 2 = sample_reader) ∧
    ((sample_reader.kgram_hash = none ∨ sample_reader.kgram_list.k_value ≠ 2) → (1 : Int) ≤ 2 →
      (2 : Int) ≤ (sample_reader.token_list.count : Int) →
      (ensure_kgrams sample_reader 2).token_list = sample_reader.token_list ∧
      (ensure_kgrams sample_reader 2).kgram_list.k_value = 2 ∧
      (ensure_kgrams sample_reader 2).kgram_list.kgrams =
        windows sample_reader.token_list.tokens (2 : Int).toNat ∧
      (ensure_kgrams sample_reader 2).kgram_hash =
        some (insert_all (create_hash_table HASH_TABLE_SIZE)
          (windows sample_reader.token_list.tokens (2 : Int).toNat)) ∧
      (ensure_kgrams sample_reader 2).kgram_hash =
        (generate_kgrams (without_kgrams sample_reader) 2).1.kgram_hash ∧
      ∀ s : String,
        (hash_table_nodes (insert_all (create_hash_table HASH_TABLE_SIZE)
            (windows sample_reader.token_list.tokens (2 : Int).toNat))).filter
            (fun n => n.kgram = s) =
          if window_positions sample_reader.token_list.tokens (2 : Int).toNat s = 0 then []
          else [{ kgram := s
                  count := window_positions sample_reader.token_list.tokens
                    (2 : Int).toNat s }]) ∧
    (∀ (c : PlagiarismChecker), CheckerOk c → c.reference_count ≠ 0 →
      (c.target_doc = some sample_reader →
        (compare_documents c 2).1.target_doc = some (ensure_kgrams sample_reader 2)) ∧
      (∀ i, i < c.reference_count → c.target_doc ≠ none →
        c.reference_docs.getD i none = some sample_reader →
        (compare_documents c 2).1.reference_docs.getD i none =
          some (ensure_kgrams sample_reader 2))) :=
  ensure_kgrams_cache sample_reader 2

end Plagiarism
